import Mathlib

/-!
# node-tree-sitter binding layer: verification development

A shallow embedding of the binding layer (`node.cc`, `parser.cc`, `query.cc`, `tree.h`,
`language.cc`, `logger.cc`) and the properties proved about it.  The parsing engine is an external collaborator:
its trees, cursors and queries are represented by the data the binding observes through
the engine's API.
-/

set_option autoImplicit false

namespace NodeTreeSitter

/-! ## Engine data -/

/-- A `TSPoint`: row and column, both `uint32_t`. -/
structure TSPoint where
  row : Nat
  column : Nat
deriving DecidableEq, Repr

/-- The comparison `operator<=(const TSPoint &, const TSPoint &)` of node.cc. -/
def TSPoint.le (left right : TSPoint) : Bool :=
  if left.row < right.row then true
  else if left.row > right.row then false
  else decide (left.column ≤ right.column)

/-- Row-major strict order on points. -/
def TSPoint.before (a b : TSPoint) : Prop :=
  a.row < b.row ∨ (a.row = b.row ∧ a.column < b.column)

instance (a b : TSPoint) : Decidable (a.before b) := by
  unfold TSPoint.before; infer_instance

/-- Row-major non-strict order on points. -/
def TSPoint.notAfter (a b : TSPoint) : Prop :=
  a.row < b.row ∨ (a.row = b.row ∧ a.column ≤ b.column)

instance (a b : TSPoint) : Decidable (a.notAfter b) := by
  unfold TSPoint.notAfter; infer_instance

/-- A `TSNode` handle: four engine-private context words, the identity pointer `id`
(`0` is the null identity) and the engine tree it belongs to. -/
structure TSNode where
  context0 : Nat
  context1 : Nat
  context2 : Nat
  context3 : Nat
  id : Nat
  tree : Nat
deriving DecidableEq, Repr

/-- The engine's read accessors on node handles (`ts_node_symbol`, `ts_node_start_point`,
`ts_node_end_point`, `ts_node_is_named`). -/
structure Engine where
  ts_node_symbol : TSNode → Nat
  ts_node_start_point : TSNode → TSPoint
  ts_node_end_point : TSNode → TSPoint
  ts_node_is_named : TSNode → Bool

/-- A sequence of sibling nodes as the tree cursor sees it: every node carries the
sequence of its children and is followed by the sequence of its next siblings. -/
inductive Forest where
  | nil : Forest
  | cons (node : TSNode) (children : Forest) (next : Forest) : Forest
deriving Repr

/-- A node together with its children, as handed to `ts_tree_cursor_reset`. -/
structure Subtree where
  node : TSNode
  children : Forest
deriving Repr

/-- Number of nodes of a forest. -/
def Forest.size : Forest → Nat
  | .nil => 0
  | .cons _ children next => 1 + children.size + next.size

/-- Pre-order (document order) listing of the nodes of a forest. -/
def Forest.preorder : Forest → List TSNode
  | .nil => []
  | .cons node children next => node :: (children.preorder ++ next.preorder)

/-- Pre-order listing of a node and its descendants. -/
def Subtree.preorder (t : Subtree) : List TSNode :=
  t.node :: t.children.preorder

/-! ## The engine's tree cursor -/

/-- One level of the cursor stack: a node, its children and its following siblings. -/
structure CursorEntry where
  node : TSNode
  children : Forest
  next : Forest
deriving Repr

/-- The cursor `TSTreeCursor`: the entry of the current node and the entries of its
ancestors up to the node the cursor was reset to, nearest first. -/
structure TSTreeCursor where
  top : CursorEntry
  stack : List CursorEntry
deriving Repr

/-- The engine call `ts_tree_cursor_reset`: the cursor is confined to the given node's
subtree, so the node has neither siblings nor parent for the cursor. -/
def ts_tree_cursor_reset (t : Subtree) : TSTreeCursor :=
  { top := { node := t.node, children := t.children, next := .nil }, stack := [] }

def ts_tree_cursor_current_node (c : TSTreeCursor) : TSNode :=
  c.top.node

/-- The engine call `ts_tree_cursor_goto_first_child`; `none` stands for `false`, in which
case the cursor is left unchanged. -/
def ts_tree_cursor_goto_first_child (c : TSTreeCursor) : Option TSTreeCursor :=
  match c.top.children with
  | .nil => none
  | .cons node children next =>
    some { top := { node := node, children := children, next := next },
           stack := c.top :: c.stack }

/-- The engine call `ts_tree_cursor_goto_next_sibling`. -/
def ts_tree_cursor_goto_next_sibling (c : TSTreeCursor) : Option TSTreeCursor :=
  match c.top.next with
  | .nil => none
  | .cons node children next =>
    some { top := { node := node, children := children, next := next }, stack := c.stack }

/-- The engine call `ts_tree_cursor_goto_parent`. -/
def ts_tree_cursor_goto_parent (c : TSTreeCursor) : Option TSTreeCursor :=
  match c.stack with
  | [] => none
  | parent :: rest => some { top := parent, stack := rest }

/-! ## Host values -/

/-- The host (JavaScript) values that cross the boundary. `obj` is a reference to a host
object, compared by reference; `regexp` is a `RegExp` object built from a source string. -/
inductive JsValue where
  | undefined
  | null
  | bool (b : Bool)
  | num (n : Nat)
  | str (s : String)
  | obj (ref : Nat)
  | regexp (source : String)
deriving DecidableEq, Repr

/-- An argument that is either a single host value or a host array. -/
inductive JsArg where
  | value (v : JsValue)
  | array (items : List JsValue)
deriving DecidableEq, Repr

/-! ## Symbol sets (node.cc) -/

/-- A language's symbol table: the name of each symbol, indexed by symbol id.  Symbol ids
are `uint16_t` and the top value is reserved, so a table has at most 65535 entries. -/
structure TSLanguage where
  symbol_names : List String
  symbol_count_le : symbol_names.length ≤ 65535

def ts_language_symbol_count (language : TSLanguage) : Nat :=
  language.symbol_names.length

/-- The value `static_cast<TSSymbol>(-1)`. -/
def ERROR_SYMBOL : Nat := 65535

/-- The struct `SymbolSet` of node.cc. -/
structure SymbolSet where
  symbols : List Nat
deriving DecidableEq, Repr

def SymbolSet.add (s : SymbolSet) (symbol : Nat) : SymbolSet :=
  { symbols := s.symbols ++ [symbol] }

def SymbolSet.contains (s : SymbolSet) (symbol : Nat) : Bool :=
  s.symbols.contains symbol

/-- The inner loop of `symbol_set_from_js`: every symbol whose name equals `node_type`
is added, in increasing order of symbol id. -/
def symbol_set_add_named (names : List String) (node_type : String) :
    Nat → SymbolSet → SymbolSet
  | j, symbols =>
    match names with
    | [] => symbols
    | name :: rest =>
      symbol_set_add_named rest node_type (j + 1)
        (if node_type = name then symbols.add j else symbols)

/-- The loop over `js_types` in `symbol_set_from_js`; `none` is the `TypeError` return. -/
def symbol_set_from_items (language : TSLanguage) :
    List JsValue → SymbolSet → Option SymbolSet
  | [], symbols => some symbols
  | .str node_type :: rest, symbols =>
    if node_type = "ERROR" then
      symbol_set_from_items language rest (symbols.add ERROR_SYMBOL)
    else
      symbol_set_from_items language rest
        (symbol_set_add_named language.symbol_names node_type 0 symbols)
  | _ :: _, _ => none

/-- The function `symbol_set_from_js`: `none` when it throws the `TypeError`
"Argument must be a string or array of strings" and returns `false`. -/
def symbol_set_from_js (symbols : SymbolSet) (value : JsArg) (language : TSLanguage) :
    Option SymbolSet :=
  match value with
  | .value _ => none
  | .array js_types => symbol_set_from_items language js_types symbols

/-! ## Bounded descendant search (node.cc, `NodeMethods::DescendantsOfType`) -/

/-- The local state of the `while (true)` loop of `DescendantsOfType`. -/
structure SearchState where
  cursor : TSTreeCursor
  already_visited_children : Bool
  found : List TSNode
deriving Repr

/-- One pass through the body of the `while (true)` loop: `Sum.inl` is the state at the
next pass, `Sum.inr` is the content of `found` when the loop is left by `break`. -/
def DescendantsOfType.iteration (E : Engine) (symbols : SymbolSet)
    (start_point end_point : TSPoint) (s : SearchState) : SearchState ⊕ List TSNode :=
  let descendant := ts_tree_cursor_current_node s.cursor
  if !s.already_visited_children then
    if (E.ts_node_end_point descendant).le start_point then
      match ts_tree_cursor_goto_next_sibling s.cursor with
      | some c => .inl { cursor := c, already_visited_children := false, found := s.found }
      | none =>
        match ts_tree_cursor_goto_parent s.cursor with
        | none => .inr s.found
        | some c => .inl { cursor := c, already_visited_children := true, found := s.found }
    else if end_point.le (E.ts_node_start_point descendant) then .inr s.found
    else
      let found :=
        if symbols.contains (E.ts_node_symbol descendant) then s.found ++ [descendant]
        else s.found
      match ts_tree_cursor_goto_first_child s.cursor with
      | some c => .inl { cursor := c, already_visited_children := false, found := found }
      | none =>
        match ts_tree_cursor_goto_next_sibling s.cursor with
        | some c => .inl { cursor := c, already_visited_children := false, found := found }
        | none =>
          match ts_tree_cursor_goto_parent s.cursor with
          | none => .inr found
          | some c => .inl { cursor := c, already_visited_children := true, found := found }
  else
    match ts_tree_cursor_goto_next_sibling s.cursor with
    | some c => .inl { cursor := c, already_visited_children := false, found := s.found }
    | none =>
      match ts_tree_cursor_goto_parent s.cursor with
      | none => .inr s.found
      | some c => .inl { cursor := c, already_visited_children := true, found := s.found }

/-- The `while (true)` loop, run for at most `fuel` passes; `none` when the passes are
used up before the loop is left. -/
def DescendantsOfType.loop (E : Engine) (symbols : SymbolSet)
    (start_point end_point : TSPoint) : Nat → SearchState → Option (List TSNode)
  | 0, _ => none
  | fuel + 1, s =>
    match DescendantsOfType.iteration E symbols start_point end_point s with
    | .inr found => some found
    | .inl s' => DescendantsOfType.loop E symbols start_point end_point fuel s'

/-- The search of `DescendantsOfType` from `ts_tree_cursor_reset` to the end of the loop:
the content of the vector `found` that is handed to `MarshalNodes`. -/
def DescendantsOfType.search (E : Engine) (symbols : SymbolSet)
    (start_point end_point : TSPoint) (t : Subtree) : Option (List TSNode) :=
  DescendantsOfType.loop E symbols start_point end_point (2 * t.children.size + 3)
    { cursor := ts_tree_cursor_reset t, already_visited_children := false, found := [] }

/-- The result of `NodeMethods::DescendantsOfType` before marshalling: `undefined` for the
early returns (null identity, rejected type names), otherwise the nodes found. -/
inductive DescendantsResult where
  | undefined
  | nodes (found : Option (List TSNode))
deriving DecidableEq, Repr

/-- The method `NodeMethods::DescendantsOfType`, with the decoded start node, the type-name
argument and the two points (already converted to engine units) as inputs. -/
def DescendantsOfType (E : Engine) (language : TSLanguage) (t : Subtree) (types : JsArg)
    (start_point end_point : TSPoint) : DescendantsResult :=
  if t.node.id = 0 then .undefined
  else
    match symbol_set_from_js { symbols := [] } types language with
    | none => .undefined
    | some symbols => .nodes (DescendantsOfType.search E symbols start_point end_point t)

/-- The two range comparisons of the loop of `DescendantsOfType` both fail for the node, so
that the node is neither skipped nor ends the search: `ts_node_end_point(descendant) <=
start_point` is false (the node ends after `start_point`) and `end_point <=
ts_node_start_point(descendant)` is false (the node starts before `end_point`). -/
def DescendantsOfType.inRange (E : Engine) (start_point end_point : TSPoint) (n : TSNode) :
    Prop :=
  start_point.before (E.ts_node_end_point n) ∧ (E.ts_node_start_point n).before end_point

instance (E : Engine) (a b : TSPoint) (n : TSNode) :
    Decidable (DescendantsOfType.inRange E a b n) := by
  unfold DescendantsOfType.inRange; infer_instance

/-- Spec side, after the words "whose span intersects `[start, end)`": the half-open span
of the node and the half-open range `[start_point, end_point)` have a point in common. -/
def spanIntersects (E : Engine) (start_point end_point : TSPoint) (n : TSNode) : Prop :=
  ∃ p : TSPoint, (E.ts_node_start_point n).notAfter p ∧ p.before (E.ts_node_end_point n) ∧
    start_point.notAfter p ∧ p.before end_point

/-- Spec side, after the words "descendants of `root`": the nodes below the start node, in
pre-order; the start node is not among its own descendants. -/
def Subtree.descendants (t : Subtree) : List TSNode :=
  t.children.preorder

/-- Well-formed sibling sequence inside the span `[lo, hi]`: every node has a span that
starts no later than it ends, siblings follow one another left to right without overlap
inside `[lo, hi]`, and the children of a node lie inside the node's span. -/
def Forest.wellFormed (E : Engine) : TSPoint → TSPoint → Forest → Prop
  | _, _, .nil => True
  | lo, hi, .cons node children next =>
    lo.notAfter (E.ts_node_start_point node) ∧
    (E.ts_node_start_point node).notAfter (E.ts_node_end_point node) ∧
    (E.ts_node_end_point node).notAfter hi ∧
    Forest.wellFormed E (E.ts_node_start_point node) (E.ts_node_end_point node) children ∧
    Forest.wellFormed E (E.ts_node_end_point node) hi next

instance Forest.decidableWellFormed (E : Engine) :
    (lo hi : TSPoint) → (f : Forest) → Decidable (f.wellFormed E lo hi)
  | _, _, .nil => isTrue trivial
  | _, hi, .cons node children next =>
    let _ := Forest.decidableWellFormed E (E.ts_node_start_point node)
      (E.ts_node_end_point node) children
    let _ := Forest.decidableWellFormed E (E.ts_node_end_point node) hi next
    inferInstanceAs (Decidable (_ ∧ _ ∧ _ ∧ _ ∧ _))

/-- Well-formed tree: children's spans nested in the parent's span and ordered left to
right. -/
def Subtree.wellFormed (E : Engine) (t : Subtree) : Prop :=
  (E.ts_node_start_point t.node).notAfter (E.ts_node_end_point t.node) ∧
  t.children.wellFormed E (E.ts_node_start_point t.node) (E.ts_node_end_point t.node)

instance (E : Engine) (t : Subtree) : Decidable (t.wellFormed E) := by
  unfold Subtree.wellFormed; infer_instance

/-- Recursive description of the search over a sibling sequence: the nodes recorded and
whether the search was ended by the `break` at a node starting at or after `end_point`. -/
def walkForest (E : Engine) (symbols : SymbolSet) (start_point end_point : TSPoint) :
    Forest → List TSNode × Bool
  | .nil => ([], false)
  | .cons node children next =>
    if (E.ts_node_end_point node).le start_point then
      walkForest E symbols start_point end_point next
    else if end_point.le (E.ts_node_start_point node) then ([], true)
    else
      let here := if symbols.contains (E.ts_node_symbol node) then [node] else []
      let inner := walkForest E symbols start_point end_point children
      if inner.2 then (here ++ inner.1, true)
      else
        let rest := walkForest E symbols start_point end_point next
        (here ++ inner.1 ++ rest.1, rest.2)

/-- Recursive description of the search started at a node. -/
def walkSubtree (E : Engine) (symbols : SymbolSet) (start_point end_point : TSPoint)
    (t : Subtree) : List TSNode :=
  if (E.ts_node_end_point t.node).le start_point then []
  else if end_point.le (E.ts_node_start_point t.node) then []
  else
    (if symbols.contains (E.ts_node_symbol t.node) then [t.node] else []) ++
      (walkForest E symbols start_point end_point t.children).1

/-! ### The 3-node chain of the specification -/

def chainNode (id : Nat) : TSNode :=
  { context0 := 0, context1 := 0, context2 := 0, context3 := 0, id := id, tree := 1 }

/-- Engine accessors for the chain: node `1` is `A = [0,10)` with symbol 0, node `2` is
`B = [2,8)` with symbol 1, node `3` is `C = [4,6)` with symbol 2, all on row 0. -/
def chainEngine : Engine where
  ts_node_symbol n := n.id - 1
  ts_node_start_point n := { row := 0, column := 2 * (n.id - 1) }
  ts_node_end_point n := { row := 0, column := 12 - 2 * n.id }
  ts_node_is_named _ := true

def chainLanguage : TSLanguage where
  symbol_names := ["A", "B", "C"]
  symbol_count_le := by decide

/-- The chain `A → B → C`. -/
def chainTree : Subtree where
  node := chainNode 1
  children := .cons (chainNode 2) (.cons (chainNode 3) .nil .nil) .nil

/-! ## Node handle codec and identity cache (node.cc, tree.h) -/

def FIELD_COUNT_PER_NODE : Nat := 6

/-- The struct `Tree::NodeCacheEntry`; `node` is the reference to the host wrapper object. -/
structure NodeCacheEntry where
  key : Nat
  node : Nat
deriving DecidableEq, Repr

/-- The class `Tree`: the engine tree handle `tree_` and the map `cached_nodes_` from node
identity to cache entry. -/
structure Tree where
  tree_ : Nat
  cached_nodes_ : List (Nat × NodeCacheEntry)
deriving Repr

/-- The lookup `tree->cached_nodes_.find(id)`; `none` is `cached_nodes_.end()`. -/
def Tree.find (tree : Tree) (id : Nat) : Option NodeCacheEntry :=
  tree.cached_nodes_.lookup id

/-- The function `setup_transfer_buffer`, on the words of the global `transfer_buffer`
(its length is `transfer_buffer_length`).  The words of a fresh allocation are unspecified
and are represented by zeros. -/
def setup_transfer_buffer (transfer_buffer : List Nat) (node_count : Nat) : List Nat :=
  let new_length := (node_count * FIELD_COUNT_PER_NODE) % 2 ^ 32
  if new_length > transfer_buffer.length then List.replicate new_length 0
  else transfer_buffer

/-- Modelled from the spec: `MarshalPointer` of util.h, which is not among the sources.
The identity value is split into two 32-bit words, low word first. -/
def MarshalPointer (id : Nat) (transfer_buffer : List Nat) (p : Nat) : List Nat :=
  (transfer_buffer.set p (id % 2 ^ 32)).set (p + 1) (id / 2 ^ 32 % 2 ^ 32)

/-- Modelled from the spec: `UnmarshalPointer` of util.h, which is not among the sources.
The identity value is rebuilt from its low and high 32-bit words. -/
def UnmarshalPointer (transfer_buffer : List Nat) (p : Nat) : Nat :=
  transfer_buffer.getD p 0 + 2 ^ 32 * transfer_buffer.getD (p + 1) 0

/-- The six stores of one node record at word offset `p`, shared by `MarshalNode` and
`MarshalNodes`. -/
def write_node_record (transfer_buffer : List Nat) (p : Nat) (node : TSNode) : List Nat :=
  ((((MarshalPointer node.id transfer_buffer p).set (p + 2) node.context0).set (p + 3)
    node.context1).set (p + 4) node.context2).set (p + 5) node.context3

/-- The function `MarshalNode`: the returned host value and the transfer buffer afterwards. -/
def MarshalNode (E : Engine) (tree : Tree) (node : TSNode) (transfer_buffer : List Nat) :
    JsValue × List Nat :=
  match tree.find node.id with
  | none =>
    let buffer := write_node_record (setup_transfer_buffer transfer_buffer 1) 0 node
    if node.id ≠ 0 then (.num (E.ts_node_symbol node), buffer)
    else (.null, buffer)
  | some cache_entry => (.obj cache_entry.node, transfer_buffer)

/-- The function `MarshalNullNode`: the first six words are zeroed. -/
def MarshalNullNode (transfer_buffer : List Nat) : JsValue × List Nat :=
  (.null, (List.range FIELD_COUNT_PER_NODE).foldl (fun b i => b.set i 0) transfer_buffer)

/-- The function `UnmarshalNode`: the decoded handle and the exception thrown, if any. -/
def UnmarshalNode (tree : Option Tree) (transfer_buffer : List Nat) :
    TSNode × Option String :=
  match tree with
  | none =>
    ({ context0 := 0, context1 := 0, context2 := 0, context3 := 0, id := 0, tree := 0 },
      some "Argument must be a tree")
  | some tree =>
    ({ tree := tree.tree_,
       id := UnmarshalPointer transfer_buffer 0,
       context0 := transfer_buffer.getD 2 0,
       context1 := transfer_buffer.getD 3 0,
       context2 := transfer_buffer.getD 4 0,
       context3 := transfer_buffer.getD 5 0 }, none)

/-! ## Nearest ancestor of a type (node.cc, `NodeMethods::Closest`) -/

/-- The `for (;;)` loop of `Closest`.  The argument is the parent chain of the current node,
nearest first: `ts_node_parent` yields its head, or the null node when it is empty. -/
def Closest.loop (E : Engine) (symbols : SymbolSet) : List TSNode → Option TSNode
  | [] => none
  | parent :: ancestors =>
    if parent.id = 0 then none
    else if symbols.contains (E.ts_node_symbol parent) then some parent
    else Closest.loop E symbols ancestors

/-- The method `NodeMethods::Closest` for the decoded node and its parent chain: the
returned host value and the transfer buffer afterwards. -/
def Closest (E : Engine) (language : TSLanguage) (tree : Tree) (node : TSNode)
    (ancestors : List TSNode) (types : JsArg) (transfer_buffer : List Nat) :
    JsValue × List Nat :=
  if node.id = 0 then (.undefined, transfer_buffer)
  else
    match symbol_set_from_js { symbols := [] } types language with
    | none => (.undefined, transfer_buffer)
    | some symbols =>
      match Closest.loop E symbols ancestors with
      | some parent => MarshalNode E tree parent transfer_buffer
      | none => MarshalNullNode transfer_buffer

/-! ## Chunked pull reader (parser.cc, `CallbackInput`) -/

/-- UTF-16 code units of one character. -/
def utf16Units (c : Char) : List Nat :=
  if c.toNat < 0x10000 then [c.toNat]
  else [0xD800 + (c.toNat - 0x10000) / 0x400, 0xDC00 + (c.toNat - 0x10000) % 0x400]

/-- UTF-16 code units of a host string. -/
def utf16 (s : String) : List Nat :=
  s.toList.flatMap utf16Units

/-- The host runtime's `napi_get_value_string_utf16` with a destination buffer of `bufsize`
code units: the string is truncated to `bufsize - 1` units to leave room for the
terminating NUL; the result is the units copied. -/
def napi_get_value_string_utf16 (value : String) (bufsize : Nat) : List Nat :=
  (utf16 value).take (bufsize - 1)

/-- Modelled from the spec: `ByteCountToJS` of conversions.h, which is not among the sources.
An engine byte offset is divided by 2. -/
def ByteCountToJS (byte : Nat) : Nat := byte / 2

/-- Modelled from the spec: `PointToJS` of conversions.h, which is not among the sources.
The column of an engine point is halved. -/
def PointToJS (position : TSPoint) : TSPoint :=
  { row := position.row, column := position.column / 2 }

/-- The class `CallbackInput`: the host callback (`none` when the call leaves an exception
pending), the size of `buffer` in code units, `byte_offset` and `partial_string` (`none`
when the reference is empty). -/
structure CallbackInput where
  callback : Nat → TSPoint → Option JsValue
  buffer_size : Nat
  byte_offset : Nat
  partial_string : Option String

/-- What one call of `CallbackInput::Read` hands back: the code units at the returned
pointer (`none` for `nullptr`), `*bytes_read`, and the reader afterwards. -/
structure ReadResult where
  data : Option (List Nat)
  bytes_read : Nat
  reader : CallbackInput

/-- The function `CallbackInput::Read`. -/
def CallbackInput.Read (reader0 : CallbackInput) (byte : Nat) (position : TSPoint) :
    ReadResult :=
  let reader :=
    if byte ≠ reader0.byte_offset then
      { reader0 with byte_offset := byte, partial_string := none }
    else reader0
  let result : Option String :=
    match reader.partial_string with
    | some s => some s
    | none =>
      match reader.callback (ByteCountToJS byte) (PointToJS position) with
      | some (.str s) => some s
      | _ => none
  match result with
  | none => { data := none, bytes_read := 0, reader := reader }
  | some result =>
    let length := (utf16 result).length
    let copied := napi_get_value_string_utf16 result reader.buffer_size
    let utf16_units_read := copied.length
    let bytes_read := 2 * utf16_units_read
    { data := some copied,
      bytes_read := bytes_read,
      reader :=
        { reader with
          byte_offset := reader.byte_offset + bytes_read,
          partial_string := if utf16_units_read < length then some result else none } }

/-- The engine's sequential use of the reader: `count` reads, each at the byte offset where
the previous one ended; the list of the chunks handed back. -/
def sequentialReads (reader : CallbackInput) (byte : Nat) (position : TSPoint) :
    Nat → List (Option (List Nat))
  | 0 => []
  | count + 1 =>
    let r := reader.Read byte position
    r.data :: sequentialReads r.reader (byte + r.bytes_read) position count

/-- A host callback serving the text from the requested index on, and `null` at its end. -/
def textCallback (text : String) (index : Nat) (_position : TSPoint) : Option JsValue :=
  if index < text.length then some (.str (text.drop index)) else some .null

/-- A fresh reader over "hello world" with a scratch buffer of 5 code units. -/
def helloReader : CallbackInput where
  callback := textCallback "hello world"
  buffer_size := 5
  byte_offset := 0
  partial_string := none

/-! ## Query construction and predicate compilation (query.cc) -/

/-- The enum `TSQueryPredicateStepType` of the engine: `Done = 0`, `Capture = 1`,
`String = 2`. -/
def TSQueryPredicateStepTypeDone : Nat := 0

def TSQueryPredicateStepTypeCapture : Nat := 1

def TSQueryPredicateStepTypeString : Nat := 2

/-- One `TSQueryPredicateStep` of the engine. -/
inductive TSQueryPredicateStep where
  | capture (value_id : Nat)
  | string (value_id : Nat)
  | done
deriving DecidableEq, Repr

/-- The engine's compiled query as the binding reads it: the capture names
(`ts_query_capture_name_for_id`), the string values (`ts_query_string_value_for_id`) and,
per pattern, the predicate steps (`ts_query_predicates_for_pattern`). -/
structure TSQuery where
  capture_names : List String
  string_values : List String
  patterns : List (List TSQueryPredicateStep)
deriving DecidableEq, Repr

def ts_query_capture_name_for_id (q : TSQuery) (id : Nat) : String :=
  q.capture_names.getD id ""

def ts_query_string_value_for_id (q : TSQuery) (id : Nat) : String :=
  q.string_values.getD id ""

/-- The `for` loop over the predicate steps of one pattern in `GetPredicates`:
`js_pattern_predicates` and `js_predicate` are the two arrays under construction. -/
def GetPredicates.steps (q : TSQuery) :
    List TSQueryPredicateStep → List (List JsValue) → List JsValue → List (List JsValue)
  | [], js_pattern_predicates, _ => js_pattern_predicates
  | .capture value_id :: rest, js_pattern_predicates, js_predicate =>
    GetPredicates.steps q rest js_pattern_predicates
      (js_predicate ++ [.num TSQueryPredicateStepTypeCapture,
        .str (ts_query_capture_name_for_id q value_id)])
  | .string value_id :: rest, js_pattern_predicates, js_predicate =>
    GetPredicates.steps q rest js_pattern_predicates
      (js_predicate ++ [.num TSQueryPredicateStepTypeString,
        .str (ts_query_string_value_for_id q value_id)])
  | .done :: rest, js_pattern_predicates, js_predicate =>
    GetPredicates.steps q rest (js_pattern_predicates ++ [js_predicate]) []

/-- The function `Query::GetPredicates`: per pattern, the array of its predicates, each a
flat array alternating step type and step value. -/
def GetPredicates (q : TSQuery) : List (List (List JsValue)) :=
  q.patterns.map (fun predicates => GetPredicates.steps q predicates [] [])

/-- The conversion `.ToNumber().Uint32Value()` on the values read by `BuildPredicates`; a
value that is not a number or a boolean converts as `NaN`, that is to `0`. -/
def JsValue.toUint32 : JsValue → Nat
  | .num n => n % 2 ^ 32
  | .bool true => 1
  | _ => 0

/-- The conversion `.ToString()`. -/
def JsValue.toStr : JsValue → String
  | .undefined => "undefined"
  | .null => "null"
  | .bool b => if b then "true" else "false"
  | .num n => toString n
  | .str s => s
  | .obj _ => "[object Object]"
  | .regexp source => "/" ++ source ++ "/"

/-- The element read `array.Get(index)`: `undefined` beyond the end. -/
def jsGet (array : List JsValue) (index : Nat) : JsValue :=
  array.getD index .undefined

/-- The C++ expression `literal + offset` on a string literal: pointer arithmetic, which
yields the literal without its first `offset` characters.  An offset past the end of the
literal has no defined result in C++; it is represented by the empty string. -/
def literalPlus (literal : String) (offset : Nat) : String :=
  literal.drop offset

/-- The call `ThrowAsJavaScriptException`: an exception already pending stays pending. -/
def ThrowAsJavaScriptException (pending : Option String) (message : String) :
    Option String :=
  match pending with
  | some first => some first
  | none => some message

/-- A host object made by `Napi::Object::New`: its own properties in the order of their
creation, and whether its prototype, which is `Object.prototype` at creation, has since
been replaced by `null`. -/
structure JsObject where
  properties : List (JsValue × JsValue)
  nullPrototype : Bool := false
deriving DecidableEq, Repr

/-- The object `Napi::Object::New(env)`: no own property, prototype `Object.prototype`. -/
def JsObject.new : JsObject :=
  { properties := [] }

/-- The property store `object.Set(key, value)`, also written `object[key] = value`: the
`[[Set]]` operation of the host language on an ordinary object.  An own property with the
key takes the value.  Without an own property, a key other than `__proto__` is either not
found on the prototype chain or found as a writable data property of `Object.prototype`,
and in both cases becomes a new own property.  The key `__proto__` is found on
`Object.prototype` as an accessor, as long as that is the prototype of the object: the
store then runs the inherited setter, which creates no own property, replaces the
prototype by `null` when the value is `null`, and does nothing for a string or another
primitive value.  Once the prototype is `null` no accessor is inherited and the key
`__proto__` becomes an own property as any other key.  The keys that the binding stores
are strings, and the values are strings and `null`; a stored object would become the
prototype, which is not followed here: the object is left as it is. -/
def JsObject.set (o : JsObject) (key value : JsValue) : JsObject :=
  if o.properties.any (fun kv => kv.1 == key) then
    { o with
      properties := o.properties.map (fun kv => if kv.1 == key then (key, value) else kv) }
  else if key = .str "__proto__" ∧ o.nullPrototype = false then
    if value = .null then { o with nullPrototype := true } else o
  else { o with properties := o.properties ++ [(key, value)] }

/-- The two statements `if (!properties.Has(i)) properties.Set(i, Object::New(env));
properties.Get(i).ToObject().Set(key, value)`. -/
def setPatternProperty (properties : List (Option JsObject)) (i : Nat)
    (key value : JsValue) : List (Option JsObject) :=
  properties.set i
    (some (JsObject.set ((properties.getD i none).getD JsObject.new) key value))

/-- The local arrays of `BuildPredicates` and the exception pending in the environment.
`predicate` is the array of the pattern being compiled. -/
structure BuildState where
  pending : Option String
  setProperties : List (Option JsObject)
  assertedProperties : List (Option JsObject)
  refutedProperties : List (Option JsObject)
  predicates : List (Option (List (List JsValue)))
  predicate : List (List JsValue)
deriving DecidableEq, Repr

/-- The operand check `for (stepIndex = 0; stepIndex < stepsLength; stepIndex += 2)` of the
`set!`, `is?` and `is-not?` branches: true when no examined element makes it throw. -/
def operandCheckPasses (steps : List JsValue) (stepsLength : Nat) : Bool :=
  ((List.range ((stepsLength + 1) / 2)).map (fun k => 2 * k)).all
    (fun stepIndex => (jsGet steps stepIndex).toUint32 == TSQueryPredicateStepTypeString)

/-- The `eq?` / `not-eq?` branch of the loop body of `BuildPredicates`.  The throw for a
first operand that is not a capture is not followed by a `return`: the descriptor is
built all the same and the exception stays pending. -/
def BuildPredicates.eqBranch (st : BuildState) (opCode : String)
    (stepsLength argType1 argType2 : Nat) (argVal1 argVal2 : JsValue) :
    Except String BuildState :=
  if stepsLength ≠ 3 then
    .error ((ThrowAsJavaScriptException st.pending
      (literalPlus "Wrong number of arguments to `#eq?` predicate. Expected 2, got "
        (stepsLength - 1))).getD "")
  else
    .ok { st with
          pending :=
            if argType1 ≠ TSQueryPredicateStepTypeCapture then
              ThrowAsJavaScriptException st.pending
                (literalPlus "First argument of `#eq?` predicate must be a capture. Got "
                  argType1)
            else st.pending,
          predicate := st.predicate ++
            [[.bool true, argVal1, argVal2,
              .bool (argType2 == TSQueryPredicateStepTypeCapture),
              .bool (opCode == "not-eq?")]] }

/-- The `match?` branch of the loop body of `BuildPredicates`; `RegExp` is the host
constructor (`none` when it throws). -/
def BuildPredicates.matchBranch (RegExp : JsValue → Option JsValue) (st : BuildState)
    (stepsLength argType1 argType2 : Nat) (argVal1 argVal2 : JsValue) :
    Except String BuildState :=
  if stepsLength ≠ 3 then
    .error ((ThrowAsJavaScriptException st.pending
      (literalPlus "Wrong number of arguments to `#match?` predicate. Expected 2, got "
        (stepsLength - 1))).getD "")
  else if argType1 ≠ TSQueryPredicateStepTypeCapture then
    .error ((ThrowAsJavaScriptException st.pending
      ("First argument of `#match?` predicate must be a capture. Got  " ++
        argVal1.toStr)).getD "")
  else if argType2 ≠ TSQueryPredicateStepTypeString then
    .error ((ThrowAsJavaScriptException st.pending
      ("Second argument of `#match?` predicate must be a string. Got  " ++
        argVal2.toStr)).getD "")
  else
    match RegExp argVal2 with
    | some pattern =>
      .ok { st with predicate := st.predicate ++ [[.bool false, argVal1, pattern]] }
    | none =>
      .ok { st with
            pending := ThrowAsJavaScriptException st.pending
              ("Invalid regular expression: /" ++ argVal2.toStr ++ "/"),
            predicate := st.predicate ++ [[.bool false, argVal1, .undefined]] }

/-- The `set!` branch of the loop body of `BuildPredicates`, for pattern `i`. -/
def BuildPredicates.setBranch (i : Nat) (st : BuildState) (steps : List JsValue)
    (stepsLength argType2 : Nat) (argVal1 argVal2 : JsValue) : Except String BuildState :=
  if stepsLength ≠ 2 ∧ stepsLength ≠ 3 then
    .error ((ThrowAsJavaScriptException st.pending
      (literalPlus "Wrong number of arguments to `#set!` predicate. Expected 1 or 2. Got "
        (stepsLength - 1))).getD "")
  else if operandCheckPasses steps stepsLength = false then
    .error ((ThrowAsJavaScriptException st.pending
      "Arguments to `#set!` predicate must be a strings.").getD "")
  else
    .ok { st with
          setProperties := setPatternProperty st.setProperties i argVal1
            (if argType2 ≠ 0 then argVal2 else .null) }

/-- The `is?` / `is-not?` branch of the loop body of `BuildPredicates`, for pattern `i`. -/
def BuildPredicates.isBranch (i : Nat) (st : BuildState) (opCode : String)
    (steps : List JsValue) (stepsLength argType2 : Nat) (argVal1 argVal2 : JsValue) :
    Except String BuildState :=
  if stepsLength ≠ 2 ∧ stepsLength ≠ 3 then
    .error ((ThrowAsJavaScriptException st.pending
      ("Wrong number of arguments to `#" ++ opCode ++
        "` predicate. Expected 1 or 2. Got " ++ toString (stepsLength - 1))).getD "")
  else if operandCheckPasses steps stepsLength = false then
    .error ((ThrowAsJavaScriptException st.pending
      ("Arguments to `#" ++ opCode ++ "` predicate must be a strings.")).getD "")
  else if opCode = "is?" then
    .ok { st with
          assertedProperties := setPatternProperty st.assertedProperties i argVal1
            (if argType2 ≠ 0 then argVal2 else .null) }
  else
    .ok { st with
          refutedProperties := setPatternProperty st.refutedProperties i argVal1
            (if argType2 ≠ 0 then argVal2 else .null) }

/-- The body of the loop over `j` in `BuildPredicates`, for the predicate `steps` of
pattern `i`: the check of the first step and the dispatch on the operator name.
`Except.error` is a `ThrowAsJavaScriptException` followed by `return`. -/
def BuildPredicates.predicate (RegExp : JsValue → Option JsValue) (i : Nat)
    (st : BuildState) (steps : List JsValue) : Except String BuildState :=
  if (jsGet steps 0).toUint32 ≠ TSQueryPredicateStepTypeString then
    .error ((ThrowAsJavaScriptException st.pending
      "Predicates must begin with a literal value").getD "")
  else if (jsGet steps 1).toStr = "not-eq?" ∨ (jsGet steps 1).toStr = "eq?" then
    BuildPredicates.eqBranch st (jsGet steps 1).toStr (steps.length / 2)
      (jsGet steps 2).toUint32 (jsGet steps 4).toUint32 (jsGet steps 3) (jsGet steps 5)
  else if (jsGet steps 1).toStr = "match?" then
    BuildPredicates.matchBranch RegExp st (steps.length / 2)
      (jsGet steps 2).toUint32 (jsGet steps 4).toUint32 (jsGet steps 3) (jsGet steps 5)
  else if (jsGet steps 1).toStr = "set!" then
    BuildPredicates.setBranch i st steps (steps.length / 2) (jsGet steps 4).toUint32
      (jsGet steps 3) (jsGet steps 5)
  else if (jsGet steps 1).toStr = "is?" ∨ (jsGet steps 1).toStr = "is-not?" then
    BuildPredicates.isBranch i st (jsGet steps 1).toStr steps (steps.length / 2)
      (jsGet steps 4).toUint32 (jsGet steps 3) (jsGet steps 5)
  else
    .error ((ThrowAsJavaScriptException st.pending
      ("Unknown query predicate `#" ++ (jsGet steps 1).toStr ++ "`")).getD "")

/-- The loop over `j` in `BuildPredicates`, for the predicates of pattern `i`. -/
def BuildPredicates.description (RegExp : JsValue → Option JsValue) (i : Nat) :
    BuildState → List (List JsValue) → Except String BuildState
  | st, [] => .ok st
  | st, steps :: rest =>
    match BuildPredicates.predicate RegExp i st steps with
    | .error e => .error e
    | .ok st' => BuildPredicates.description RegExp i st' rest

/-- The loop over `i` in `BuildPredicates`: a fresh `predicate` array per pattern, stored
into `predicates` at index `i` once the pattern's predicates are compiled. -/
def BuildPredicates.descriptions (RegExp : JsValue → Option JsValue) :
    Nat → BuildState → List (List (List JsValue)) → Except String BuildState
  | _, st, [] => .ok st
  | i, st, description :: rest =>
    match BuildPredicates.description RegExp i { st with predicate := [] } description with
    | .error e => .error e
    | .ok st' =>
      BuildPredicates.descriptions RegExp (i + 1)
        { st' with predicates := st'.predicates.set i (some st'.predicate) } rest

/-- The function `Query::BuildPredicates`.  `Except.error` carries the exception pending
when the function returns early, in which case the four tables of the query are never
assigned; `Except.ok` is the state at the final assignments, whose field `pending` is the
exception thrown without a `return`, if any. -/
def BuildPredicates (RegExp : JsValue → Option JsValue)
    (descriptions : List (List (List JsValue))) : Except String BuildState :=
  BuildPredicates.descriptions RegExp 0
    { pending := none,
      setProperties := List.replicate descriptions.length none,
      assertedProperties := List.replicate descriptions.length none,
      refutedProperties := List.replicate descriptions.length none,
      predicates := List.replicate descriptions.length none,
      predicate := [] }
    descriptions

/-- The enum `TSQueryError` of the engine, in the order of `query_error_names`. -/
inductive TSQueryError where
  | TSQueryErrorNone
  | TSQueryErrorSyntax
  | TSQueryErrorNodeType
  | TSQueryErrorField
  | TSQueryErrorCapture
  | TSQueryErrorStructure
deriving DecidableEq, Repr

/-- The table `query_error_names`. -/
def query_error_names : TSQueryError → String
  | .TSQueryErrorNone => "TSQueryErrorNone"
  | .TSQueryErrorSyntax => "TSQueryErrorSyntax"
  | .TSQueryErrorNodeType => "TSQueryErrorNodeType"
  | .TSQueryErrorField => "TSQueryErrorField"
  | .TSQueryErrorCapture => "TSQueryErrorCapture"
  | .TSQueryErrorStructure => "TSQueryErrorStructure"

/-- What the engine call `ts_query_new` hands back: the query (`none` for `NULL`) and the
two out-parameters. -/
structure QueryNewResult where
  query : Option TSQuery
  error_offset : Nat
  error_type : TSQueryError
deriving DecidableEq, Repr

/-- How the constructor `Query::Query` ends.  `threw`: an exception was thrown before any
table was built.  `built`: the engine query was stored in `query_` and `BuildPredicates`
was run on it.  `nullQuery`: no exception was thrown although the engine returned `NULL`,
so `query_` is `NULL` and `GetPredicates` hands it to the engine. -/
inductive QueryOutcome where
  | threw (message : String)
  | built (query_ : TSQuery) (tables : Except String BuildState)
  | nullQuery
deriving Repr

/-- The constructor `Query::Query`.  `language` is `none` when `UnwrapLanguage` yields
`nullptr`; `source` is the text of a string or buffer argument, `none` for any other
argument; `ts_query_new` is the engine's compiler for that language. -/
def Query.new (RegExp : JsValue → Option JsValue) (ts_query_new : String → QueryNewResult)
    (language : Option TSLanguage) (source : Option String) : QueryOutcome :=
  match language with
  | none => .threw "Missing language argument"
  | some _ =>
    match source with
    | none => .threw "Missing source argument"
    | some text =>
      let r := ts_query_new text
      if r.error_offset > 0 then
        .threw ("Query error of type " ++ query_error_names r.error_type ++
          " at position " ++ toString r.error_offset)
      else
        match r.query with
        | none => .nullQuery
        | some query => .built query (BuildPredicates RegExp (GetPredicates query))

/-- The run of `BuildPredicates` ended with an exception pending: thrown with an early
`return`, or thrown without one and still pending at the end. -/
def buildFailed : Except String BuildState → Bool
  | .error _ => true
  | .ok st => st.pending.isSome

/-- The construction failed: the caller of `new Query(...)` receives an exception. -/
def QueryOutcome.failed : QueryOutcome → Bool
  | .threw _ => true
  | .built _ tables => buildFailed tables
  | .nullQuery => false

/-- A flat predicate array whose operator is `eq?` or `not-eq?`. -/
def isEqPredicate (steps : List JsValue) : Prop :=
  (jsGet steps 0).toUint32 = TSQueryPredicateStepTypeString ∧
  ((jsGet steps 1).toStr = "eq?" ∨ (jsGet steps 1).toStr = "not-eq?")

instance (steps : List JsValue) : Decidable (isEqPredicate steps) := by
  unfold isEqPredicate; infer_instance

/-- Number of operands of a flat predicate array: its steps without the operator. -/
def operandCount (steps : List JsValue) : Nat :=
  steps.length / 2 - 1

/-- The host constructor `RegExp` accepting every source. -/
def anyRegExp (source : JsValue) : Option JsValue :=
  some (.regexp source.toStr)

/-- A flat predicate array whose first step is a string naming the operator `match?`. -/
def isMatchPredicate (steps : List JsValue) : Prop :=
  (jsGet steps 0).toUint32 = TSQueryPredicateStepTypeString ∧
  (jsGet steps 1).toStr = "match?"

instance (steps : List JsValue) : Decidable (isMatchPredicate steps) := by
  unfold isMatchPredicate; infer_instance

/-! ## Batch encoding of node handles (node.cc, `MarshalNodes`) -/

/-- The `for` loop of `MarshalNodes`: `p` is the word offset of the write pointer, which
advances by six words for every handle that is not in the cache.  The result is the
content of the host array `result` and the transfer buffer afterwards. -/
def MarshalNodes.loop (E : Engine) (tree : Tree) :
    List TSNode → List Nat → Nat → List JsValue × List Nat
  | [], transfer_buffer, _ => ([], transfer_buffer)
  | node :: rest, transfer_buffer, p =>
    match tree.find node.id with
    | none =>
      let r := MarshalNodes.loop E tree rest (write_node_record transfer_buffer p node)
        (p + FIELD_COUNT_PER_NODE)
      ((if node.id ≠ 0 then JsValue.num (E.ts_node_symbol node) else JsValue.null) :: r.1, r.2)
    | some cache_entry =>
      let r := MarshalNodes.loop E tree rest transfer_buffer p
      (JsValue.obj cache_entry.node :: r.1, r.2)

/-- The function `MarshalNodes`, called with `nodes.data()` and `nodes.size()`: the count
is received as a `uint32_t`. -/
def MarshalNodes (E : Engine) (tree : Tree) (nodes : List TSNode)
    (transfer_buffer : List Nat) : List JsValue × List Nat :=
  let node_count := nodes.length % 2 ^ 32
  MarshalNodes.loop E tree (nodes.take node_count)
    (setup_transfer_buffer transfer_buffer node_count) 0

/-! ## Index conversion (node.cc, tree_cursor.cc) -/

/-- The conversion of `NodeMethods::StartIndex` and `NodeMethods::EndIndex`, engine units
to host units: `ts_node_start_byte(node) / 2`. -/
def toHostUnits (byte : Nat) : Nat :=
  byte / 2

/-- The conversion of `TreeCursor::GotoFirstChildForIndex`, host units to engine units:
`js_index.Uint32Value() * 2`, computed in `uint32_t`. -/
def toEngineUnits (index : Nat) : Nat :=
  (index % 2 ^ 32 * 2) % 2 ^ 32

/-! ## Query execution (query.cc, `Query::Matches` and `Query::Captures`) -/

/-- One `TSQueryCapture` of the engine: the captured node and the id of the capture. -/
structure TSQueryCapture where
  node : TSNode
  index : Nat
deriving DecidableEq, Repr

/-- One `TSQueryMatch` of the engine; `capture_count` is the length of `captures`. -/
structure TSQueryMatch where
  id : Nat
  pattern_index : Nat
  captures : List TSQueryCapture
deriving DecidableEq, Repr

/-- The loop over the captures of one match, shared by `Matches` and `Captures`: the node
is pushed onto `nodes` and the capture's name is appended to `js_matches`. -/
def Query.captureLoop (ts_query : TSQuery) :
    List TSQueryCapture → List JsValue → List TSNode → List JsValue × List TSNode
  | [], js_matches, nodes => (js_matches, nodes)
  | capture :: rest, js_matches, nodes =>
    Query.captureLoop ts_query rest
      (js_matches ++ [.str (ts_query_capture_name_for_id ts_query capture.index)])
      (nodes ++ [capture.node])

/-- The `while (ts_query_cursor_next_match(...))` loop of `Matches`, over the matches the
engine cursor yields. -/
def Query.Matches.loop (ts_query : TSQuery) :
    List TSQueryMatch → List JsValue → List TSNode → List JsValue × List TSNode
  | [], js_matches, nodes => (js_matches, nodes)
  | m :: rest, js_matches, nodes =>
    let r := Query.captureLoop ts_query m.captures (js_matches ++ [.num m.pattern_index])
      nodes
    Query.Matches.loop ts_query rest r.1 r.2

/-- The `while (ts_query_cursor_next_capture(...))` loop of `Captures`, over the pairs of
match and capture index the engine cursor yields. -/
def Query.Captures.loop (ts_query : TSQuery) :
    List (TSQueryMatch × Nat) → List JsValue → List TSNode → List JsValue × List TSNode
  | [], js_matches, nodes => (js_matches, nodes)
  | (m, capture_index) :: rest, js_matches, nodes =>
    let r := Query.captureLoop ts_query m.captures
      (js_matches ++ [.num m.pattern_index, .num capture_index]) nodes
    Query.Captures.loop ts_query rest r.1 r.2

/-- The point `{row, column}` built from two host numbers in `Matches` and `Captures`:
`info[1].ToNumber().Uint32Value()` and `info[2].ToNumber().Uint32Value() << 1`. -/
def queryPoint (row column : Nat) : TSPoint :=
  { row := row % 2 ^ 32, column := (column % 2 ^ 32 * 2) % 2 ^ 32 }

/-- What `Matches` and `Captures` return: the array `js_matches`, the array produced by
`MarshalNodes`, and the transfer buffer afterwards. -/
structure QueryResult where
  js_matches : List JsValue
  js_nodes : List JsValue
  transfer_buffer : List Nat
deriving DecidableEq, Repr

/-- The method `Query::Matches`.  `match_stream` is the engine cursor: the matches yielded
after `ts_query_cursor_set_point_range` and `ts_query_cursor_exec` for a root node and a
point range.  `tree` is `none` when `UnwrapTree` yields `nullptr`. -/
def Query.Matches (E : Engine) (match_stream : TSNode → TSPoint → TSPoint → List TSQueryMatch)
    (ts_query : TSQuery) (tree : Option Tree) (start_row start_column end_row end_column : Nat)
    (transfer_buffer : List Nat) : Except String QueryResult :=
  match tree with
  | none => .error "Missing argument tree"
  | some tree =>
    let rootNode := (UnmarshalNode (some tree) transfer_buffer).1
    let start_point := queryPoint start_row start_column
    let end_point := queryPoint end_row end_column
    let r := Query.Matches.loop ts_query (match_stream rootNode start_point end_point) [] []
    let marshalled := MarshalNodes E tree r.2 transfer_buffer
    .ok { js_matches := r.1, js_nodes := marshalled.1, transfer_buffer := marshalled.2 }

/-- The method `Query::Captures`.  `capture_stream` is the engine cursor: the pairs of match
and capture index yielded by `ts_query_cursor_next_capture`. -/
def Query.Captures (E : Engine)
    (capture_stream : TSNode → TSPoint → TSPoint → List (TSQueryMatch × Nat))
    (ts_query : TSQuery) (tree : Option Tree) (start_row start_column end_row end_column : Nat)
    (transfer_buffer : List Nat) : Except String QueryResult :=
  match tree with
  | none => .error "Missing argument tree"
  | some tree =>
    let rootNode := (UnmarshalNode (some tree) transfer_buffer).1
    let start_point := queryPoint start_row start_column
    let end_point := queryPoint end_row end_column
    let r := Query.Captures.loop ts_query (capture_stream rootNode start_point end_point)
      [] []
    let marshalled := MarshalNodes E tree r.2 transfer_buffer
    .ok { js_matches := r.1, js_nodes := marshalled.1, transfer_buffer := marshalled.2 }

/-- The names of the captures of a match, as host strings, in order. -/
def TSQueryMatch.names (ts_query : TSQuery) (m : TSQueryMatch) : List JsValue :=
  m.captures.map (fun c => JsValue.str (ts_query_capture_name_for_id ts_query c.index))

/-- The captured nodes of a match, in order. -/
def TSQueryMatch.nodes (m : TSQueryMatch) : List TSNode :=
  m.captures.map (fun c => c.node)

/-- The `matches` encoding of one match: its pattern index, then the names of its
captures. -/
def TSQueryMatch.descriptor (ts_query : TSQuery) (m : TSQueryMatch) : List JsValue :=
  .num m.pattern_index :: m.names ts_query

/-- The `captures` encoding of one yielded pair: the pattern index of the match, the
yielded capture index, then the names of the captures of the match. -/
def TSQueryMatch.captureDescriptor (ts_query : TSQuery) (m : TSQueryMatch)
    (capture_index : Nat) : List JsValue :=
  .num m.pattern_index :: .num capture_index :: m.names ts_query

/-- The (pattern index, capture name, node) triples of one match. -/
def TSQueryMatch.triples (ts_query : TSQuery) (m : TSQueryMatch) :
    List (Nat × String × TSNode) :=
  m.captures.map (fun c =>
    (m.pattern_index, ts_query_capture_name_for_id ts_query c.index, c.node))

/-- Decoding of a `matches` result as the specification words it: a number opens the
group of a pattern, and every following name is zipped with the next node of the node
sequence.  The first argument is the pattern of the group being read. -/
def decodeMatches : Nat → List JsValue → List TSNode → List (Nat × String × TSNode)
  | _, [], _ => []
  | _, .num p :: rest, nodes => decodeMatches p rest nodes
  | p, .str name :: rest, node :: nodes => (p, name, node) :: decodeMatches p rest nodes
  | p, _ :: rest, nodes => decodeMatches p rest nodes

/-- Decoding of a `captures` result as the specification words it: a group opens with the
pattern index and the yielded capture index, and every following name is zipped with the
next node.  The arguments are the pattern and the yielded capture index of the group being
read and the position inside the group.  With `onlyYielded` the decoder keeps, of every
group, only the capture at the yielded index. -/
def decodeCaptures (onlyYielded : Bool) :
    Nat → Nat → Nat → List JsValue → List TSNode → List (Nat × String × TSNode)
  | _, _, _, [], _ => []
  | _, _, _, .num p :: .num ci :: rest, nodes => decodeCaptures onlyYielded p ci 0 rest nodes
  | p, ci, j, .str name :: rest, node :: nodes =>
    (if onlyYielded && j != ci then [] else [(p, name, node)]) ++
      decodeCaptures onlyYielded p ci (j + 1) rest nodes
  | p, ci, j, _ :: rest, nodes => decodeCaptures onlyYielded p ci j rest nodes

/-- The triple of the capture at the yielded index of a match, if the match has one: the
captures of `captures` are at the positions `j, j + 1, ...` of their group. -/
def yieldedTriples (ts_query : TSQuery) (pattern_index capture_index : Nat) :
    Nat → List TSQueryCapture → List (Nat × String × TSNode)
  | _, [] => []
  | j, c :: rest =>
    (if j = capture_index then
      [(pattern_index, ts_query_capture_name_for_id ts_query c.index, c.node)]
     else []) ++ yieldedTriples ts_query pattern_index capture_index (j + 1) rest

/-- The string carried by a host value, if it is a string. -/
def JsValue.asString? : JsValue → Option String
  | .str s => some s
  | _ => none

/-- The engine contract on the two streams: the capture stream yields exactly one pair
(match, index of a capture within the match) for each capture of each match of the match
stream, in any order. -/
def captureStreamCovers (match_list : List TSQueryMatch)
    (capture_list : List (TSQueryMatch × Nat)) : Prop :=
  capture_list.Perm
    (match_list.flatMap (fun m => (List.range m.captures.length).map (fun c => (m, c))))

instance (match_list : List TSQueryMatch) (capture_list : List (TSQueryMatch × Nat)) :
    Decidable (captureStreamCovers match_list capture_list) := by
  unfold captureStreamCovers; infer_instance

/-! ## Random-access slice reader (parser.cc, `TextBufferInput`) -/

/-- One element of the vector `slices_`: the address `first` of the slice's first code unit
(a `const char16_t *`, counted in code units) and its length `second` in code units (a
`uint32_t`). -/
structure TextSlice where
  first : Nat
  second : Nat
deriving DecidableEq, Repr

/-- The class `TextBufferInput`.  The three counters are `uint32_t`; positions in the vector
`slices_` are list positions. -/
structure TextBufferInput where
  slices_ : List TextSlice
  byte_offset : Nat
  slice_index_ : Nat
  slice_offset_ : Nat
deriving DecidableEq, Repr

/-- The constructor `TextBufferInput(slices)`. -/
def TextBufferInput.new (slices : List TextSlice) : TextBufferInput :=
  { slices_ := slices, byte_offset := 0, slice_index_ := 0, slice_offset_ := 0 }

/-- The subtraction of two `uint32_t` values. -/
def sub32 (a b : Nat) : Nat :=
  (a + 2 ^ 32 - b) % 2 ^ 32

/-- The `for` loop of `TextBufferInput::seek` from position `i` on, with the running
`total_length`: the values left in `slice_index_` and `slice_offset_`. -/
def TextBufferInput.seek.loop (goal_index : Nat) : List TextSlice → Nat → Nat → Nat × Nat
  | [], i, _ => (i, 0)
  | slice :: rest, i, total_length =>
    let next_total_length := (total_length + slice.second) % 2 ^ 32
    if next_total_length > goal_index then (i, sub32 goal_index total_length)
    else TextBufferInput.seek.loop goal_index rest (i + 1) next_total_length

/-- The function `TextBufferInput::seek`. -/
def TextBufferInput.seek (self : TextBufferInput) (byte_offset : Nat) : TextBufferInput :=
  let found := TextBufferInput.seek.loop (byte_offset / 2) self.slices_ 0 0
  { self with byte_offset := byte_offset, slice_index_ := found.1, slice_offset_ := found.2 }

/-- What one call of `TextBufferInput::Read` hands back: the address of the returned text
in code units (`none` for the empty literal), `*length`, and the reader afterwards. -/
structure TextRead where
  data : Option Nat
  length : Nat
  reader : TextBufferInput
deriving DecidableEq, Repr

/-- The function `TextBufferInput::Read`; `Except.error` is the `std::out_of_range` of
`slices_->at`. -/
def TextBufferInput.Read (self0 : TextBufferInput) (byte : Nat) (_position : TSPoint) :
    Except String TextRead :=
  let self := if byte ≠ self0.byte_offset then self0.seek byte else self0
  if self.slice_index_ = self.slices_.length then
    .ok { data := none, length := 0, reader := self }
  else
    match self.slices_.get? self.slice_index_ with
    | none => .error "out_of_range"
    | some slice =>
      let length := (2 * sub32 slice.second self.slice_offset_) % 2 ^ 32
      .ok { data := some (slice.first + self.slice_offset_),
            length := length,
            reader :=
              { self with
                byte_offset := (self.byte_offset + length) % 2 ^ 32,
                slice_index_ := self.slice_index_ + 1,
                slice_offset_ := 0 } }

/-- The states of a reader over `slices` that the engine can bring about: the constructed
reader, and the reader after any read at a 32-bit byte offset. -/
inductive TextBufferInput.Reachable (slices : List TextSlice) : TextBufferInput → Prop where
  | constructed : TextBufferInput.Reachable slices (TextBufferInput.new slices)
  | read (r : TextBufferInput) (byte : Nat) (position : TSPoint) (res : TextRead) :
      TextBufferInput.Reachable slices r → byte < 2 ^ 32 →
      r.Read byte position = .ok res → TextBufferInput.Reachable slices res.reader

/-- The `count` code units that the memory holds from the address `pointer` on. -/
def unitsAt (memory : Nat → Nat) : Nat → Nat → List Nat
  | _, 0 => []
  | pointer, count + 1 => memory pointer :: unitsAt memory (pointer + 1) count

/-- The text of a slice. -/
def TextSlice.text (memory : Nat → Nat) (s : TextSlice) : List Nat :=
  unitsAt memory s.first s.second

/-- The concatenated text of a sequence of slices. -/
def concatenatedText (memory : Nat → Nat) (slices : List TextSlice) : List Nat :=
  slices.flatMap (fun s => s.text memory)

/-- The total length of a sequence of slices, in code units. -/
def totalLength (slices : List TextSlice) : Nat :=
  (slices.map (fun s => s.second)).sum

/-- What holds of every reachable reader over `slices` when the text is addressable by
32-bit byte offsets: the cursor is at the start of a slice, and the expected offset, in
code units, is the length of the text before that slice, or lies at or past the end of
the text when the cursor is past the last slice. -/
def TextBufferInput.consistent (slices : List TextSlice) (r : TextBufferInput) : Prop :=
  r.slices_ = slices ∧ r.slice_offset_ = 0 ∧ r.slice_index_ ≤ slices.length ∧
  r.byte_offset < 2 ^ 32 ∧
  totalLength (slices.take r.slice_index_) ≤ r.byte_offset / 2 ∧
  (r.slice_index_ < slices.length →
    r.byte_offset / 2 = totalLength (slices.take r.slice_index_))

/-- Spec side, after the words "sequential reads starting at offset 0 deliver the whole
concatenated text before the first zero-length read": the code units handed back by reads
at the expected running offset, one read after the other, up to the first read of zero
bytes; at most `fuel` reads are made. -/
def TextBufferInput.sequentialReads (memory : Nat → Nat) : Nat → TextBufferInput → List Nat
  | 0, _ => []
  | fuel + 1, r =>
    match r.Read r.byte_offset { row := 0, column := 0 } with
    | .error _ => []
    | .ok res =>
      if res.length = 0 then []
      else
        (match res.data with
         | some address => unitsAt memory address (res.length / 2)
         | none => []) ++ TextBufferInput.sequentialReads memory fuel res.reader

/-! ## Node entry points (node.cc, `NodeMethods`) -/

/-- The engine's navigation calls on node handles.  `children` is the sibling sequence the
tree cursor walks below a node after `ts_tree_cursor_reset`, `ancestors` is the chain of
`ts_node_parent` above a node, nearest first. -/
structure NodeEngine where
  ts_node_parent : TSNode → TSNode
  ts_node_child : TSNode → Nat → TSNode
  ts_node_named_child : TSNode → Nat → TSNode
  ts_node_child_count : TSNode → Nat
  ts_node_named_child_count : TSNode → Nat
  ts_node_next_sibling : TSNode → TSNode
  ts_node_next_named_sibling : TSNode → TSNode
  ts_node_prev_sibling : TSNode → TSNode
  ts_node_prev_named_sibling : TSNode → TSNode
  ts_node_first_child_for_byte : TSNode → Nat → TSNode
  ts_node_first_named_child_for_byte : TSNode → Nat → TSNode
  ts_node_descendant_for_byte_range : TSNode → Nat → Nat → TSNode
  ts_node_named_descendant_for_byte_range : TSNode → Nat → Nat → TSNode
  ts_node_descendant_for_point_range : TSNode → TSPoint → TSPoint → TSNode
  ts_node_named_descendant_for_point_range : TSNode → TSPoint → TSPoint → TSNode
  ts_node_child_by_field_id : TSNode → Nat → TSNode
  ts_tree_cursor_current_field_id : TSTreeCursor → Nat
  children : TSNode → Forest
  ancestors : TSNode → List TSNode

/-- What an entry point hands back: the returned host value or array, the transfer buffer
afterwards, and the exception left pending, if any. -/
structure CallResult where
  value : JsArg
  transfer_buffer : List Nat
  exception : Option String
deriving DecidableEq, Repr

/-- The return of a value produced by `MarshalNode` or `MarshalNullNode`. -/
def CallResult.ofNode (r : JsValue × List Nat) (exception : Option String) : CallResult :=
  { value := .value r.1, transfer_buffer := r.2, exception := exception }

/-- The return of the array produced by `MarshalNodes`. -/
def CallResult.ofNodes (r : List JsValue × List Nat) : CallResult :=
  { value := .array r.1, transfer_buffer := r.2, exception := none }

/-- The statement `return env.Undefined()`. -/
def CallResult.undefined (transfer_buffer : List Nat) (exception : Option String) :
    CallResult :=
  { value := .value .undefined, transfer_buffer := transfer_buffer, exception := exception }

/-- The handle read by `UnmarshalNode(env, tree)` at the start of every entry point, for a
first argument that unwraps to a tree. -/
def decodedNode (tree : Tree) (transfer_buffer : List Nat) : TSNode :=
  (UnmarshalNode (some tree) transfer_buffer).1

def NodeMethods.Parent (E : Engine) (N : NodeEngine) (tree : Tree)
    (transfer_buffer : List Nat) : CallResult :=
  let node := decodedNode tree transfer_buffer
  if node.id ≠ 0 then
    .ofNode (MarshalNode E tree (N.ts_node_parent node) transfer_buffer) none
  else .ofNode (MarshalNullNode transfer_buffer) none

/-- The method `NodeMethods::Child`; `index` is `info[1]`.  The `TypeError` for an index that
is not a number is not followed by a `return`: the null record is returned with it. -/
def NodeMethods.Child (E : Engine) (N : NodeEngine) (tree : Tree) (index : JsValue)
    (transfer_buffer : List Nat) : CallResult :=
  let node := decodedNode tree transfer_buffer
  if node.id ≠ 0 then
    match index with
    | .num n => .ofNode (MarshalNode E tree (N.ts_node_child node (n % 2 ^ 32)) transfer_buffer)
        none
    | _ => .ofNode (MarshalNullNode transfer_buffer) (some "Second argument must be an integer")
  else .ofNode (MarshalNullNode transfer_buffer) none

def NodeMethods.NamedChild (E : Engine) (N : NodeEngine) (tree : Tree) (index : JsValue)
    (transfer_buffer : List Nat) : CallResult :=
  let node := decodedNode tree transfer_buffer
  if node.id ≠ 0 then
    match index with
    | .num n =>
      .ofNode (MarshalNode E tree (N.ts_node_named_child node (n % 2 ^ 32)) transfer_buffer)
        none
    | _ => .ofNode (MarshalNullNode transfer_buffer) (some "Second argument must be an integer")
  else .ofNode (MarshalNullNode transfer_buffer) none

def NodeMethods.FirstChild (E : Engine) (N : NodeEngine) (tree : Tree)
    (transfer_buffer : List Nat) : CallResult :=
  let node := decodedNode tree transfer_buffer
  if node.id ≠ 0 then
    .ofNode (MarshalNode E tree (N.ts_node_child node 0) transfer_buffer) none
  else .ofNode (MarshalNullNode transfer_buffer) none

def NodeMethods.FirstNamedChild (E : Engine) (N : NodeEngine) (tree : Tree)
    (transfer_buffer : List Nat) : CallResult :=
  let node := decodedNode tree transfer_buffer
  if node.id ≠ 0 then
    .ofNode (MarshalNode E tree (N.ts_node_named_child node 0) transfer_buffer) none
  else .ofNode (MarshalNullNode transfer_buffer) none

def NodeMethods.LastChild (E : Engine) (N : NodeEngine) (tree : Tree)
    (transfer_buffer : List Nat) : CallResult :=
  let node := decodedNode tree transfer_buffer
  if node.id ≠ 0 ∧ N.ts_node_child_count node > 0 then
    .ofNode (MarshalNode E tree (N.ts_node_child node (N.ts_node_child_count node - 1))
      transfer_buffer) none
  else .ofNode (MarshalNullNode transfer_buffer) none

def NodeMethods.LastNamedChild (E : Engine) (N : NodeEngine) (tree : Tree)
    (transfer_buffer : List Nat) : CallResult :=
  let node := decodedNode tree transfer_buffer
  if node.id ≠ 0 ∧ N.ts_node_named_child_count node > 0 then
    .ofNode (MarshalNode E tree
      (N.ts_node_named_child node (N.ts_node_named_child_count node - 1)) transfer_buffer) none
  else .ofNode (MarshalNullNode transfer_buffer) none

def NodeMethods.NextSibling (E : Engine) (N : NodeEngine) (tree : Tree)
    (transfer_buffer : List Nat) : CallResult :=
  let node := decodedNode tree transfer_buffer
  if node.id ≠ 0 then
    .ofNode (MarshalNode E tree (N.ts_node_next_sibling node) transfer_buffer) none
  else .ofNode (MarshalNullNode transfer_buffer) none

def NodeMethods.NextNamedSibling (E : Engine) (N : NodeEngine) (tree : Tree)
    (transfer_buffer : List Nat) : CallResult :=
  let node := decodedNode tree transfer_buffer
  if node.id ≠ 0 then
    .ofNode (MarshalNode E tree (N.ts_node_next_named_sibling node) transfer_buffer) none
  else .ofNode (MarshalNullNode transfer_buffer) none

def NodeMethods.PreviousSibling (E : Engine) (N : NodeEngine) (tree : Tree)
    (transfer_buffer : List Nat) : CallResult :=
  let node := decodedNode tree transfer_buffer
  if node.id ≠ 0 then
    .ofNode (MarshalNode E tree (N.ts_node_prev_sibling node) transfer_buffer) none
  else .ofNode (MarshalNullNode transfer_buffer) none

def NodeMethods.PreviousNamedSibling (E : Engine) (N : NodeEngine) (tree : Tree)
    (transfer_buffer : List Nat) : CallResult :=
  let node := decodedNode tree transfer_buffer
  if node.id ≠ 0 then
    .ofNode (MarshalNode E tree (N.ts_node_prev_named_sibling node) transfer_buffer) none
  else .ofNode (MarshalNullNode transfer_buffer) none

/-- The method `NodeMethods::FirstChildForIndex`.  `info_length` is `info.Length()`; `byte`
is what `ByteCountFromJS(info[1])` of conversions.h (not among the sources) yields: the
byte count, or the exception it throws. -/
def NodeMethods.FirstChildForIndex (E : Engine) (N : NodeEngine) (tree : Tree)
    (info_length : Nat) (byte : Except String Nat) (transfer_buffer : List Nat) :
    CallResult :=
  let node := decodedNode tree transfer_buffer
  if node.id ≠ 0 ∧ info_length > 1 then
    match byte with
    | .ok b =>
      .ofNode (MarshalNode E tree (N.ts_node_first_child_for_byte node b) transfer_buffer) none
    | .error e => .ofNode (MarshalNullNode transfer_buffer) (some e)
  else .ofNode (MarshalNullNode transfer_buffer) none

def NodeMethods.FirstNamedChildForIndex (E : Engine) (N : NodeEngine) (tree : Tree)
    (byte : Except String Nat) (transfer_buffer : List Nat) : CallResult :=
  let node := decodedNode tree transfer_buffer
  if node.id ≠ 0 then
    match byte with
    | .ok b =>
      .ofNode (MarshalNode E tree (N.ts_node_first_named_child_for_byte node b)
        transfer_buffer) none
    | .error e => .ofNode (MarshalNullNode transfer_buffer) (some e)
  else .ofNode (MarshalNullNode transfer_buffer) none

/-- The method `NodeMethods::DescendantForIndex`; `min` and `max` are what
`ByteCountFromJS` yields for `info[1]` and `info[2]`, the second being converted only when
the first is accepted. -/
def NodeMethods.DescendantForIndex (E : Engine) (N : NodeEngine) (tree : Tree)
    (min max : Except String Nat) (transfer_buffer : List Nat) : CallResult :=
  let node := decodedNode tree transfer_buffer
  if node.id ≠ 0 then
    match min, max with
    | .ok lo, .ok hi =>
      .ofNode (MarshalNode E tree (N.ts_node_descendant_for_byte_range node lo hi)
        transfer_buffer) none
    | .ok _, .error e => .ofNode (MarshalNullNode transfer_buffer) (some e)
    | .error e, _ => .ofNode (MarshalNullNode transfer_buffer) (some e)
  else .ofNode (MarshalNullNode transfer_buffer) none

def NodeMethods.NamedDescendantForIndex (E : Engine) (N : NodeEngine) (tree : Tree)
    (min max : Except String Nat) (transfer_buffer : List Nat) : CallResult :=
  let node := decodedNode tree transfer_buffer
  if node.id ≠ 0 then
    match min, max with
    | .ok lo, .ok hi =>
      .ofNode (MarshalNode E tree (N.ts_node_named_descendant_for_byte_range node lo hi)
        transfer_buffer) none
    | .ok _, .error e => .ofNode (MarshalNullNode transfer_buffer) (some e)
    | .error e, _ => .ofNode (MarshalNullNode transfer_buffer) (some e)
  else .ofNode (MarshalNullNode transfer_buffer) none

/-- The method `NodeMethods::DescendantForPosition`; `min` and `max` are what `PointFromJS`
of conversions.h yields for `info[1]` and `info[2]`. -/
def NodeMethods.DescendantForPosition (E : Engine) (N : NodeEngine) (tree : Tree)
    (min max : Except String TSPoint) (transfer_buffer : List Nat) : CallResult :=
  let node := decodedNode tree transfer_buffer
  if node.id ≠ 0 then
    match min, max with
    | .ok lo, .ok hi =>
      .ofNode (MarshalNode E tree (N.ts_node_descendant_for_point_range node lo hi)
        transfer_buffer) none
    | .ok _, .error e => .ofNode (MarshalNullNode transfer_buffer) (some e)
    | .error e, _ => .ofNode (MarshalNullNode transfer_buffer) (some e)
  else .ofNode (MarshalNullNode transfer_buffer) none

/-- The method `NodeMethods::NamedDescendantForPosition`: both points are converted before
either is tested, so the exception of the first conversion is the one pending. -/
def NodeMethods.NamedDescendantForPosition (E : Engine) (N : NodeEngine) (tree : Tree)
    (min max : Except String TSPoint) (transfer_buffer : List Nat) : CallResult :=
  let node := decodedNode tree transfer_buffer
  if node.id ≠ 0 then
    match min, max with
    | .ok lo, .ok hi =>
      .ofNode (MarshalNode E tree (N.ts_node_named_descendant_for_point_range node lo hi)
        transfer_buffer) none
    | .ok _, .error e => .ofNode (MarshalNullNode transfer_buffer) (some e)
    | .error e, _ => .ofNode (MarshalNullNode transfer_buffer) (some e)
  else .ofNode (MarshalNullNode transfer_buffer) none

/-- The method `NodeMethods::ChildNodeForFieldId`; `field_id` is `info[1]`. -/
def NodeMethods.ChildNodeForFieldId (E : Engine) (N : NodeEngine) (tree : Tree)
    (field_id : JsValue) (transfer_buffer : List Nat) : CallResult :=
  let node := decodedNode tree transfer_buffer
  if node.id ≠ 0 then
    match field_id with
    | .num n =>
      .ofNode (MarshalNode E tree (N.ts_node_child_by_field_id node (n % 2 ^ 32))
        transfer_buffer) none
    | _ => .undefined transfer_buffer (some "Second argument must be an integer")
  else .ofNode (MarshalNullNode transfer_buffer) none

/-- The `do ... while (ts_tree_cursor_goto_next_sibling(&scratch_cursor))` loop shared by
`Children`, `NamedChildren` and `ChildNodesForFieldId`, with the cursor on `node`: the
current node is pushed when `keep` holds of the cursor. -/
def NodeMethods.siblingLoop (keep : TSTreeCursor → Bool) (stack : List CursorEntry) :
    TSNode → Forest → Forest → List TSNode
  | node, children, .nil =>
    if keep { top := { node := node, children := children, next := .nil }, stack := stack }
    then [node] else []
  | node, children, .cons n c nx =>
    (if keep { top := { node := node, children := children, next := .cons n c nx },
               stack := stack }
     then [node] else []) ++ NodeMethods.siblingLoop keep stack n c nx

/-- The statements from `ts_tree_cursor_reset` to the end of the loop in `Children`,
`NamedChildren` and `ChildNodesForFieldId`: the content of the vector `result`. -/
def NodeMethods.collectChildren (keep : TSTreeCursor → Bool) (t : Subtree) : List TSNode :=
  match ts_tree_cursor_goto_first_child (ts_tree_cursor_reset t) with
  | none => []
  | some c => NodeMethods.siblingLoop keep c.stack c.top.node c.top.children c.top.next

def NodeMethods.Children (E : Engine) (N : NodeEngine) (tree : Tree)
    (transfer_buffer : List Nat) : CallResult :=
  let node := decodedNode tree transfer_buffer
  if node.id = 0 then .undefined transfer_buffer none
  else
    .ofNodes (MarshalNodes E tree
      (NodeMethods.collectChildren (fun _ => true)
        { node := node, children := N.children node }) transfer_buffer)

def NodeMethods.NamedChildren (E : Engine) (N : NodeEngine) (tree : Tree)
    (transfer_buffer : List Nat) : CallResult :=
  let node := decodedNode tree transfer_buffer
  if node.id = 0 then .undefined transfer_buffer none
  else
    .ofNodes (MarshalNodes E tree
      (NodeMethods.collectChildren
        (fun cursor => E.ts_node_is_named (ts_tree_cursor_current_node cursor))
        { node := node, children := N.children node }) transfer_buffer)

/-- The method `NodeMethods::ChildNodesForFieldId`; `field_id` is `info[1]`. -/
def NodeMethods.ChildNodesForFieldId (E : Engine) (N : NodeEngine) (tree : Tree)
    (field_id : JsValue) (transfer_buffer : List Nat) : CallResult :=
  let node := decodedNode tree transfer_buffer
  if node.id = 0 then .undefined transfer_buffer none
  else
    match field_id with
    | .num n =>
      .ofNodes (MarshalNodes E tree
        (NodeMethods.collectChildren
          (fun cursor => N.ts_tree_cursor_current_field_id cursor == n % 2 ^ 32)
          { node := node, children := N.children node }) transfer_buffer)
    | _ => .undefined transfer_buffer (some "Second argument must be an integer")

/-- The method `NodeMethods::DescendantsOfType` from the transfer buffer to the returned
array; `start_point` and `end_point` are the points after conversion and defaulting. -/
def NodeMethods.DescendantsOfType (E : Engine) (N : NodeEngine) (language : TSLanguage)
    (tree : Tree) (types : JsArg) (start_point end_point : TSPoint)
    (transfer_buffer : List Nat) : CallResult :=
  let node := decodedNode tree transfer_buffer
  match NodeTreeSitter.DescendantsOfType E language
      { node := node, children := N.children node } types
      start_point end_point with
  | .undefined =>
    .undefined transfer_buffer
      (if node.id = 0 then none else some "Argument must be a string or array of strings")
  | .nodes (some found) => .ofNodes (MarshalNodes E tree found transfer_buffer)
  | .nodes none => .undefined transfer_buffer none

/-- The method `NodeMethods::Closest` from the transfer buffer to the returned value. -/
def NodeMethods.Closest (E : Engine) (N : NodeEngine) (language : TSLanguage) (tree : Tree)
    (types : JsArg) (transfer_buffer : List Nat) : CallResult :=
  let node := decodedNode tree transfer_buffer
  let r :=
    NodeTreeSitter.Closest E language tree node (N.ancestors node) types transfer_buffer
  { value := .value r.1, transfer_buffer := r.2,
    exception :=
      if node.id ≠ 0 ∧ symbol_set_from_js { symbols := [] } types language = none then
        some "Argument must be a string or array of strings"
      else none }

/-! ## The parser wrapper (parser.cc, language.cc, logger.cc) -/

/-- The struct `TSRange` of the engine. -/
structure TSRange where
  start_point : TSPoint
  end_point : TSPoint
  start_byte : Nat
  end_byte : Nat
deriving DecidableEq, Repr

/-- The struct `TSLogger` of the engine: `payload` is the host function held by the
`Logger` object it points to (`none` for a null pointer), `log` tells whether the hook is
`Logger::Log`. -/
structure TSLogger where
  payload : Option Nat
  log : Bool
deriving DecidableEq, Repr

/-- The function `Logger::Make`. -/
def Logger.Make (func : Nat) : TSLogger :=
  { payload := some func, log := true }

/-- The settings of the engine parser that the wrapper reads and writes: the language
(`ts_parser_set_language`), the logger (`ts_parser_logger`, `ts_parser_set_logger`), the
file descriptor of the dot graphs (`ts_parser_print_dot_graphs`) and the ranges handed to
the last `ts_parser_set_included_ranges`. -/
structure TSParser where
  language : Option TSLanguage
  logger : TSLogger
  dot_graph_file : Int
  included_ranges : List TSRange

def ts_parser_set_language (self : TSParser) (language : TSLanguage) : TSParser :=
  { self with language := some language }

def ts_parser_logger (self : TSParser) : TSLogger := self.logger

def ts_parser_set_logger (self : TSParser) (logger : TSLogger) : TSParser :=
  { self with logger := logger }

def ts_parser_print_dot_graphs (self : TSParser) (file : Int) : TSParser :=
  { self with dot_graph_file := file }

def ts_parser_set_included_ranges (self : TSParser) (ranges : List TSRange) : TSParser :=
  { self with included_ranges := ranges }

/-- The class `Parser`. -/
structure Parser where
  parser_ : TSParser
  is_parsing_async_ : Bool

/-- What a method of `Parser` returns to the host. -/
inductive ParserReturn where
  | undefined
  | this
  | tree (ts_tree : Nat)
deriving DecidableEq, Repr

/-- The outcome of a method of `Parser`: the returned value, the exception left pending, if
any, and the parser afterwards. -/
structure ParserCall where
  returned : ParserReturn
  exception : Option String
  parser : Parser

/-- The class of a host error object: `Napi::Error`, `Napi::TypeError`, `Napi::RangeError`. -/
inductive ErrorClass where
  | Error
  | TypeError
  | RangeError
deriving DecidableEq, Repr

/-- A thrown host error: its class and its message. -/
structure JsError where
  kind : ErrorClass
  message : String
deriving DecidableEq, Repr

/-- The argument of `UnwrapLanguage`: a value that is not an object, or an object, of which
`UnwrapLanguage` reads the property `instance`: absent (`none`), an external holding a null
pointer (`some none`) or an external holding a language. -/
inductive LanguageValue where
  | notObject (v : JsValue)
  | object (external : Option (Option TSLanguage))

/-- The function `UnwrapLanguage` of language.cc: the language, or `none` for `nullptr`,
with the exception it leaves pending.  `ts_language_version` is the engine accessor;
`min_compatible` and `current` are `TREE_SITTER_MIN_COMPATIBLE_LANGUAGE_VERSION` and
`TREE_SITTER_LANGUAGE_VERSION` of the engine header. -/
def UnwrapLanguage (ts_language_version : TSLanguage → Nat) (min_compatible current : Nat)
    (value : LanguageValue) : Option TSLanguage × Option JsError :=
  match value with
  | .notObject _ => (none, some { kind := .TypeError, message := "Invalid language" })
  | .object none => (none, some { kind := .TypeError, message := "Invalid language" })
  | .object (some none) => (none, none)
  | .object (some (some language)) =>
    let version := ts_language_version language
    if version < min_compatible ∨ version > current then
      (none, some { kind := .RangeError,
                    message := "Incompatible language version. Compatible range: " ++
                      toString min_compatible ++ " - " ++ toString current ++ ". Got: " ++
                      toString (ts_language_version language) })
    else (some language, none)

/-- The method `Parser::SetLanguage`; `value` is `info[0]`. -/
def Parser.SetLanguage (ts_language_version : TSLanguage → Nat)
    (min_compatible current : Nat) (self : Parser) (value : LanguageValue) : ParserCall :=
  if self.is_parsing_async_ then
    { returned := .undefined, exception := some "Parser is in use", parser := self }
  else
    match UnwrapLanguage ts_language_version min_compatible current value with
    | (some language, exception) =>
      { returned := .this, exception := exception.map JsError.message,
        parser := { self with parser_ := ts_parser_set_language self.parser_ language } }
    | (none, exception) =>
      { returned := .this, exception := exception.map JsError.message, parser := self }

/-- The argument of `Parser::SetLogger`: a host function, an empty value, or another host
value. -/
inductive LoggerArg where
  | function (func : Nat)
  | empty
  | value (v : JsValue)
deriving DecidableEq, Repr

/-- The method `Parser::SetLogger`; `arg` is `info[0]`. -/
def Parser.SetLogger (self : Parser) (arg : LoggerArg) : ParserCall :=
  if self.is_parsing_async_ then
    { returned := .undefined, exception := some "Parser is in use", parser := self }
  else
    match arg with
    | .function func =>
      { returned := .this, exception := none,
        parser := { self with parser_ := ts_parser_set_logger self.parser_ (Logger.Make func) } }
    | .empty =>
      { returned := .this, exception := none,
        parser := { self with
                    parser_ := ts_parser_set_logger self.parser_
                      { payload := none, log := false } } }
    | .value v =>
      if v = .null ∨ v = .bool false then
        { returned := .this, exception := none,
          parser := { self with
                      parser_ := ts_parser_set_logger self.parser_
                        { payload := none, log := false } } }
      else
        { returned := .this,
          exception := some "Logger callback must either be a function or a falsy value",
          parser := self }

/-- The method `Parser::PrintDotGraphs`; `arg` is `info[0]`. -/
def Parser.PrintDotGraphs (self : Parser) (arg : JsValue) : ParserCall :=
  if self.is_parsing_async_ then
    { returned := .undefined, exception := some "Parser is in use", parser := self }
  else if arg = .bool true then
    { returned := .this, exception := none,
      parser := { self with parser_ := ts_parser_print_dot_graphs self.parser_ 2 } }
  else
    { returned := .this, exception := none,
      parser := { self with parser_ := ts_parser_print_dot_graphs self.parser_ (-1) } }

/-- An element of the array of included ranges: a value that is not an object, or an
object, for which `range` is what `RangeFromJS` of conversions.h (not among the sources)
yields: the range, or the exception it throws. -/
inductive RangeValue where
  | notObject (v : JsValue)
  | object (range : Except String TSRange)

/-- The argument of `handle_included_ranges`. -/
inductive RangesArg where
  | notArray (v : JsValue)
  | array (items : List RangeValue)

/-- The `for` loop of `handle_included_ranges`: the vector `included_ranges` at the end of
the loop, or the exception pending (if any) at a `return false`. -/
def Parser.handle_included_ranges.loop :
    List RangeValue → Nat → List TSRange → Except (Option String) (List TSRange)
  | [], _, included_ranges => .ok included_ranges
  | .notObject _ :: _, _, _ => .error none
  | .object (.error e) :: _, _, _ => .error (some e)
  | .object (.ok range) :: rest, last_included_range_end, included_ranges =>
    if range.start_byte < last_included_range_end then .error (some "Overlapping ranges")
    else
      Parser.handle_included_ranges.loop rest range.end_byte (included_ranges ++ [range])

/-- The method `Parser::handle_included_ranges`: the returned flag, the exception left
pending and the parser afterwards. -/
def Parser.handle_included_ranges (self : Parser) (arg : RangesArg) :
    Bool × Option String × Parser :=
  match arg with
  | .array items =>
    match Parser.handle_included_ranges.loop items 0 [] with
    | .error exception => (false, exception, self)
    | .ok included_ranges =>
      (true, none,
        { self with parser_ := ts_parser_set_included_ranges self.parser_ included_ranges })
  | .notArray _ =>
    (true, none, { self with parser_ := ts_parser_set_included_ranges self.parser_ [] })

/-- The first argument of `Parser::Parse`. -/
inductive InputArg where
  | notFunction (v : JsValue)
  | function (callback : Nat → TSPoint → Option JsValue)

/-- The second argument of `Parser::Parse`: a value that is not an object, or an object
with what `Tree::UnwrapTree` yields for it. -/
inductive TreeArg where
  | notObject (v : JsValue)
  | object (tree : Option Tree)

/-- The constructor of `CallbackInput`. -/
def CallbackInput.new (callback : Nat → TSPoint → Option JsValue)
    (js_buffer_size : JsValue) : CallbackInput :=
  { callback := callback,
    buffer_size :=
      match js_buffer_size with
      | .num n => n % 2 ^ 32
      | _ => 32 * 1024,
    byte_offset := 0,
    partial_string := none }

/-- The method `Parser::Parse`: `input`, `old_tree`, `buffer_size` and `ranges` are
`info[0]` to `info[3]`, `info_length` is `info.Length()`, and `ts_parser_parse` is the
engine call, which yields the new tree. -/
def Parser.Parse (ts_parser_parse : TSParser → Option Nat → CallbackInput → Nat)
    (self : Parser) (input : InputArg) (info_length : Nat) (old_tree : TreeArg)
    (buffer_size : JsValue) (ranges : RangesArg) : ParserCall :=
  if self.is_parsing_async_ then
    { returned := .undefined, exception := some "Parser is in use", parser := self }
  else
    match input with
    | .notFunction _ =>
      { returned := .undefined, exception := some "Input must be a function", parser := self }
    | .function callback =>
      let unwrapped : Except String (Option Nat) :=
        if info_length > 1 then
          match old_tree with
          | .object none => .error "Second argument must be a tree"
          | .object (some tree) => .ok (some tree.tree_)
          | .notObject _ => .ok none
        else .ok none
      match unwrapped with
      | .error e => { returned := .undefined, exception := some e, parser := self }
      | .ok old =>
        let size : JsValue :=
          if info_length > 2 then
            match buffer_size with
            | .num n => .num n
            | _ => .null
          else .null
        match Parser.handle_included_ranges self ranges with
        | (false, exception, parser) =>
          { returned := .undefined, exception := exception, parser := parser }
        | (true, _, parser) =>
          { returned :=
              .tree (ts_parser_parse parser.parser_ old (CallbackInput.new callback size)),
            exception := none, parser := parser }

/-- Two byte ranges overlap: each starts before the other ends. -/
def TSRange.overlaps (a b : TSRange) : Prop :=
  a.start_byte < b.end_byte ∧ b.start_byte < a.end_byte

instance (a b : TSRange) : Decidable (a.overlaps b) := by
  unfold TSRange.overlaps; infer_instance

/-- The host array whose elements are the given ranges. -/
def rangesToJS (ranges : List TSRange) : RangesArg :=
  .array (ranges.map (fun range => .object (.ok range)))

/-! ## Batch encoding: the expected records -/

/-- The six words of the record of a handle: the identity split into low and high word,
then the four context words. -/
def nodeRecord (node : TSNode) : List Nat :=
  [node.id % 2 ^ 32, node.id / 2 ^ 32 % 2 ^ 32, node.context0, node.context1, node.context2,
    node.context3]

/-- The entry of the result array for one handle: the cached wrapper when the identity is
in the cache of the tree, otherwise the symbol of the node, or `null` for a null
identity. -/
def marshalledEntry (E : Engine) (tree : Tree) (node : TSNode) : JsValue :=
  match tree.find node.id with
  | some cache_entry => .obj cache_entry.node
  | none => if node.id ≠ 0 then .num (E.ts_node_symbol node) else .null

/-- The handles of a list whose identity is not in the cache of the tree, in list order. -/
def uncachedHandles (tree : Tree) (nodes : List TSNode) : List TSNode :=
  nodes.filter (fun node => (tree.find node.id).isNone)

/-- The lengths of the transfer buffer over a sequence of requests, each for a number of
records. -/
def setupSequence (transfer_buffer : List Nat) (counts : List Nat) : List Nat :=
  counts.foldl setup_transfer_buffer transfer_buffer

/-! ## Flat child enumeration: the cursor positions of the children -/

/-- The cursor positions on a node and on each of its following siblings, in sibling
order. -/
def siblingCursors (stack : List CursorEntry) : TSNode → Forest → Forest → List TSTreeCursor
  | node, children, .nil =>
    [{ top := { node := node, children := children, next := .nil }, stack := stack }]
  | node, children, .cons n c nx =>
    { top := { node := node, children := children, next := .cons n c nx }, stack := stack } ::
      siblingCursors stack n c nx

/-- The cursor positions on the children of a node, in sibling order. -/
def childCursors (t : Subtree) : List TSTreeCursor :=
  match ts_tree_cursor_goto_first_child (ts_tree_cursor_reset t) with
  | none => []
  | some c => siblingCursors c.stack c.top.node c.top.children c.top.next

/-! ## Bounded descendant search: passes, exits and tested nodes -/

/-- The state of the `while (true)` loop of `DescendantsOfType` at the start of pass
number `passes` (counted from 0); `none` when the loop was left before. -/
def DescendantsOfType.run (E : Engine) (symbols : SymbolSet)
    (start_point end_point : TSPoint) : Nat → SearchState → Option SearchState
  | 0, s => some s
  | passes + 1, s =>
    match DescendantsOfType.iteration E symbols start_point end_point s with
    | .inr _ => none
    | .inl s' => DescendantsOfType.run E symbols start_point end_point passes s'

/-- The pass that starts in state `s` tests its node against the range and leaves the loop
by `if (end_point <= ts_node_start_point(descendant)) break;`. -/
def DescendantsOfType.leavesAtRangeEnd (E : Engine) (start_point end_point : TSPoint)
    (s : SearchState) : Prop :=
  s.already_visited_children = false ∧
  (E.ts_node_end_point (ts_tree_cursor_current_node s.cursor)).le start_point = false ∧
  end_point.le (E.ts_node_start_point (ts_tree_cursor_current_node s.cursor)) = true

/-- The entry of the node the cursor was reset to: the last entry of the cursor stack. -/
def TSTreeCursor.root (c : TSTreeCursor) : Option CursorEntry :=
  (c.top :: c.stack).getLast?

/-- The `while (true)` loop of `DescendantsOfType` together with the record of the nodes it
tests: `examined` receives the current node of every pass that enters the branch
`if (!already_visited_children)`, where the node is compared with the range and the symbol
set.  The result is the pair of `found` and `examined` when the loop is left. -/
def DescendantsOfType.tracedLoop (E : Engine) (symbols : SymbolSet)
    (start_point end_point : TSPoint) :
    Nat → SearchState → List TSNode → Option (List TSNode × List TSNode)
  | 0, _, _ => none
  | fuel + 1, s, examined =>
    match DescendantsOfType.iteration E symbols start_point end_point s with
    | .inr found =>
      some (found,
        if s.already_visited_children then examined
        else examined ++ [ts_tree_cursor_current_node s.cursor])
    | .inl s' =>
      DescendantsOfType.tracedLoop E symbols start_point end_point fuel s'
        (if s.already_visited_children then examined
         else examined ++ [ts_tree_cursor_current_node s.cursor])

/-- Recursive description of the nodes tested in a sibling sequence: a node that ends at
or before `start_point` is tested and skipped with its subtree, a node that starts at or
after `end_point` is tested and ends the search, any other node is tested and descended
into before its next siblings. -/
def examinedForest (E : Engine) (symbols : SymbolSet) (start_point end_point : TSPoint) :
    Forest → List TSNode
  | .nil => []
  | .cons node children next =>
    if (E.ts_node_end_point node).le start_point then
      node :: examinedForest E symbols start_point end_point next
    else if end_point.le (E.ts_node_start_point node) then [node]
    else if (walkForest E symbols start_point end_point children).2 then
      node :: examinedForest E symbols start_point end_point children
    else
      node :: (examinedForest E symbols start_point end_point children ++
        examinedForest E symbols start_point end_point next)

/-- Recursive description of the nodes tested by the search started at a node. -/
def examinedSubtree (E : Engine) (symbols : SymbolSet) (start_point end_point : TSPoint)
    (t : Subtree) : List TSNode :=
  if (E.ts_node_end_point t.node).le start_point then [t.node]
  else if end_point.le (E.ts_node_start_point t.node) then [t.node]
  else t.node :: examinedForest E symbols start_point end_point t.children

/-! ## Property predicates (`set!`, `is?`, `is-not?`) -/

/-- The three per-pattern property tables of a query. -/
inductive PropertyMap where
  | set
  | asserted
  | refuted
deriving DecidableEq, Repr

/-- The operator that writes into a table: `set!`, `is?`, `is-not?`. -/
def PropertyMap.opCode : PropertyMap → String
  | .set => "set!"
  | .asserted => "is?"
  | .refuted => "is-not?"

/-- The local array of `BuildPredicates` that holds a table: `setProperties`,
`assertedProperties`, `refutedProperties`. -/
def BuildState.properties (st : BuildState) : PropertyMap → List (Option JsObject)
  | .set => st.setProperties
  | .asserted => st.assertedProperties
  | .refuted => st.refutedProperties

/-- The table that the loop body of `BuildPredicates` writes for a predicate, by its
dispatch on the first step and the operator name; `none` for the other predicates. -/
def propertyMapOf (steps : List JsValue) : Option PropertyMap :=
  if (jsGet steps 0).toUint32 ≠ TSQueryPredicateStepTypeString then none
  else if (jsGet steps 1).toStr = "set!" then some .set
  else if (jsGet steps 1).toStr = "is?" then some .asserted
  else if (jsGet steps 1).toStr = "is-not?" then some .refuted
  else none

/-- The flat array that `GetPredicates` yields for the predicate `(#op key)` or
`(#op key value)` with string operands. -/
def propertyPredicate (opCode key : String) (value : Option String) : List JsValue :=
  [.num TSQueryPredicateStepTypeString, .str opCode,
    .num TSQueryPredicateStepTypeString, .str key] ++
  match value with
  | some v => [.num TSQueryPredicateStepTypeString, .str v]
  | none => []

/-- The value stored for a property: the value operand, or the null marker. -/
def propertyValue (value : Option String) : JsValue :=
  match value with
  | some v => .str v
  | none => .null

/-- The own property `key` of the object of pattern `i` in a table: `none` when pattern `i`
has no object or the object has no own property with the key. -/
def propertyAt (properties : List (Option JsObject)) (i : Nat) (key : JsValue) :
    Option JsValue :=
  ((properties.getD i none).getD JsObject.new).properties.lookup key

/-- The value that the loop body stores for a predicate: `argType2 ? argVal2 : env.Null()`. -/
def storedValue (steps : List JsValue) : JsValue :=
  if (jsGet steps 4).toUint32 ≠ 0 then jsGet steps 5 else .null

/-- The predicate `steps` writes the key `key` into the table `m`. -/
def writesProperty (m : PropertyMap) (key : JsValue) (steps : List JsValue) : Prop :=
  propertyMapOf steps = some m ∧ jsGet steps 3 = key

instance (m : PropertyMap) (key : JsValue) (steps : List JsValue) :
    Decidable (writesProperty m key steps) := by
  unfold writesProperty; infer_instance

/-! ## The logging hook (logger.cc, `Logger::Log`)

A `std::string` is represented by the list of its characters; positions and counts are
`size_t` values. -/

/-- The constant `std::string::npos`, the largest `size_t`. -/
def npos : Nat := 2 ^ 64 - 1

/-- The subtraction of two `size_t` values. -/
def sub64 (a b : Nat) : Nat :=
  (a + 2 ^ 64 - b) % 2 ^ 64

/-- The search of `std::string::find` in the text that starts at position `pos`. -/
def stringFind.search (pattern : List Char) : List Char → Nat → Nat
  | [], pos => if pattern = [] then pos else npos
  | c :: cs, pos =>
    if pattern.isPrefixOf (c :: cs) then pos else stringFind.search pattern cs (pos + 1)

/-- The call `message.find(pattern, pos)`: the first position at or after `pos` where
`pattern` occurs, or `npos`. -/
def stringFind (message pattern : List Char) (pos : Nat) : Nat :=
  if pos > message.length then npos else stringFind.search pattern (message.drop pos) pos

/-- The call `message.substr(pos, count)`, for `pos` inside the string. -/
def substr (message : List Char) (pos count : Nat) : List Char :=
  (message.drop pos).take count

/-- The enum `TSLogType` of the engine. -/
inductive TSLogType where
  | TSLogTypeParse
  | TSLogTypeLex
deriving DecidableEq, Repr

/-- The `while (param_sep_pos != string::npos)` loop of `Logger::Log`, run for at most
`fuel` passes: the object `params` when the loop is left, `none` when the passes are used
up before. -/
def Logger.Log.loop (message : List Char) :
    Nat → List Char → Nat → JsObject → Option JsObject
  | 0, _, _, _ => none
  | fuel + 1, param_sep, param_sep_pos, params =>
    if param_sep_pos = npos then some params
    else
      let key_pos := (param_sep_pos + param_sep.length) % 2 ^ 64
      let value_sep_pos := stringFind message [':'] key_pos
      if value_sep_pos = npos then some params
      else
        let val_pos := (value_sep_pos + 1) % 2 ^ 64
        let param_sep_pos' := stringFind message [',', ' '] value_sep_pos
        let key := substr message key_pos (sub64 value_sep_pos key_pos)
        let value := substr message val_pos (sub64 param_sep_pos' val_pos)
        Logger.Log.loop message fuel [',', ' '] param_sep_pos'
          (JsObject.set params (.str (String.mk key)) (.str (String.mk value)))

/-- The three arguments with which `Logger::Log` calls the host function. -/
structure LogCall where
  name : JsValue
  params : JsObject
  type_name : JsValue
deriving DecidableEq, Repr

/-- The function `Logger::Log` for a payload whose `func` is a host function: the call it
makes, `fn({ name, params, type_name })`.  `message` is the content of the C string
`message_str`, the characters before its terminating NUL.  The loop is given one pass more
than the message has characters. -/
def Logger.Log (type : TSLogType) (message : List Char) : Option LogCall :=
  let param_sep_pos := stringFind message [' '] 0
  let type_name := if type = .TSLogTypeParse then "parse" else "lex"
  let name := substr message 0 param_sep_pos
  match Logger.Log.loop message (message.length + 1) [' '] param_sep_pos JsObject.new with
  | none => none
  | some params =>
    some { name := .str (String.mk name), params := params, type_name := .str type_name }

/-- The text `key1:value1, key2:value2, ...` of a list of parameters. -/
def renderParams : List (List Char × List Char) → List Char
  | [] => []
  | (key, value) :: rest =>
    match rest with
    | [] => key ++ ':' :: value
    | _ :: _ => key ++ ':' :: value ++ ',' :: ' ' :: renderParams rest

/-- The log line `name key1:value1, key2:value2, ...`. -/
def logLine (name : List Char) (params : List (List Char × List Char)) : List Char :=
  match params with
  | [] => name
  | _ :: _ => name ++ ' ' :: renderParams params

/-- The object `{ key1: value1, key2: value2, ... }` of a list of parameters: one own
property per parameter, prototype `Object.prototype`. -/
def paramsObject (params : List (List Char × List Char)) : JsObject :=
  { properties :=
      params.map (fun p => (JsValue.str (String.mk p.1), JsValue.str (String.mk p.2))) }


/-! ## Concrete inputs -/

/-- A tree whose identity cache holds the wrapper object `100` for the identity `7`. -/
def cachedTree : Tree :=
  { tree_ := 1, cached_nodes_ := [(7, { key := 7, node := 100 })] }

/-- A tree with an empty identity cache. -/
def uncachedTree : Tree :=
  { tree_ := 1, cached_nodes_ := [] }

/-- A handle of tree `1` with identity `7`. -/
def handle7 : TSNode :=
  { context0 := 11, context1 := 12, context2 := 13, context3 := 0, id := 7, tree := 1 }

/-- Engine accessors in which, as in the engine, `ts_node_symbol` reads the alias symbol
kept in the context word `context[3]` and falls back to the symbol of the subtree (here
the identity minus one) when that word is zero. -/
def aliasEngine : Engine where
  ts_node_symbol n := if n.context3 ≠ 0 then n.context3 else n.id - 1
  ts_node_start_point _ := { row := 0, column := 0 }
  ts_node_end_point _ := { row := 0, column := 0 }
  ts_node_is_named _ := true

/-- The transfer buffer as `InitNode` leaves it: six words. -/
def initialBuffer : List Nat := List.replicate 6 0

/-- An engine compiler that rejects its input with a syntax error at offset 0, as the
engine does for the source `)`. -/
def rejectAtOffsetZero (_source : String) : QueryNewResult :=
  { query := none, error_offset := 0, error_type := .TSQueryErrorSyntax }

/-- The engine query of `((identifier) @a (#eq? @a "lit"))`. -/
def eqLitQuery : TSQuery :=
  { capture_names := ["a"], string_values := ["eq?", "lit"],
    patterns := [[.string 0, .capture 0, .string 1, .done]] }

/-- The engine query of `((identifier) @a (#set! @a))`. -/
def setCaptureQuery : TSQuery :=
  { capture_names := ["a"], string_values := ["set!"],
    patterns := [[.string 0, .capture 0, .done]] }

/-- The engine query of `((identifier) @a (#not-eq? @a))`. -/
def notEqOneOperandQuery : TSQuery :=
  { capture_names := ["a"], string_values := ["not-eq?"],
    patterns := [[.string 0, .capture 0, .done]] }

/-- A query with the two capture names `a` and `b`. -/
def twoCaptureQuery : TSQuery :=
  { capture_names := ["a", "b"], string_values := [], patterns := [[]] }

/-- A match of pattern 0 that captures node 2 as `a` and node 3 as `b`. -/
def sampleMatch : TSQueryMatch :=
  { id := 0, pattern_index := 0,
    captures := [{ node := chainNode 2, index := 0 }, { node := chainNode 3, index := 1 }] }

/-- A single slice of `2 ^ 31 + 5` code units at address 1000. -/
def hugeSlices : List TextSlice :=
  [{ first := 1000, second := 2147483653 }]

/-- The slices "hello" at address 100, an empty slice, and " world" at address 200. -/
def helloSlices : List TextSlice :=
  [{ first := 100, second := 5 }, { first := 150, second := 0 }, { first := 200, second := 6 }]

/-- The slices "hello" at address 100 and " world" at address 200. -/
def helloWorldSlices : List TextSlice :=
  [{ first := 100, second := 5 }, { first := 200, second := 6 }]

/-- A navigation engine over a tree whose nodes have no relatives: every lookup answers
with the null handle. -/
def leafNodeEngine : NodeEngine where
  ts_node_parent n := { n with id := 0 }
  ts_node_child n _ := { n with id := 0 }
  ts_node_named_child n _ := { n with id := 0 }
  ts_node_child_count _ := 0
  ts_node_named_child_count _ := 0
  ts_node_next_sibling n := { n with id := 0 }
  ts_node_next_named_sibling n := { n with id := 0 }
  ts_node_prev_sibling n := { n with id := 0 }
  ts_node_prev_named_sibling n := { n with id := 0 }
  ts_node_first_child_for_byte n _ := { n with id := 0 }
  ts_node_first_named_child_for_byte n _ := { n with id := 0 }
  ts_node_descendant_for_byte_range n _ _ := n
  ts_node_named_descendant_for_byte_range n _ _ := n
  ts_node_descendant_for_point_range n _ _ := n
  ts_node_named_descendant_for_point_range n _ _ := n
  ts_node_child_by_field_id n _ := { n with id := 0 }
  ts_tree_cursor_current_field_id _ := 0
  children _ := .nil
  ancestors _ := []

/-- A transfer buffer whose identity words are zero while a context word is not. -/
def staleNullBuffer : List Nat := [0, 0, 1, 0, 0, 0]

/-- The engine query of `((identifier) @a (#match? @a "^x"))`. -/
def matchQuery : TSQuery :=
  { capture_names := ["a"], string_values := ["match?", "^x"],
    patterns := [[.string 0, .capture 0, .string 1, .done]] }

/-- A parser as its constructor leaves it: no language, no logger, no dot graphs, the whole
document included. -/
def freshParser : Parser :=
  { parser_ := { language := none, logger := { payload := none, log := false },
                 dot_graph_file := -1, included_ranges := [] },
    is_parsing_async_ := false }

/-- A configured parser whose busy flag is set. -/
def busyParser : Parser :=
  { parser_ := { language := some chainLanguage, logger := Logger.Make 9,
                 dot_graph_file := 2,
                 included_ranges :=
                   [{ start_point := { row := 0, column := 0 },
                      end_point := { row := 0, column := 8 },
                      start_byte := 0, end_byte := 8 }] },
    is_parsing_async_ := true }

/-- The byte ranges `[0, 10)` and `[6, 12)` of one line, which share the bytes 6 to 9. -/
def overlappingRanges : List TSRange :=
  [{ start_point := { row := 0, column := 0 }, end_point := { row := 0, column := 10 },
     start_byte := 0, end_byte := 10 },
   { start_point := { row := 0, column := 6 }, end_point := { row := 0, column := 12 },
     start_byte := 6, end_byte := 12 }]

/-- An engine parse call that yields the tree `1` for every input. -/
def parseToTreeOne (_self : TSParser) (_old_tree : Option Nat) (_input : CallbackInput) :
    Nat := 1

/-- A vector of 715827883 handles (six times that count is 2^32 + 2). -/
def manyHandles : List TSNode := List.replicate 715827883 handle7

/-- The engine query of `((identifier) @a (#set! k "1") (#set! k "2"))`. -/
def setTwiceQuery : TSQuery :=
  { capture_names := ["a"], string_values := ["set!", "k", "1", "2"],
    patterns := [[.string 0, .string 1, .string 2, .done,
                  .string 0, .string 1, .string 3, .done]] }

/-- The engine query of `((identifier) @a (#set! __proto__ "x"))`. -/
def setProtoQuery : TSQuery :=
  { capture_names := ["a"], string_values := ["set!", "__proto__", "x"],
    patterns := [[.string 0, .string 1, .string 2, .done]] }

/-- The engine query with the patterns `((identifier) @a (#is? local))` and
`((identifier) @a (#set! kind "var") (#is-not? exported))`. -/
def propertiesQuery : TSQuery :=
  { capture_names := ["a"],
    string_values := ["is?", "local", "set!", "kind", "var", "is-not?", "exported"],
    patterns := [[.string 0, .string 1, .done],
                 [.string 2, .string 3, .string 4, .done, .string 5, .string 6, .done]] }

/-! ## Theorems -/

/-! ### Order on points -/

theorem TSPoint.le_eq_true_iff (a b : TSPoint) : a.le b = true ↔ a.notAfter b := by
  unfold TSPoint.le TSPoint.notAfter
  by_cases h1 : a.row < b.row
  · simp [h1]
  · by_cases h2 : a.row > b.row
    · simp [h1, h2]; omega
    · have : a.row = b.row := by omega
      simp [this]

theorem TSPoint.le_eq_false_iff (a b : TSPoint) : a.le b = false ↔ b.before a := by
  unfold TSPoint.le TSPoint.before
  by_cases h1 : a.row < b.row
  · simp [h1]; omega
  · by_cases h2 : a.row > b.row
    · simp [h1, h2]
    · have : a.row = b.row := by omega
      simp [this]

theorem TSPoint.notAfter_trans {a b c : TSPoint} (h1 : a.notAfter b) (h2 : b.notAfter c) :
    a.notAfter c := by
  unfold TSPoint.notAfter at *; omega

theorem TSPoint.not_before_of_notAfter {a b : TSPoint} (h : a.notAfter b) : ¬ b.before a := by
  unfold TSPoint.notAfter at h; unfold TSPoint.before; omega

/-- A node whose span has a point in common with the range passes the two comparisons of
the loop. -/
theorem DescendantsOfType.inRange_of_spanIntersects (E : Engine)
    (start_point end_point : TSPoint) (n : TSNode)
    (h : spanIntersects E start_point end_point n) :
    DescendantsOfType.inRange E start_point end_point n := by
  obtain ⟨p, h1, h2, h3, h4⟩ := h
  unfold TSPoint.notAfter at h1 h3
  unfold TSPoint.before at h2 h4
  unfold DescendantsOfType.inRange TSPoint.before
  constructor <;> omega

/-- For a node with a non-empty span and a non-empty range, the node passes the two
comparisons of the loop exactly when its span has a point in common with the range. -/
theorem DescendantsOfType.inRange_iff_spanIntersects (E : Engine)
    (start_point end_point : TSPoint)
    (n : TSNode) (hspan : (E.ts_node_start_point n).before (E.ts_node_end_point n))
    (hrange : start_point.before end_point) :
    DescendantsOfType.inRange E start_point end_point n ↔
      spanIntersects E start_point end_point n := by
  constructor
  · rintro ⟨h1, h2⟩
    by_cases hc : (E.ts_node_start_point n).notAfter start_point
    · refine ⟨start_point, hc, h1, ?_, hrange⟩
      unfold TSPoint.notAfter; omega
    · refine ⟨E.ts_node_start_point n, ?_, hspan, ?_, h2⟩
      · unfold TSPoint.notAfter; omega
      · unfold TSPoint.notAfter at hc ⊢; omega
  · exact DescendantsOfType.inRange_of_spanIntersects E start_point end_point n

/-! ### The loop of `DescendantsOfType` follows the recursive description -/

theorem DescendantsOfType.loop_succ (E : Engine) (symbols : SymbolSet)
    (sp ep : TSPoint) (fuel : Nat) (s : SearchState) :
    DescendantsOfType.loop E symbols sp ep (fuel + 1) s =
      match DescendantsOfType.iteration E symbols sp ep s with
      | .inr found => some found
      | .inl s' => DescendantsOfType.loop E symbols sp ep fuel s' := rfl

/-- A pass that starts at a node whose children were already visited moves to the next
sibling, or else to the parent. -/
theorem DescendantsOfType.iteration_visited (E : Engine) (symbols : SymbolSet)
    (sp ep : TSPoint) (x : TSNode) (xc f : Forest) (stack : List CursorEntry)
    (acc : List TSNode) :
    DescendantsOfType.iteration E symbols sp ep
      { cursor := { top := { node := x, children := xc, next := f }, stack := stack },
        already_visited_children := true, found := acc } =
      match f, stack with
      | .cons n c nx, _ =>
        .inl { cursor := { top := { node := n, children := c, next := nx }, stack := stack },
               already_visited_children := false, found := acc }
      | .nil, pe :: rest =>
        .inl { cursor := { top := pe, stack := rest },
               already_visited_children := true, found := acc }
      | .nil, [] => .inr acc := by
  cases f <;> cases stack <;>
    simp [DescendantsOfType.iteration, ts_tree_cursor_goto_next_sibling,
      ts_tree_cursor_goto_parent]

/-- A pass at a node that is not yet visited, in the three cases of the loop body. -/
theorem DescendantsOfType.iteration_fresh (E : Engine) (symbols : SymbolSet)
    (sp ep : TSPoint) (n : TSNode) (c nx : Forest) (stack : List CursorEntry)
    (acc : List TSNode) :
    DescendantsOfType.iteration E symbols sp ep
      { cursor := { top := { node := n, children := c, next := nx }, stack := stack },
        already_visited_children := false, found := acc } =
      if (E.ts_node_end_point n).le sp then
        DescendantsOfType.iteration E symbols sp ep
          { cursor := { top := { node := n, children := c, next := nx }, stack := stack },
            already_visited_children := true, found := acc }
      else if ep.le (E.ts_node_start_point n) then .inr acc
      else
        match c with
        | .cons cn cc cnx =>
          .inl { cursor := { top := { node := cn, children := cc, next := cnx },
                             stack := { node := n, children := c, next := nx } :: stack },
                 already_visited_children := false,
                 found := acc ++ if symbols.contains (E.ts_node_symbol n) then [n] else [] }
        | .nil =>
          DescendantsOfType.iteration E symbols sp ep
            { cursor := { top := { node := n, children := .nil, next := nx }, stack := stack },
              already_visited_children := true,
              found := acc ++ if symbols.contains (E.ts_node_symbol n) then [n] else [] } := by
  by_cases h1 : (E.ts_node_end_point n).le sp = true
  · cases nx <;> cases stack <;>
      simp [DescendantsOfType.iteration, ts_tree_cursor_goto_next_sibling,
        ts_tree_cursor_goto_parent, ts_tree_cursor_current_node, h1]
  · by_cases h2 : ep.le (E.ts_node_start_point n) = true
    · simp [DescendantsOfType.iteration, ts_tree_cursor_current_node, h1, h2]
    · by_cases h3 : symbols.contains (E.ts_node_symbol n) = true <;>
        cases c <;> cases nx <;> cases stack <;>
        simp [DescendantsOfType.iteration, ts_tree_cursor_goto_next_sibling,
          ts_tree_cursor_goto_parent, ts_tree_cursor_goto_first_child,
          ts_tree_cursor_current_node, h1, h2, h3]

/-- From a node whose children were already visited, with `f` the sequence of its next
siblings and `pe` the entry of its parent: within `2 * f.size + 1` passes the loop either
is left by the `break` inside `f`, or is back at the parent with the nodes recorded in `f`
appended to `found`. -/
theorem DescendantsOfType.loop_siblings (E : Engine) (symbols : SymbolSet)
    (sp ep : TSPoint) (f : Forest) :
    ∀ (x : TSNode) (xc : Forest) (pe : CursorEntry) (rest : List CursorEntry)
      (acc : List TSNode),
    ∃ k, 1 ≤ k ∧ k ≤ 2 * f.size + 1 ∧ ∀ fuel,
      DescendantsOfType.loop E symbols sp ep (fuel + k)
        { cursor := { top := { node := x, children := xc, next := f }, stack := pe :: rest },
          already_visited_children := true, found := acc } =
      if (walkForest E symbols sp ep f).2 = true then
        some (acc ++ (walkForest E symbols sp ep f).1)
      else
        DescendantsOfType.loop E symbols sp ep fuel
          { cursor := { top := pe, stack := rest }, already_visited_children := true,
            found := acc ++ (walkForest E symbols sp ep f).1 } := by
  induction f with
  | nil =>
    intro x xc pe rest acc
    refine ⟨1, le_refl _, by simp [Forest.size], fun fuel => ?_⟩
    rw [DescendantsOfType.loop_succ, DescendantsOfType.iteration_visited]
    simp [walkForest]
  | cons n c nx ihc ihnx =>
    intro x xc pe rest acc
    by_cases h1 : (E.ts_node_end_point n).le sp = true
    · obtain ⟨k, hk1, hk2, hk⟩ := ihnx n c pe rest acc
      obtain ⟨k', rfl⟩ : ∃ k', k = k' + 1 := ⟨k - 1, by omega⟩
      refine ⟨k' + 1 + 1, by omega, by simp only [Forest.size]; omega, fun fuel => ?_⟩
      rw [← Nat.add_assoc, DescendantsOfType.loop_succ, DescendantsOfType.iteration_visited]
      simp only
      rw [← Nat.add_assoc, DescendantsOfType.loop_succ, DescendantsOfType.iteration_fresh,
        if_pos h1, ← DescendantsOfType.loop_succ, Nat.add_assoc, hk]
      simp [walkForest, h1]
    · by_cases h2 : ep.le (E.ts_node_start_point n) = true
      · refine ⟨2, by omega, by simp only [Forest.size]; omega, fun fuel => ?_⟩
        rw [show fuel + 2 = fuel + 1 + 1 from rfl, DescendantsOfType.loop_succ,
          DescendantsOfType.iteration_visited]
        simp only
        rw [DescendantsOfType.loop_succ, DescendantsOfType.iteration_fresh, if_neg h1,
          if_pos h2]
        simp [walkForest, h1, h2]
      · cases hc : c with
        | nil =>
          subst hc
          obtain ⟨k, hk1, hk2, hk⟩ := ihnx n .nil pe rest
            (acc ++ if symbols.contains (E.ts_node_symbol n) then [n] else [])
          obtain ⟨k', rfl⟩ : ∃ k', k = k' + 1 := ⟨k - 1, by omega⟩
          refine ⟨k' + 1 + 1, by omega, by simp only [Forest.size]; omega, fun fuel => ?_⟩
          rw [← Nat.add_assoc, DescendantsOfType.loop_succ,
            DescendantsOfType.iteration_visited]
          simp only
          rw [← Nat.add_assoc, DescendantsOfType.loop_succ,
            DescendantsOfType.iteration_fresh, if_neg h1, if_neg h2]
          simp only
          rw [← DescendantsOfType.loop_succ, Nat.add_assoc, hk]
          simp [walkForest, h1, h2]
        | cons cn cc cnx =>
          rw [← hc]
          obtain ⟨kc, hkc1, hkc2, hkc⟩ := ihc n c { node := n, children := c, next := nx }
            (pe :: rest) (acc ++ if symbols.contains (E.ts_node_symbol n) then [n] else [])
          obtain ⟨kc', rfl⟩ : ∃ kc', kc = kc' + 1 := ⟨kc - 1, by omega⟩
          obtain ⟨k, hk1, hk2, hk⟩ := ihnx n c pe rest
            ((acc ++ if symbols.contains (E.ts_node_symbol n) then [n] else []) ++
              (walkForest E symbols sp ep c).1)
          refine ⟨k + kc' + 1 + 1, by omega, by simp only [Forest.size]; omega,
            fun fuel => ?_⟩
          have hstep : ∀ m, DescendantsOfType.loop E symbols sp ep (m + 1 + 1)
              { cursor := { top := { node := x, children := xc, next := .cons n c nx },
                            stack := pe :: rest },
                already_visited_children := true, found := acc } =
              DescendantsOfType.loop E symbols sp ep (m + 1)
                { cursor := { top := { node := n, children := c, next := c },
                              stack := { node := n, children := c, next := nx } :: pe :: rest },
                  already_visited_children := true,
                  found := acc ++ if symbols.contains (E.ts_node_symbol n) then [n] else [] } := by
            intro m
            have hd := DescendantsOfType.loop_succ E symbols sp ep m
              { cursor := { top := { node := n, children := c, next := c },
                            stack := { node := n, children := c, next := nx } :: pe :: rest },
                already_visited_children := true,
                found := acc ++ if symbols.contains (E.ts_node_symbol n) then [n] else [] }
            rw [DescendantsOfType.iteration_visited] at hd
            rw [hd, DescendantsOfType.loop_succ, DescendantsOfType.iteration_visited]
            simp only
            rw [DescendantsOfType.loop_succ, DescendantsOfType.iteration_fresh, if_neg h1,
              if_neg h2]
            simp only [hc]
          rw [show fuel + (k + kc' + 1 + 1) = (fuel + k + kc') + 1 + 1 by omega, hstep,
            show fuel + k + kc' + 1 = (fuel + k) + (kc' + 1) by omega, hkc]
          by_cases hs : (walkForest E symbols sp ep c).2 = true
          · simp [walkForest, h1, h2, hs, List.append_assoc]
          · rw [if_neg hs, hk]
            simp [walkForest, h1, h2, hs, List.append_assoc]

/-- The search always leaves the loop within its budget of passes, with the nodes of the
recursive description. -/
theorem DescendantsOfType.search_eq_walk (E : Engine) (symbols : SymbolSet)
    (sp ep : TSPoint) (t : Subtree) :
    DescendantsOfType.search E symbols sp ep t = some (walkSubtree E symbols sp ep t) := by
  obtain ⟨n, c⟩ := t
  unfold DescendantsOfType.search walkSubtree ts_tree_cursor_reset
  simp only
  by_cases h1 : (E.ts_node_end_point n).le sp = true
  · rw [DescendantsOfType.loop_succ, DescendantsOfType.iteration_fresh, if_pos h1,
      DescendantsOfType.iteration_visited]
    simp [h1]
  · by_cases h2 : ep.le (E.ts_node_start_point n) = true
    · rw [DescendantsOfType.loop_succ, DescendantsOfType.iteration_fresh, if_neg h1,
        if_pos h2]
      simp [h1, h2]
    · cases hc : c with
      | nil =>
        rw [DescendantsOfType.loop_succ, DescendantsOfType.iteration_fresh, if_neg h1,
          if_neg h2]
        simp only
        rw [DescendantsOfType.iteration_visited]
        simp [h1, h2, walkForest]
      | cons cn cc cnx =>
        rw [← hc]
        obtain ⟨k, hk1, hk2, hk⟩ := DescendantsOfType.loop_siblings E symbols sp ep c n c
          { node := n, children := c, next := .nil } []
          ([] ++ if symbols.contains (E.ts_node_symbol n) then [n] else [])
        obtain ⟨k', rfl⟩ : ∃ k', k = k' + 1 := ⟨k - 1, by omega⟩
        have hd := hk (2 * c.size + 3 - (k' + 1))
        rw [show 2 * c.size + 3 - (k' + 1) + (k' + 1) = 2 * c.size + 2 + 1 by omega,
          DescendantsOfType.loop_succ, DescendantsOfType.iteration_visited] at hd
        rw [DescendantsOfType.loop_succ, DescendantsOfType.iteration_fresh, if_neg h1,
          if_neg h2]
        simp only [hc] at hd ⊢
        rw [hd]
        by_cases hs : (walkForest E symbols sp ep (.cons cn cc cnx)).2 = true
        · simp [h1, h2, hs]
        · rw [if_neg hs]
          obtain ⟨m, hm⟩ : ∃ m, 2 * (Forest.cons cn cc cnx).size + 3 - (k' + 1) = m + 1 :=
            ⟨2 * (Forest.cons cn cc cnx).size + 3 - (k' + 1) - 1, by subst hc; omega⟩
          rw [hm, DescendantsOfType.loop_succ, DescendantsOfType.iteration_visited]
          simp [h1, h2]

/-! ### The recursive description on well-formed trees -/

/-- In a well-formed sibling sequence inside `[lo, hi]` every node starts at or after `lo`
and ends at or before `hi`. -/
theorem Forest.wellFormed_bounds (E : Engine) (f : Forest) :
    ∀ (lo hi : TSPoint), f.wellFormed E lo hi → ∀ n ∈ f.preorder,
      lo.notAfter (E.ts_node_start_point n) ∧ (E.ts_node_end_point n).notAfter hi := by
  induction f with
  | nil => intro lo hi _ n hn; simp [Forest.preorder] at hn
  | cons node children next ihc ihn =>
    intro lo hi hwf n hn
    obtain ⟨h1, h2, h3, h4, h5⟩ := hwf
    simp only [Forest.preorder, List.mem_cons, List.mem_append] at hn
    rcases hn with rfl | hn | hn
    · exact ⟨h1, h3⟩
    · obtain ⟨ha, hb⟩ := ihc _ _ h4 n hn
      exact ⟨TSPoint.notAfter_trans h1 ha, TSPoint.notAfter_trans hb h3⟩
    · obtain ⟨ha, hb⟩ := ihn _ _ h5 n hn
      exact ⟨TSPoint.notAfter_trans (TSPoint.notAfter_trans h1 h2) ha, hb⟩

/-- When the recursive description ends by `break` inside a well-formed sibling sequence
inside `[lo, hi]`, the range ends at or before `hi`. -/
theorem walkForest_stopped (E : Engine) (symbols : SymbolSet) (sp ep : TSPoint)
    (f : Forest) : ∀ (lo hi : TSPoint), f.wellFormed E lo hi →
      (walkForest E symbols sp ep f).2 = true → ep.notAfter hi := by
  induction f with
  | nil => intro lo hi _ h; simp [walkForest] at h
  | cons node children next ihc ihn =>
    intro lo hi hwf h
    obtain ⟨h1, h2, h3, h4, h5⟩ := hwf
    unfold walkForest at h
    by_cases hs : (E.ts_node_end_point node).le sp = true
    · rw [if_pos hs] at h
      exact ihn _ _ h5 h
    · rw [if_neg hs] at h
      by_cases hb : ep.le (E.ts_node_start_point node) = true
      · exact TSPoint.notAfter_trans ((TSPoint.le_eq_true_iff _ _).1 hb)
          (TSPoint.notAfter_trans h2 h3)
      · rw [if_neg hb] at h
        by_cases hi' : (walkForest E symbols sp ep children).2 = true
        · exact TSPoint.notAfter_trans (ihc _ _ h4 hi') h3
        · simp only [hi'] at h
          exact ihn _ _ h5 h

/-- On a well-formed sibling sequence the recursive description records exactly the nodes,
in pre-order, whose symbol is in the set and which pass the two range comparisons. -/
theorem walkForest_eq_filter (E : Engine) (symbols : SymbolSet) (sp ep : TSPoint)
    (f : Forest) : ∀ (lo hi : TSPoint), f.wellFormed E lo hi →
      (walkForest E symbols sp ep f).1 =
        f.preorder.filter (fun n =>
          symbols.contains (E.ts_node_symbol n) &&
            decide (DescendantsOfType.inRange E sp ep n)) := by
  induction f with
  | nil => intro lo hi _; simp [walkForest, Forest.preorder]
  | cons node children next ihc ihn =>
    intro lo hi hwf
    have hwf' := hwf
    obtain ⟨h1, h2, h3, h4, h5⟩ := hwf'
    have hbc := Forest.wellFormed_bounds E children _ _ h4
    have hbn := Forest.wellFormed_bounds E next _ _ h5
    unfold walkForest
    simp only [Forest.preorder, List.filter_cons, List.filter_append]
    by_cases hs : (E.ts_node_end_point node).le sp = true
    · have hsp := (TSPoint.le_eq_true_iff _ _).1 hs
      have hnode : ¬ DescendantsOfType.inRange E sp ep node :=
        fun h => TSPoint.not_before_of_notAfter hsp h.1
      have hch : children.preorder.filter (fun n =>
          symbols.contains (E.ts_node_symbol n) &&
            decide (DescendantsOfType.inRange E sp ep n)) = [] := by
        rw [List.filter_eq_nil_iff]
        intro m hm
        have hm' := TSPoint.notAfter_trans (hbc m hm).2 hsp
        have : ¬ DescendantsOfType.inRange E sp ep m :=
          fun h => TSPoint.not_before_of_notAfter hm' h.1
        simp [this]
      rw [if_pos hs, ihn _ _ h5, hch]
      simp [hnode]
    · rw [if_neg hs]
      have hsp : sp.before (E.ts_node_end_point node) :=
        (TSPoint.le_eq_false_iff _ _).1 (by simpa using hs)
      by_cases hb : ep.le (E.ts_node_start_point node) = true
      · have hep := (TSPoint.le_eq_true_iff _ _).1 hb
        have hnode : ¬ DescendantsOfType.inRange E sp ep node :=
          fun h => TSPoint.not_before_of_notAfter hep h.2
        have hch : children.preorder.filter (fun n =>
            symbols.contains (E.ts_node_symbol n) &&
              decide (DescendantsOfType.inRange E sp ep n)) = [] := by
          rw [List.filter_eq_nil_iff]
          intro m hm
          have hm' := TSPoint.notAfter_trans hep (hbc m hm).1
          have : ¬ DescendantsOfType.inRange E sp ep m :=
            fun h => TSPoint.not_before_of_notAfter hm' h.2
          simp [this]
        have hnx : next.preorder.filter (fun n =>
            symbols.contains (E.ts_node_symbol n) &&
              decide (DescendantsOfType.inRange E sp ep n)) = [] := by
          rw [List.filter_eq_nil_iff]
          intro m hm
          have hm' := TSPoint.notAfter_trans hep (TSPoint.notAfter_trans h2 (hbn m hm).1)
          have : ¬ DescendantsOfType.inRange E sp ep m :=
            fun h => TSPoint.not_before_of_notAfter hm' h.2
          simp [this]
        rw [if_pos hb, hch, hnx]
        simp [hnode]
      · rw [if_neg hb]
        have hep : (E.ts_node_start_point node).before ep :=
          (TSPoint.le_eq_false_iff _ _).1 (by simpa using hb)
        have hnode : DescendantsOfType.inRange E sp ep node := ⟨hsp, hep⟩
        by_cases hi' : (walkForest E symbols sp ep children).2 = true
        · have hend := walkForest_stopped E symbols sp ep children _ _ h4 hi'
          have hnx : next.preorder.filter (fun n =>
              symbols.contains (E.ts_node_symbol n) &&
                decide (DescendantsOfType.inRange E sp ep n)) = [] := by
            rw [List.filter_eq_nil_iff]
            intro m hm
            have hm' := TSPoint.notAfter_trans hend (hbn m hm).1
            have : ¬ DescendantsOfType.inRange E sp ep m :=
              fun h => TSPoint.not_before_of_notAfter hm' h.2
            simp [this]
          simp only [hi', if_true, ihc _ _ h4, hnx, hnode, decide_True, Bool.and_true,
            List.append_nil]
          by_cases hsym : symbols.contains (E.ts_node_symbol node) = true <;> simp [hsym]
        · simp only [hi', ihc _ _ h4, ihn _ _ h5, hnode, decide_True, Bool.and_true]
          by_cases hsym : symbols.contains (E.ts_node_symbol node) = true <;> simp [hsym]

/-- Every array of type-name strings is accepted by `symbol_set_from_js`. -/
theorem symbol_set_from_items_strings (language : TSLanguage) (names : List String) :
    ∀ symbols : SymbolSet,
      ∃ resolved, symbol_set_from_items language (names.map JsValue.str) symbols =
        some resolved := by
  induction names with
  | nil => intro symbols; exact ⟨symbols, rfl⟩
  | cons name rest ih =>
    intro symbols
    simp only [List.map_cons, symbol_set_from_items]
    split
    · exact ih _
    · exact ih _

/-- C1 (counterexample). On the chain `A → B → C` with spans `A = [0,10)`, `B = [2,8)`,
`C = [4,6)` and start node `A`: querying type `A` with range `[3,5)` returns `[A]`, the
start node itself, which is not one of its descendants; and querying type `B` with the
empty range `[3,3)` returns `[B]`, although no point lies both in the span of `B` and in
the range. -/
theorem descendantsOfType_start_node_counterexample :
    chainTree.wellFormed chainEngine ∧
    DescendantsOfType chainEngine chainLanguage chainTree (.array [.str "A"])
      { row := 0, column := 3 } { row := 0, column := 5 } =
        .nodes (some [chainNode 1]) ∧
    chainNode 1 = chainTree.node ∧ chainNode 1 ∉ chainTree.descendants ∧
    DescendantsOfType chainEngine chainLanguage chainTree (.array [.str "B"])
      { row := 0, column := 3 } { row := 0, column := 3 } =
        .nodes (some [chainNode 2]) ∧
    chainNode 2 ∈ chainTree.descendants ∧
    ¬ spanIntersects chainEngine { row := 0, column := 3 } { row := 0, column := 3 }
        (chainNode 2) := by
  refine ⟨by decide, by decide, rfl, by decide, by decide, by decide, ?_⟩
  rintro ⟨p, _, _, h3, h4⟩
  unfold TSPoint.notAfter at h3
  unfold TSPoint.before at h4
  simp only at h3 h4
  omega

/-- C1 (amended). On every well-formed tree (children's spans nested in the parent's span
and ordered left to right), for every start node with a non-null identity, every list of
type names and every point range, `descendantsOfType` resolves the names to a symbol set
and returns exactly the pre-order sequence of the nodes of the start node's subtree, the
start node included, whose symbol is in the resolved set and which pass the two range
comparisons of the loop (the node ends after `start_point` and starts before
`end_point`); for a node with a non-empty span and a non-empty range, passing the two
comparisons is the same as the span of the node having a point in common with the
range. -/
theorem descendantsOfType_preorder_filter (E : Engine) (language : TSLanguage) (t : Subtree)
    (names : List String) (start_point end_point : TSPoint)
    (hid : t.node.id ≠ 0) (hwf : t.wellFormed E) :
    ∃ symbols,
      symbol_set_from_js { symbols := [] } (.array (names.map JsValue.str)) language =
        some symbols ∧
      DescendantsOfType E language t (.array (names.map JsValue.str)) start_point end_point =
        .nodes (some (t.preorder.filter (fun n =>
          symbols.contains (E.ts_node_symbol n) &&
            decide (DescendantsOfType.inRange E start_point end_point n)))) ∧
      t.preorder = t.node :: t.descendants ∧
      ∀ n : TSNode, (E.ts_node_start_point n).before (E.ts_node_end_point n) →
        start_point.before end_point →
        (DescendantsOfType.inRange E start_point end_point n ↔
          spanIntersects E start_point end_point n) := by
  obtain ⟨symbols, hsym⟩ := symbol_set_from_items_strings language names { symbols := [] }
  refine ⟨symbols, hsym, ?_, rfl, fun n hspan hrange =>
    DescendantsOfType.inRange_iff_spanIntersects E start_point end_point n hspan hrange⟩
  have hsym' : symbol_set_from_js { symbols := [] } (.array (names.map JsValue.str))
      language = some symbols := hsym
  unfold DescendantsOfType
  rw [if_neg hid, hsym']
  simp only
  rw [DescendantsOfType.search_eq_walk]
  obtain ⟨h0, hch⟩ := hwf
  have hb := Forest.wellFormed_bounds E t.children _ _ hch
  unfold walkSubtree Subtree.preorder
  simp only [List.filter_cons]
  by_cases hs : (E.ts_node_end_point t.node).le start_point = true
  · have hsp := (TSPoint.le_eq_true_iff _ _).1 hs
    have hnode : ¬ DescendantsOfType.inRange E start_point end_point t.node :=
      fun h => TSPoint.not_before_of_notAfter hsp h.1
    have hch' : t.children.preorder.filter (fun n =>
        symbols.contains (E.ts_node_symbol n) &&
          decide (DescendantsOfType.inRange E start_point end_point n)) = [] := by
      rw [List.filter_eq_nil_iff]
      intro m hm
      have hm' := TSPoint.notAfter_trans (hb m hm).2 hsp
      have : ¬ DescendantsOfType.inRange E start_point end_point m :=
        fun h => TSPoint.not_before_of_notAfter hm' h.1
      simp [this]
    rw [if_pos hs, hch']
    simp [hnode]
  · rw [if_neg hs]
    have hsp : start_point.before (E.ts_node_end_point t.node) :=
      (TSPoint.le_eq_false_iff _ _).1 (by simpa using hs)
    by_cases hbk : end_point.le (E.ts_node_start_point t.node) = true
    · have hep := (TSPoint.le_eq_true_iff _ _).1 hbk
      have hnode : ¬ DescendantsOfType.inRange E start_point end_point t.node :=
        fun h => TSPoint.not_before_of_notAfter hep h.2
      have hch' : t.children.preorder.filter (fun n =>
          symbols.contains (E.ts_node_symbol n) &&
            decide (DescendantsOfType.inRange E start_point end_point n)) = [] := by
        rw [List.filter_eq_nil_iff]
        intro m hm
        have hm' := TSPoint.notAfter_trans hep (hb m hm).1
        have : ¬ DescendantsOfType.inRange E start_point end_point m :=
          fun h => TSPoint.not_before_of_notAfter hm' h.2
        simp [this]
      rw [if_pos hbk, hch']
      simp [hnode]
    · rw [if_neg hbk]
      have hep : (E.ts_node_start_point t.node).before end_point :=
        (TSPoint.le_eq_false_iff _ _).1 (by simpa using hbk)
      have hnode : DescendantsOfType.inRange E start_point end_point t.node := ⟨hsp, hep⟩
      rw [walkForest_eq_filter E symbols start_point end_point t.children _ _ hch]
      by_cases hsy : symbols.contains (E.ts_node_symbol t.node) = true <;>
        simp [hsy, hnode]

/-- C1 (amended), on the chain `A → B → C` with spans `A = [0,10)`, `B = [2,8)`, `C = [4,6)`:
querying type `B` with range `[3,5)` returns exactly `[B]`. -/
theorem descendantsOfType_preorder_filter_witness :
    chainTree.node.id ≠ 0 ∧ chainTree.wellFormed chainEngine ∧
    DescendantsOfType chainEngine chainLanguage chainTree (.array [.str "B"])
      { row := 0, column := 3 } { row := 0, column := 5 } =
        .nodes (some [chainNode 2]) := by
  refine ⟨by decide, by decide, ?_⟩
  obtain ⟨symbols, hsym, h, _, _⟩ := descendantsOfType_preorder_filter chainEngine chainLanguage
    chainTree ["B"] { row := 0, column := 3 } { row := 0, column := 5 } (by decide)
    (by decide)
  have hres : symbol_set_from_js { symbols := [] } (.array (List.map JsValue.str ["B"]))
      chainLanguage = some { symbols := [1] } := by decide
  have hs : symbols = { symbols := [1] } := Option.some.inj (hsym.symm.trans hres)
  subst hs
  exact h.trans (by decide)

/-! ### Chunked pull reader -/

/-- A read at the expected offset while a partial string is retained copies the beginning
of the retained string again and retains the same string. -/
theorem CallbackInput.Read_retained (r : CallbackInput) (s : String) (position : TSPoint)
    (hp : r.partial_string = some s) (hlong : r.buffer_size - 1 < (utf16 s).length) :
    (r.Read r.byte_offset position).data = some ((utf16 s).take (r.buffer_size - 1)) ∧
    (r.Read r.byte_offset position).bytes_read = 2 * (r.buffer_size - 1) ∧
    (r.Read r.byte_offset position).reader =
      { r with byte_offset := r.byte_offset + 2 * (r.buffer_size - 1) } := by
  obtain ⟨cb, size, off, part⟩ := r
  simp only at hp hlong
  subst hp
  have hlen : ((utf16 s).take (size - 1)).length = size - 1 := by
    rw [List.length_take]; omega
  simp [CallbackInput.Read, napi_get_value_string_utf16, hlen, hlong]

/-- Once a string longer than the scratch buffer is retained, every further sequential
read hands back the same first chunk. -/
theorem sequentialReads_retained (s : String) (position : TSPoint) (count : Nat) :
    ∀ r : CallbackInput, r.partial_string = some s →
      r.buffer_size - 1 < (utf16 s).length →
      sequentialReads r r.byte_offset position count =
        List.replicate count (some ((utf16 s).take (r.buffer_size - 1))) := by
  induction count with
  | zero => intro r _ _; rfl
  | succ n ih =>
    intro r hp hlong
    obtain ⟨h1, h2, h3⟩ := CallbackInput.Read_retained r s position hp hlong
    have hnext := ih { r with byte_offset := r.byte_offset + 2 * (r.buffer_size - 1) } hp hlong
    simp only [sequentialReads, List.replicate_succ, h1, h2, h3]
    exact congrArg _ hnext

/-- C2 (the code on the specification's example). Reading the host text "hello world"
through a 5-unit scratch buffer, every sequential read hands back the chunk "hell": the
first chunk is delivered again and again and the rest of the text is never delivered. -/
theorem chunked_reader_repeats_first_chunk (count : Nat) :
    sequentialReads helloReader 0 { row := 0, column := 0 } count =
      List.replicate count (some (utf16 "hell")) := by
  cases count with
  | zero => rfl
  | succ n =>
    have hfirst : (helloReader.Read 0 { row := 0, column := 0 }).data = some (utf16 "hell") ∧
        (helloReader.Read 0 { row := 0, column := 0 }).bytes_read = 8 ∧
        (helloReader.Read 0 { row := 0, column := 0 }).reader =
          { helloReader with byte_offset := 8, partial_string := some "hello world" } := by
      exact ⟨by decide, by decide, rfl⟩
    obtain ⟨h1, h2, h3⟩ := hfirst
    have hrest := sequentialReads_retained "hello world" { row := 0, column := 0 } n
      { helloReader with byte_offset := 8, partial_string := some "hello world" } rfl
      (by decide)
    simp only [sequentialReads, List.replicate_succ, h1, h2, h3]
    exact congrArg _ hrest

/-! ### Node handle codec and identity cache -/

theorem setup_transfer_buffer_one_length (transfer_buffer : List Nat) :
    6 ≤ (setup_transfer_buffer transfer_buffer 1).length := by
  unfold setup_transfer_buffer FIELD_COUNT_PER_NODE
  have h6 : (1 * 6) % 2 ^ 32 = 6 := by norm_num
  simp only [h6]
  split
  · simp
  · omega

theorem exists_six_words (b : List Nat) (h : 6 ≤ b.length) :
    ∃ w0 w1 w2 w3 w4 w5 rest, b = w0 :: w1 :: w2 :: w3 :: w4 :: w5 :: rest := by
  match b, h with
  | w0 :: w1 :: w2 :: w3 :: w4 :: w5 :: rest, _ => exact ⟨w0, w1, w2, w3, w4, w5, rest, rfl⟩

theorem pointer_words_roundtrip (id : Nat) (h : id < 2 ^ 64) :
    id % 2 ^ 32 + 2 ^ 32 * (id / 2 ^ 32 % 2 ^ 32) = id := by
  have h1 : id / 2 ^ 32 < 2 ^ 32 := by
    apply Nat.div_lt_of_lt_mul
    calc id < 2 ^ 64 := h
      _ = 2 ^ 32 * 2 ^ 32 := by norm_num
  rw [Nat.mod_eq_of_lt h1]
  exact Nat.mod_add_div id (2 ^ 32)

/-- On a cache hit `MarshalNode` returns the cached wrapper and leaves the transfer buffer
as it was. -/
theorem MarshalNode_cached (E : Engine) (tree : Tree) (h : TSNode)
    (transfer_buffer : List Nat) (entry : NodeCacheEntry)
    (hcached : tree.find h.id = some entry) :
    MarshalNode E tree h transfer_buffer = (.obj entry.node, transfer_buffer) := by
  unfold MarshalNode; rw [hcached]

/-- On a cache miss `MarshalNode` writes the record of the handle into the transfer buffer
set up for one node and returns the symbol of the handle, or null for a null identity. -/
theorem MarshalNode_uncached (E : Engine) (tree : Tree) (h : TSNode)
    (transfer_buffer : List Nat) (hfresh : tree.find h.id = none) :
    MarshalNode E tree h transfer_buffer =
      (if h.id ≠ 0 then .num (E.ts_node_symbol h) else .null,
        write_node_record (setup_transfer_buffer transfer_buffer 1) 0 h) := by
  unfold MarshalNode; rw [hfresh]
  simp only
  split <;> rfl

/-- C3 (counterexample). For a handle whose identity is in the tree's cache `MarshalNode`
returns the cached wrapper and leaves the transfer buffer as it was, so decoding the
buffer does not give the handle's identity back. -/
theorem marshal_unmarshal_cached_counterexample :
    ¬ ((UnmarshalNode (some cachedTree)
          (MarshalNode chainEngine cachedTree handle7 initialBuffer).2).1.id = handle7.id) := by
  decide

/-- C3 (amended). For every tree, every handle whose identity is not in the tree's cache
and is a 64-bit value, and every prior content of the transfer buffer, decoding the buffer
after `MarshalNode` reconstructs the handle: same identity and same context words,
attached to the tree's engine handle; no exception is raised. -/
theorem unmarshal_marshal_uncached (E : Engine) (tree : Tree) (h : TSNode)
    (transfer_buffer : List Nat)
    (hfresh : tree.find h.id = none) (hid : h.id < 2 ^ 64) :
    UnmarshalNode (some tree) (MarshalNode E tree h transfer_buffer).2 =
      ({ h with tree := tree.tree_ }, none) := by
  obtain ⟨w0, w1, w2, w3, w4, w5, rest, hb⟩ :=
    exists_six_words _ (setup_transfer_buffer_one_length transfer_buffer)
  have hbuf : (MarshalNode E tree h transfer_buffer).2 =
      h.id % 2 ^ 32 :: (h.id / 2 ^ 32 % 2 ^ 32) :: h.context0 :: h.context1 ::
        h.context2 :: h.context3 :: rest := by
    unfold MarshalNode
    rw [hfresh]
    simp only [write_node_record, MarshalPointer, hb]
    split <;> rfl
  rw [hbuf]
  simp only [UnmarshalNode, UnmarshalPointer, List.getD_cons_zero, List.getD_cons_succ,
    pointer_words_roundtrip h.id hid]

/-- C3 (amended), on a handle with identity `7` and a tree with an empty cache. -/
theorem unmarshal_marshal_uncached_witness :
    uncachedTree.find handle7.id = none ∧ handle7.id < 2 ^ 64 ∧
    UnmarshalNode (some uncachedTree)
      (MarshalNode chainEngine uncachedTree handle7 initialBuffer).2 = (handle7, none) :=
  ⟨by decide, by decide,
    unmarshal_marshal_uncached chainEngine uncachedTree handle7 initialBuffer (by decide)
      (by decide)⟩

/-- C4 (counterexample). With an empty cache `MarshalNode` returns no host wrapper object
for two handles of equal identity: it returns the symbol computed for each handle, and
the two symbols differ when the handles differ in their alias context word. -/
theorem marshalNode_uncached_counterexample :
    (MarshalNode aliasEngine uncachedTree handle7 initialBuffer).1 = .num 6 ∧
    (MarshalNode aliasEngine uncachedTree { handle7 with context3 := 5 } initialBuffer).1 =
      .num 5 ∧
    ¬ ∃ wrapper,
      (MarshalNode aliasEngine uncachedTree handle7 initialBuffer).1 = .obj wrapper ∧
      (MarshalNode aliasEngine uncachedTree { handle7 with context3 := 5 } initialBuffer).1 =
        .obj wrapper := by
  refine ⟨by decide, by decide, ?_⟩
  rintro ⟨wrapper, h1, _⟩
  have h : (MarshalNode aliasEngine uncachedTree handle7 initialBuffer).1 = .num 6 := by
    decide
  rw [h] at h1
  cases h1

/-- C4 (amended). For every tree and any two handles of equal identity: if the identity is
in the tree's cache then `MarshalNode` returns the cached wrapper object for both, whatever
the context words of the handles and the content of the transfer buffer, and it leaves the
transfer buffer untouched; if the identity is not in the cache then `MarshalNode` returns
no wrapper for either handle: it returns the symbol of the handle, or null when the
identity is null, and writes the record of the handle at the start of the transfer
buffer. -/
theorem marshalNode_same_identity (E : Engine) (tree : Tree) (h1 h2 : TSNode)
    (buffer1 buffer2 : List Nat) (heq : h1.id = h2.id) :
    (∀ entry, tree.find h1.id = some entry →
      MarshalNode E tree h1 buffer1 = (.obj entry.node, buffer1) ∧
      MarshalNode E tree h2 buffer2 = (.obj entry.node, buffer2)) ∧
    (tree.find h1.id = none →
      MarshalNode E tree h1 buffer1 =
        (if h1.id ≠ 0 then .num (E.ts_node_symbol h1) else .null,
          write_node_record (setup_transfer_buffer buffer1 1) 0 h1) ∧
      MarshalNode E tree h2 buffer2 =
        (if h2.id ≠ 0 then .num (E.ts_node_symbol h2) else .null,
          write_node_record (setup_transfer_buffer buffer2 1) 0 h2)) := by
  constructor
  · intro entry hcached
    exact ⟨MarshalNode_cached E tree h1 buffer1 entry hcached,
      MarshalNode_cached E tree h2 buffer2 entry (heq ▸ hcached)⟩
  · intro hfresh
    exact ⟨MarshalNode_uncached E tree h1 buffer1 hfresh,
      MarshalNode_uncached E tree h2 buffer2 (heq ▸ hfresh)⟩

/-- C4 (amended), on two handles of identity `7` with different context words: with the
identity cached both calls return the wrapper `100`; with an empty cache the calls return
the symbols `6` and `5`. -/
theorem marshalNode_same_identity_witness :
    cachedTree.find handle7.id = some { key := 7, node := 100 } ∧
    MarshalNode aliasEngine cachedTree handle7 initialBuffer = (.obj 100, initialBuffer) ∧
    MarshalNode aliasEngine cachedTree { handle7 with context3 := 5 } [] = (.obj 100, []) ∧
    uncachedTree.find handle7.id = none ∧
    (MarshalNode aliasEngine uncachedTree handle7 initialBuffer).1 = .num 6 ∧
    (MarshalNode aliasEngine uncachedTree { handle7 with context3 := 5 } []).1 = .num 5 :=
  ⟨by decide,
    ((marshalNode_same_identity aliasEngine cachedTree handle7
      { handle7 with context3 := 5 } initialBuffer [] rfl).1 { key := 7, node := 100 }
      (by decide)).1,
    ((marshalNode_same_identity aliasEngine cachedTree handle7
      { handle7 with context3 := 5 } initialBuffer [] rfl).1 { key := 7, node := 100 }
      (by decide)).2,
    by decide,
    (congrArg Prod.fst ((marshalNode_same_identity aliasEngine uncachedTree handle7
      { handle7 with context3 := 5 } initialBuffer [] rfl).2 (by decide)).1).trans
      (by decide),
    (congrArg Prod.fst ((marshalNode_same_identity aliasEngine uncachedTree handle7
      { handle7 with context3 := 5 } initialBuffer [] rfl).2 (by decide)).2).trans
      (by decide)⟩

/-! ### Nearest ancestor of a type -/

theorem Closest.loop_none (E : Engine) (symbols : SymbolSet) (ancestors : List TSNode)
    (hno : ∀ a ∈ ancestors, symbols.contains (E.ts_node_symbol a) = false) :
    Closest.loop E symbols ancestors = none := by
  induction ancestors with
  | nil => rfl
  | cons a rest ih =>
    have ha := hno a (List.mem_cons_self _ _)
    have hrest := ih (fun b hb => hno b (List.mem_cons_of_mem _ hb))
    simp [Closest.loop, ha, hrest]

theorem Closest.loop_first (E : Engine) (symbols : SymbolSet) (before : List TSNode)
    (p : TSNode) (after : List TSNode)
    (hids : ∀ a ∈ before ++ p :: after, a.id ≠ 0)
    (hno : ∀ a ∈ before, symbols.contains (E.ts_node_symbol a) = false)
    (hp : symbols.contains (E.ts_node_symbol p) = true) :
    Closest.loop E symbols (before ++ p :: after) = some p := by
  induction before with
  | nil =>
    have hpid : p.id ≠ 0 := hids p (by simp)
    simp [Closest.loop, hpid, hp]
  | cons a rest ih =>
    have haid : a.id ≠ 0 := hids a (by simp)
    have ha := hno a (List.mem_cons_self _ _)
    have hrest := ih (fun b hb => hids b (List.mem_cons_of_mem _ hb))
      (fun b hb => hno b (List.mem_cons_of_mem _ hb))
    simp only [List.cons_append, Closest.loop, haid, ha, if_false]
    simpa using hrest

theorem MarshalNullNode_zero (transfer_buffer : List Nat) (h : 6 ≤ transfer_buffer.length) :
    (MarshalNullNode transfer_buffer).2.take 6 = [0, 0, 0, 0, 0, 0] := by
  obtain ⟨w0, w1, w2, w3, w4, w5, rest, rfl⟩ := exists_six_words _ h
  rfl

/-- C5. For every node with a non-null identity, every parent chain of real nodes and every
list of type names, `closest` resolves the names to a symbol set and returns the nearest
strict ancestor whose symbol is in the set: the result is the marshalled first node of the
parent chain (the node itself excluded) that has such a symbol, and it is the null record
(the first six words of the transfer buffer zeroed, host value `null`) when no node of the
chain up to the root has one. -/
theorem closest_nearest_strict_ancestor (E : Engine) (language : TSLanguage) (tree : Tree)
    (node : TSNode) (ancestors : List TSNode) (names : List String)
    (transfer_buffer : List Nat)
    (hid : node.id ≠ 0) (hids : ∀ a ∈ ancestors, a.id ≠ 0)
    (hlen : 6 ≤ transfer_buffer.length) :
    ∃ symbols,
      symbol_set_from_js { symbols := [] } (.array (names.map JsValue.str)) language =
        some symbols ∧
      (∀ before p after, ancestors = before ++ p :: after →
        (∀ a ∈ before, symbols.contains (E.ts_node_symbol a) = false) →
        symbols.contains (E.ts_node_symbol p) = true →
        Closest E language tree node ancestors (.array (names.map JsValue.str))
          transfer_buffer = MarshalNode E tree p transfer_buffer) ∧
      ((∀ a ∈ ancestors, symbols.contains (E.ts_node_symbol a) = false) →
        Closest E language tree node ancestors (.array (names.map JsValue.str))
          transfer_buffer = MarshalNullNode transfer_buffer ∧
        (MarshalNullNode transfer_buffer).1 = .null ∧
        (MarshalNullNode transfer_buffer).2.take 6 = [0, 0, 0, 0, 0, 0]) := by
  obtain ⟨symbols, hsym⟩ := symbol_set_from_items_strings language names { symbols := [] }
  have hsym' : symbol_set_from_js { symbols := [] } (.array (names.map JsValue.str))
      language = some symbols := hsym
  refine ⟨symbols, hsym', ?_, ?_⟩
  · intro before p after hsplit hno hp
    subst hsplit
    unfold Closest
    rw [if_neg hid, hsym']
    simp only
    rw [Closest.loop_first E symbols before p after hids hno hp]
  · intro hno
    refine ⟨?_, rfl, MarshalNullNode_zero transfer_buffer hlen⟩
    unfold Closest
    rw [if_neg hid, hsym']
    simp only
    rw [Closest.loop_none E symbols ancestors hno]

/-- C5, on the chain `A → B → C`: the closest ancestor of `C` with type `A` is `A`, found
past `B`; no ancestor of `C` has type `C`, which yields the null record. -/
theorem closest_nearest_strict_ancestor_witness :
    (chainNode 3).id ≠ 0 ∧ (∀ a ∈ [chainNode 2, chainNode 1], a.id ≠ 0) ∧
    6 ≤ initialBuffer.length ∧
    Closest chainEngine chainLanguage uncachedTree (chainNode 3) [chainNode 2, chainNode 1]
      (.array [.str "A"]) initialBuffer = (.num 0, [1, 0, 0, 0, 0, 0]) := by
  refine ⟨by decide, by decide, by decide, ?_⟩
  obtain ⟨symbols, hsym, hfound, _⟩ := closest_nearest_strict_ancestor chainEngine
    chainLanguage uncachedTree (chainNode 3) [chainNode 2, chainNode 1] ["A"] initialBuffer
    (by decide) (by decide) (by decide)
  have hres : symbol_set_from_js { symbols := [] } (.array (List.map JsValue.str ["A"]))
      chainLanguage = some { symbols := [0] } := by decide
  have hs : symbols = { symbols := [0] } := Option.some.inj (hsym.symm.trans hres)
  subst hs
  exact (hfound [chainNode 2] (chainNode 1) [] rfl (by decide) (by decide)).trans
    (by decide)

/-! ### Query construction and predicate compilation -/

/-- C6 (the code at the failing input). When the engine rejects the query text with an
error at offset 0, the constructor throws nothing: it stores the `NULL` query and goes on
to `GetPredicates`. -/
theorem query_rejected_at_offset_zero_not_reported :
    Query.new anyRegExp rejectAtOffsetZero (some chainLanguage) (some ")") = .nullQuery ∧
    (Query.new anyRegExp rejectAtOffsetZero (some chainLanguage) (some ")")).failed = false :=
  ⟨rfl, rfl⟩

theorem ThrowAsJavaScriptException_isSome (pending : Option String) (message : String) :
    (ThrowAsJavaScriptException pending message).isSome = true := by
  cases pending <;> rfl

theorem BuildPredicates.eqBranch_pending (st st' : BuildState) (opCode : String)
    (stepsLength argType1 argType2 : Nat) (argVal1 argVal2 : JsValue)
    (h : BuildPredicates.eqBranch st opCode stepsLength argType1 argType2 argVal1 argVal2 =
      .ok st')
    (hp : st.pending.isSome = true) : st'.pending.isSome = true := by
  unfold BuildPredicates.eqBranch at h
  by_cases h3 : stepsLength ≠ 3
  · rw [if_pos h3] at h; simp only [reduceCtorEq] at h
  · rw [if_neg h3, Except.ok.injEq] at h
    subst h
    by_cases hc : argType1 ≠ TSQueryPredicateStepTypeCapture
    · simp only [if_pos hc, ThrowAsJavaScriptException_isSome]
    · simp only [if_neg hc, hp]

theorem BuildPredicates.matchBranch_pending (RegExp : JsValue → Option JsValue)
    (st st' : BuildState) (stepsLength argType1 argType2 : Nat) (argVal1 argVal2 : JsValue)
    (h : BuildPredicates.matchBranch RegExp st stepsLength argType1 argType2 argVal1 argVal2 =
      .ok st')
    (hp : st.pending.isSome = true) : st'.pending.isSome = true := by
  unfold BuildPredicates.matchBranch at h
  by_cases h3 : stepsLength ≠ 3
  · rw [if_pos h3] at h; simp only [reduceCtorEq] at h
  · rw [if_neg h3] at h
    by_cases h1 : argType1 ≠ TSQueryPredicateStepTypeCapture
    · rw [if_pos h1] at h; simp only [reduceCtorEq] at h
    · rw [if_neg h1] at h
      by_cases h2 : argType2 ≠ TSQueryPredicateStepTypeString
      · rw [if_pos h2] at h; simp only [reduceCtorEq] at h
      · rw [if_neg h2] at h
        cases hr : RegExp argVal2 with
        | some pattern =>
          rw [hr] at h
          simp only [Except.ok.injEq] at h
          subst h
          exact hp
        | none =>
          rw [hr] at h
          simp only [Except.ok.injEq] at h
          subst h
          exact ThrowAsJavaScriptException_isSome _ _

theorem BuildPredicates.setBranch_pending (i : Nat) (st st' : BuildState)
    (steps : List JsValue) (stepsLength argType2 : Nat) (argVal1 argVal2 : JsValue)
    (h : BuildPredicates.setBranch i st steps stepsLength argType2 argVal1 argVal2 = .ok st')
    (hp : st.pending.isSome = true) : st'.pending.isSome = true := by
  unfold BuildPredicates.setBranch at h
  by_cases h3 : stepsLength ≠ 2 ∧ stepsLength ≠ 3
  · rw [if_pos h3] at h; simp only [reduceCtorEq] at h
  · rw [if_neg h3] at h
    by_cases hc : operandCheckPasses steps stepsLength = false
    · rw [if_pos hc] at h; simp only [reduceCtorEq] at h
    · rw [if_neg hc, Except.ok.injEq] at h
      subst h
      exact hp

theorem BuildPredicates.isBranch_pending (i : Nat) (st st' : BuildState) (opCode : String)
    (steps : List JsValue) (stepsLength argType2 : Nat) (argVal1 argVal2 : JsValue)
    (h : BuildPredicates.isBranch i st opCode steps stepsLength argType2 argVal1 argVal2 =
      .ok st')
    (hp : st.pending.isSome = true) : st'.pending.isSome = true := by
  unfold BuildPredicates.isBranch at h
  by_cases h3 : stepsLength ≠ 2 ∧ stepsLength ≠ 3
  · rw [if_pos h3] at h; simp only [reduceCtorEq] at h
  · rw [if_neg h3] at h
    by_cases hc : operandCheckPasses steps stepsLength = false
    · rw [if_pos hc] at h; simp only [reduceCtorEq] at h
    · rw [if_neg hc] at h
      by_cases ho : opCode = "is?"
      · rw [if_pos ho, Except.ok.injEq] at h
        subst h
        exact hp
      · rw [if_neg ho, Except.ok.injEq] at h
        subst h
        exact hp

/-- An exception pending before a predicate is compiled is still pending afterwards. -/
theorem BuildPredicates.predicate_pending (RegExp : JsValue → Option JsValue) (i : Nat)
    (st st' : BuildState) (steps : List JsValue)
    (h : BuildPredicates.predicate RegExp i st steps = .ok st')
    (hp : st.pending.isSome = true) : st'.pending.isSome = true := by
  unfold BuildPredicates.predicate at h
  by_cases h0 : (jsGet steps 0).toUint32 ≠ TSQueryPredicateStepTypeString
  · rw [if_pos h0] at h; simp only [reduceCtorEq] at h
  · rw [if_neg h0] at h
    by_cases h1 : (jsGet steps 1).toStr = "not-eq?" ∨ (jsGet steps 1).toStr = "eq?"
    · rw [if_pos h1] at h
      exact BuildPredicates.eqBranch_pending _ _ _ _ _ _ _ _ h hp
    · rw [if_neg h1] at h
      by_cases h2 : (jsGet steps 1).toStr = "match?"
      · rw [if_pos h2] at h
        exact BuildPredicates.matchBranch_pending _ _ _ _ _ _ _ _ h hp
      · rw [if_neg h2] at h
        by_cases h3 : (jsGet steps 1).toStr = "set!"
        · rw [if_pos h3] at h
          exact BuildPredicates.setBranch_pending _ _ _ _ _ _ _ _ h hp
        · rw [if_neg h3] at h
          by_cases h4 : (jsGet steps 1).toStr = "is?" ∨ (jsGet steps 1).toStr = "is-not?"
          · rw [if_pos h4] at h
            exact BuildPredicates.isBranch_pending _ _ _ _ _ _ _ _ _ h hp
          · rw [if_neg h4] at h; simp only [reduceCtorEq] at h

theorem BuildPredicates.description_pending (RegExp : JsValue → Option JsValue) (i : Nat)
    (description : List (List JsValue)) :
    ∀ st : BuildState, st.pending.isSome = true →
      buildFailed (BuildPredicates.description RegExp i st description) = true := by
  induction description with
  | nil => intro st hp; exact hp
  | cons steps rest ih =>
    intro st hp
    unfold BuildPredicates.description
    cases h : BuildPredicates.predicate RegExp i st steps with
    | error e => rfl
    | ok st' => exact ih st' (BuildPredicates.predicate_pending RegExp i st st' steps h hp)

theorem BuildPredicates.description_ok_pending (RegExp : JsValue → Option JsValue) (i : Nat)
    (description : List (List JsValue)) (st st' : BuildState)
    (h : BuildPredicates.description RegExp i st description = .ok st')
    (hp : st.pending.isSome = true) : st'.pending.isSome = true := by
  have hf := BuildPredicates.description_pending RegExp i description st hp
  rw [h] at hf
  exact hf

theorem BuildPredicates.descriptions_pending (RegExp : JsValue → Option JsValue)
    (descriptions : List (List (List JsValue))) :
    ∀ (i : Nat) (st : BuildState), st.pending.isSome = true →
      buildFailed (BuildPredicates.descriptions RegExp i st descriptions) = true := by
  induction descriptions with
  | nil => intro i st hp; exact hp
  | cons description rest ih =>
    intro i st hp
    unfold BuildPredicates.descriptions
    cases h : BuildPredicates.description RegExp i { st with predicate := [] }
        description with
    | error e => rfl
    | ok st' =>
      exact ih (i + 1) _
        (BuildPredicates.description_ok_pending RegExp i description _ st' h hp)

/-- A predicate that makes the loop body fail in every state makes the compilation of the
pattern that holds it fail. -/
theorem BuildPredicates.description_failed_of_mem (RegExp : JsValue → Option JsValue)
    (i : Nat) (steps : List JsValue)
    (hbad : ∀ st, buildFailed (BuildPredicates.predicate RegExp i st steps) = true)
    (description : List (List JsValue)) (hmem : steps ∈ description) :
    ∀ st : BuildState,
      buildFailed (BuildPredicates.description RegExp i st description) = true := by
  induction description with
  | nil => simp at hmem
  | cons first rest ih =>
    intro st
    unfold BuildPredicates.description
    cases h : BuildPredicates.predicate RegExp i st first with
    | error e => rfl
    | ok st' =>
      rcases List.mem_cons.1 hmem with heq | hrest
      · subst heq
        have hb := hbad st
        rw [h] at hb
        exact BuildPredicates.description_pending RegExp i rest st' hb
      · exact ih hrest st'

/-- A predicate that makes the loop body fail in every state and for every pattern index
makes `BuildPredicates` fail, wherever it stands. -/
theorem BuildPredicates.descriptions_failed_of_mem (RegExp : JsValue → Option JsValue)
    (steps : List JsValue)
    (hbad : ∀ i st, buildFailed (BuildPredicates.predicate RegExp i st steps) = true)
    (description : List (List JsValue)) (hsteps : steps ∈ description)
    (descriptions : List (List (List JsValue))) (hmem : description ∈ descriptions) :
    ∀ (i : Nat) (st : BuildState),
      buildFailed (BuildPredicates.descriptions RegExp i st descriptions) = true := by
  induction descriptions with
  | nil => simp at hmem
  | cons first rest ih =>
    intro i st
    unfold BuildPredicates.descriptions
    cases h : BuildPredicates.description RegExp i { st with predicate := [] } first with
    | error e => rfl
    | ok st' =>
      rcases List.mem_cons.1 hmem with heq | hrest
      · subst heq
        have hb := BuildPredicates.description_failed_of_mem RegExp i steps (hbad i)
          description hsteps { st with predicate := [] }
        rw [h] at hb
        exact BuildPredicates.descriptions_pending RegExp rest (i + 1) _ hb
      · exact ih hrest (i + 1) _

/-- The loop body on an `eq?` / `not-eq?` predicate that does not have exactly 2 operands or
whose first operand is not a capture: it throws. -/
theorem BuildPredicates.predicate_eq_malformed (RegExp : JsValue → Option JsValue) (i : Nat)
    (st : BuildState) (steps : List JsValue) (heq : isEqPredicate steps)
    (hbad : operandCount steps ≠ 2 ∨
      (jsGet steps 2).toUint32 ≠ TSQueryPredicateStepTypeCapture) :
    buildFailed (BuildPredicates.predicate RegExp i st steps) = true := by
  obtain ⟨h0, h1⟩ := heq
  have h1' : (jsGet steps 1).toStr = "not-eq?" ∨ (jsGet steps 1).toStr = "eq?" := h1.symm
  unfold BuildPredicates.predicate
  rw [if_neg (not_not.2 h0), if_pos h1']
  unfold BuildPredicates.eqBranch
  by_cases h3 : steps.length / 2 ≠ 3
  · rw [if_pos h3]; rfl
  · rw [if_neg h3]
    have hcap : (jsGet steps 2).toUint32 ≠ TSQueryPredicateStepTypeCapture := by
      rcases hbad with hcount | hcap
      · exact absurd (by unfold operandCount; omega) hcount
      · exact hcap
    simp only [buildFailed, if_pos hcap, ThrowAsJavaScriptException_isSome]

/-- C7. For every list of patterns and every `eq?` or `not-eq?` predicate of one of them
that does not have exactly 2 operands, or whose first operand is not a capture,
`BuildPredicates` ends with an exception pending, so that the construction of the Query
fails. -/
theorem eq_predicate_malformed_fails (RegExp : JsValue → Option JsValue)
    (descriptions : List (List (List JsValue))) (description : List (List JsValue))
    (steps : List JsValue)
    (hpattern : description ∈ descriptions) (hpredicate : steps ∈ description)
    (heq : isEqPredicate steps)
    (hbad : operandCount steps ≠ 2 ∨
      (jsGet steps 2).toUint32 ≠ TSQueryPredicateStepTypeCapture) :
    buildFailed (BuildPredicates RegExp descriptions) = true :=
  BuildPredicates.descriptions_failed_of_mem RegExp steps
    (fun i st => BuildPredicates.predicate_eq_malformed RegExp i st steps heq hbad)
    description hpredicate descriptions hpattern 0 _

/-- C7, on `(#not-eq? @a)`, an `eq?`-family predicate with 1 operand, and on
`(#eq? "lit" @a)`, whose first operand is a string. -/
theorem eq_predicate_malformed_fails_witness :
    isEqPredicate [.num 2, .str "not-eq?", .num 1, .str "a"] ∧
    operandCount [.num 2, .str "not-eq?", .num 1, .str "a"] ≠ 2 ∧
    buildFailed (BuildPredicates anyRegExp (GetPredicates notEqOneOperandQuery)) = true ∧
    buildFailed (BuildPredicates anyRegExp
      [[[.num 2, .str "eq?", .num 2, .str "lit", .num 1, .str "a"]]]) = true :=
  ⟨by decide, by decide,
    eq_predicate_malformed_fails anyRegExp (GetPredicates notEqOneOperandQuery)
      [[.num 2, .str "not-eq?", .num 1, .str "a"]] [.num 2, .str "not-eq?", .num 1, .str "a"]
      (by decide) (by decide) (by decide) (Or.inl (by decide)),
    by decide⟩

/-- C8. For every `eq?` / `not-eq?` predicate with exactly 2 operands whose first operand is
a capture, the loop body of `BuildPredicates` throws nothing and appends exactly one
descriptor to the descriptor list of the pattern: `true` (the equality tag), the two
operand values, the flag "second operand is a capture" and the flag "operator is
`not-eq?`"; nothing else of the state changes. -/
theorem eq_predicate_appends_descriptor (RegExp : JsValue → Option JsValue) (i : Nat)
    (st : BuildState) (steps : List JsValue) (heq : isEqPredicate steps)
    (harity : operandCount steps = 2)
    (hcapture : (jsGet steps 2).toUint32 = TSQueryPredicateStepTypeCapture) :
    BuildPredicates.predicate RegExp i st steps =
      .ok { st with
            predicate := st.predicate ++
              [[.bool true, jsGet steps 3, jsGet steps 5,
                .bool ((jsGet steps 4).toUint32 == TSQueryPredicateStepTypeCapture),
                .bool ((jsGet steps 1).toStr == "not-eq?")]] } := by
  obtain ⟨h0, h1⟩ := heq
  have h1' : (jsGet steps 1).toStr = "not-eq?" ∨ (jsGet steps 1).toStr = "eq?" := h1.symm
  have h3 : ¬ steps.length / 2 ≠ 3 := by unfold operandCount at harity; omega
  unfold BuildPredicates.predicate
  rw [if_neg (not_not.2 h0), if_pos h1']
  unfold BuildPredicates.eqBranch
  rw [if_neg h3, if_neg (not_not.2 hcapture)]

/-- C8, on `#eq? @a "lit"`: one descriptor `(a, "lit")`, second operand not a capture, not
negated; and the same through the constructor of the Query. -/
theorem eq_predicate_appends_descriptor_witness :
    isEqPredicate [.num 2, .str "eq?", .num 1, .str "a", .num 2, .str "lit"] ∧
    BuildPredicates.predicate anyRegExp 0
      { pending := none, setProperties := [none], assertedProperties := [none],
        refutedProperties := [none], predicates := [none], predicate := [] }
      [.num 2, .str "eq?", .num 1, .str "a", .num 2, .str "lit"] =
      .ok { pending := none, setProperties := [none], assertedProperties := [none],
            refutedProperties := [none], predicates := [none],
            predicate := [[.bool true, .str "a", .str "lit", .bool false, .bool false]] } ∧
    BuildPredicates anyRegExp (GetPredicates eqLitQuery) =
      .ok { pending := none, setProperties := [none], assertedProperties := [none],
            refutedProperties := [none],
            predicates :=
              [some [[.bool true, .str "a", .str "lit", .bool false, .bool false]]],
            predicate := [[.bool true, .str "a", .str "lit", .bool false, .bool false]] } :=
  ⟨by decide,
    eq_predicate_appends_descriptor anyRegExp 0
      { pending := none, setProperties := [none], assertedProperties := [none],
        refutedProperties := [none], predicates := [none], predicate := [] }
      [.num 2, .str "eq?", .num 1, .str "a", .num 2, .str "lit"] (by decide) (by decide)
      (by decide),
    rfl⟩

/-- C9 (the code at the failing input). The predicate `(#set! @a)`, whose only operand is a
capture, is compiled without any exception: the capture name is stored as a key of the
set-properties map of the pattern. -/
theorem set_predicate_capture_operand_accepted :
    BuildPredicates anyRegExp (GetPredicates setCaptureQuery) =
      .ok { pending := none,
            setProperties := [some { properties := [(.str "a", .null)] }],
            assertedProperties := [none], refutedProperties := [none],
            predicates := [some []], predicate := [] } ∧
    buildFailed (BuildPredicates anyRegExp (GetPredicates setCaptureQuery)) = false :=
  ⟨rfl, rfl⟩

/-- C10 (the code at the failing input). For `(#not-eq? @a)` the construction fails with a
message that does not contain the operator name `not-eq?`: the message names `#eq?` and
has lost its first character. -/
theorem not_eq_arity_message_lacks_operator :
    BuildPredicates anyRegExp (GetPredicates notEqOneOperandQuery) =
      .error "rong number of arguments to `#eq?` predicate. Expected 2, got " ∧
    ¬ ("not-eq?".toList <:+:
        "rong number of arguments to `#eq?` predicate. Expected 2, got ".toList) :=
  ⟨rfl, by decide⟩

/-! ### Index conversion -/

/-- C14 (counterexample). The odd index 1 does not survive the round trip through host
units: `1 / 2 * 2 = 0`. -/
theorem index_roundtrip_odd_counterexample :
    1 < 2 ^ 32 ∧ toEngineUnits (toHostUnits 1) ≠ 1 := by
  decide

/-- C14 (amended). For every 32-bit index `n`, converting to host units and back to engine
units yields `n` when `n` is even and `n - 1` when `n` is odd: the halving loses the low
bit. -/
theorem index_roundtrip_parity (n : Nat) (hn : n < 2 ^ 32) :
    (n % 2 = 0 → toEngineUnits (toHostUnits n) = n) ∧
    (n % 2 = 1 → toEngineUnits (toHostUnits n) = n - 1) := by
  unfold toEngineUnits toHostUnits
  constructor <;> intro h <;> omega

/-- C14 (amended), on the even index 10 and on the odd index 11. -/
theorem index_roundtrip_parity_witness :
    10 < 2 ^ 32 ∧ toEngineUnits (toHostUnits 10) = 10 ∧
    11 < 2 ^ 32 ∧ toEngineUnits (toHostUnits 11) = 10 :=
  ⟨by decide, (index_roundtrip_parity 10 (by decide)).1 (by decide),
    by decide, (index_roundtrip_parity 11 (by decide)).2 (by decide)⟩

/-! ### Entries of the batch encoding -/

theorem MarshalNodes.loop_entries (E : Engine) (tree : Tree) (nodes : List TSNode) :
    ∀ (transfer_buffer : List Nat) (p : Nat),
      (MarshalNodes.loop E tree nodes transfer_buffer p).1 =
        nodes.map (marshalledEntry E tree) := by
  induction nodes with
  | nil => intro b p; rfl
  | cons node rest ih =>
    intro b p
    unfold MarshalNodes.loop
    cases hfind : tree.find node.id with
    | none => simp [ih, marshalledEntry, hfind]
    | some cache_entry => simp [ih, marshalledEntry, hfind]

/-- For fewer than `2 ^ 32` handles the array returned by `MarshalNodes` holds the entry of
every handle, in order. -/
theorem MarshalNodes_entries (E : Engine) (tree : Tree) (nodes : List TSNode)
    (transfer_buffer : List Nat) (hlen : nodes.length < 2 ^ 32) :
    (MarshalNodes E tree nodes transfer_buffer).1 = nodes.map (marshalledEntry E tree) := by
  unfold MarshalNodes
  simp only
  rw [Nat.mod_eq_of_lt hlen, List.take_length, MarshalNodes.loop_entries]

/-! ### Query execution -/

theorem Query.captureLoop_eq (ts_query : TSQuery) (captures : List TSQueryCapture) :
    ∀ (js_matches : List JsValue) (nodes : List TSNode),
      Query.captureLoop ts_query captures js_matches nodes =
        (js_matches ++
            captures.map (fun c => JsValue.str (ts_query_capture_name_for_id ts_query c.index)),
          nodes ++ captures.map (fun c => c.node)) := by
  induction captures with
  | nil => intro js nodes; simp [Query.captureLoop]
  | cons c rest ih =>
    intro js nodes
    simp [Query.captureLoop, ih, List.append_assoc]

theorem Query.Matches.loop_stream (ts_query : TSQuery) (stream : List TSQueryMatch) :
    ∀ (js_matches : List JsValue) (nodes : List TSNode),
      Query.Matches.loop ts_query stream js_matches nodes =
        (js_matches ++ stream.flatMap (fun m => m.descriptor ts_query),
          nodes ++ stream.flatMap (fun m => m.nodes)) := by
  induction stream with
  | nil => intro js nodes; simp [Query.Matches.loop]
  | cons m rest ih =>
    intro js nodes
    simp [Query.Matches.loop, ih, Query.captureLoop_eq, TSQueryMatch.descriptor,
      TSQueryMatch.names, TSQueryMatch.nodes, List.append_assoc]

theorem Query.Captures.loop_yielded (ts_query : TSQuery) (stream : List (TSQueryMatch × Nat)) :
    ∀ (js_matches : List JsValue) (nodes : List TSNode),
      Query.Captures.loop ts_query stream js_matches nodes =
        (js_matches ++ stream.flatMap (fun mc => mc.1.captureDescriptor ts_query mc.2),
          nodes ++ stream.flatMap (fun mc => mc.1.nodes)) := by
  induction stream with
  | nil => intro js nodes; simp [Query.Captures.loop]
  | cons mc rest ih =>
    intro js nodes
    obtain ⟨m, ci⟩ := mc
    simp [Query.Captures.loop, ih, Query.captureLoop_eq, TSQueryMatch.captureDescriptor,
      TSQueryMatch.names, TSQueryMatch.nodes, List.append_assoc]

theorem names_filterMap_asString (ts_query : TSQuery) (captures : List TSQueryCapture) :
    (captures.map (fun c =>
      JsValue.str (ts_query_capture_name_for_id ts_query c.index))).filterMap
        JsValue.asString? =
      captures.map (fun c => ts_query_capture_name_for_id ts_query c.index) := by
  induction captures with
  | nil => rfl
  | cons c rest ih => simp [JsValue.asString?, ih]

theorem descriptors_filterMap_asString (ts_query : TSQuery) (stream : List TSQueryMatch) :
    (stream.flatMap (fun m => m.descriptor ts_query)).filterMap JsValue.asString? =
      (stream.flatMap (fun m => m.captures)).map
        (fun c => ts_query_capture_name_for_id ts_query c.index) := by
  induction stream with
  | nil => rfl
  | cons m rest ih =>
    simp only [List.flatMap_cons, List.filterMap_append, List.map_append]
    rw [ih]
    simp only [TSQueryMatch.descriptor, TSQueryMatch.names, List.filterMap_cons,
      JsValue.asString?, names_filterMap_asString]

/-- C12. For every match stream `m_1 .. m_k` the engine yields, `matches` returns the
array that is the concatenation, over the matches in order, of the pattern index of the
match followed by the names of its captures, and the array that `MarshalNodes` makes of
the concatenation of the capture nodes of the matches; the names of the descriptor, in
order, and the nodes, in order, are the names and the nodes of the same sequence of
captures, so the j-th name belongs to the j-th node. -/
theorem matches_returns_flat_descriptor (E : Engine)
    (match_stream : TSNode → TSPoint → TSPoint → List TSQueryMatch) (ts_query : TSQuery)
    (tree : Tree) (start_row start_column end_row end_column : Nat)
    (transfer_buffer : List Nat) :
    Query.Matches E match_stream ts_query (some tree) start_row start_column end_row
        end_column transfer_buffer =
      .ok { js_matches :=
              (match_stream (UnmarshalNode (some tree) transfer_buffer).1
                (queryPoint start_row start_column) (queryPoint end_row end_column)).flatMap
                (fun m => m.descriptor ts_query),
            js_nodes :=
              (MarshalNodes E tree
                ((match_stream (UnmarshalNode (some tree) transfer_buffer).1
                  (queryPoint start_row start_column)
                  (queryPoint end_row end_column)).flatMap (fun m => m.nodes))
                transfer_buffer).1,
            transfer_buffer :=
              (MarshalNodes E tree
                ((match_stream (UnmarshalNode (some tree) transfer_buffer).1
                  (queryPoint start_row start_column)
                  (queryPoint end_row end_column)).flatMap (fun m => m.nodes))
                transfer_buffer).2 } ∧
    ∀ stream : List TSQueryMatch,
      (stream.flatMap (fun m => m.descriptor ts_query)).filterMap JsValue.asString? =
        (stream.flatMap (fun m => m.captures)).map
          (fun c => ts_query_capture_name_for_id ts_query c.index) ∧
      stream.flatMap (fun m => m.nodes) =
        (stream.flatMap (fun m => m.captures)).map (fun c => c.node) := by
  refine ⟨?_, fun stream => ⟨descriptors_filterMap_asString ts_query stream, ?_⟩⟩
  · simp [Query.Matches, Query.Matches.loop_stream]
  · simp [TSQueryMatch.nodes, List.map_flatMap]

/-- C13. For every capture stream the engine yields, `captures` returns, for each yielded
pair of match and capture index in order, the pattern index of the match, the yielded
capture index and the names of the captures of the match, and the array that
`MarshalNodes` makes of the capture nodes of the yielded matches in the same order.  The
node sequence is the one the `matches` loop collects for the same yielded matches, and
each group of the descriptor is the `matches` group of that match with the capture index
inserted after the pattern index. -/
theorem captures_returns_descriptor_with_index (E : Engine)
    (capture_stream : TSNode → TSPoint → TSPoint → List (TSQueryMatch × Nat))
    (ts_query : TSQuery) (tree : Tree) (start_row start_column end_row end_column : Nat)
    (transfer_buffer : List Nat) :
    Query.Captures E capture_stream ts_query (some tree) start_row start_column end_row
        end_column transfer_buffer =
      .ok { js_matches :=
              (capture_stream (UnmarshalNode (some tree) transfer_buffer).1
                (queryPoint start_row start_column) (queryPoint end_row end_column)).flatMap
                (fun mc => mc.1.captureDescriptor ts_query mc.2),
            js_nodes :=
              (MarshalNodes E tree
                ((capture_stream (UnmarshalNode (some tree) transfer_buffer).1
                  (queryPoint start_row start_column)
                  (queryPoint end_row end_column)).flatMap (fun mc => mc.1.nodes))
                transfer_buffer).1,
            transfer_buffer :=
              (MarshalNodes E tree
                ((capture_stream (UnmarshalNode (some tree) transfer_buffer).1
                  (queryPoint start_row start_column)
                  (queryPoint end_row end_column)).flatMap (fun mc => mc.1.nodes))
                transfer_buffer).2 } ∧
    (∀ stream : List (TSQueryMatch × Nat),
      (Query.Captures.loop ts_query stream [] []).2 =
        (Query.Matches.loop ts_query (stream.map Prod.fst) [] []).2 ∧
      (Query.Matches.loop ts_query (stream.map Prod.fst) [] []).1 =
        stream.flatMap (fun mc => mc.1.descriptor ts_query) ∧
      (Query.Captures.loop ts_query stream [] []).1 =
        stream.flatMap (fun mc => mc.1.captureDescriptor ts_query mc.2)) ∧
    ∀ (m : TSQueryMatch) (capture_index : Nat),
      m.captureDescriptor ts_query capture_index =
        (m.descriptor ts_query).take 1 ++ [JsValue.num capture_index] ++
          (m.descriptor ts_query).drop 1 := by
  refine ⟨?_, fun stream => ⟨?_, ?_, ?_⟩, fun m ci => ?_⟩
  · simp [Query.Captures, Query.Captures.loop_yielded]
  · simp [Query.Captures.loop_yielded, Query.Matches.loop_stream, List.flatMap_map]
  · simp [Query.Matches.loop_stream, List.flatMap_map]
  · simp [Query.Captures.loop_yielded]
  · simp [TSQueryMatch.captureDescriptor, TSQueryMatch.descriptor]

theorem decodeMatches_names (ts_query : TSQuery) (p : Nat) (captures : List TSQueryCapture) :
    ∀ (restJs : List JsValue) (restNodes : List TSNode),
      decodeMatches p
          (captures.map (fun c =>
            JsValue.str (ts_query_capture_name_for_id ts_query c.index)) ++ restJs)
          (captures.map (fun c => c.node) ++ restNodes) =
        captures.map (fun c => (p, ts_query_capture_name_for_id ts_query c.index, c.node)) ++
          decodeMatches p restJs restNodes := by
  induction captures with
  | nil => intro restJs restNodes; rfl
  | cons c rest ih =>
    intro restJs restNodes
    have h := ih restJs restNodes
    simp only [List.map_cons, List.cons_append]
    conv_lhs => unfold decodeMatches
    rw [h]

theorem decodeMatches_stream (ts_query : TSQuery) (stream : List TSQueryMatch) :
    ∀ p : Nat,
      decodeMatches p (stream.flatMap (fun m => m.descriptor ts_query))
          (stream.flatMap (fun m => m.nodes)) =
        stream.flatMap (fun m => m.triples ts_query) := by
  induction stream with
  | nil => intro p; rfl
  | cons m rest ih =>
    intro p
    have h := decodeMatches_names ts_query m.pattern_index m.captures
      (rest.flatMap (fun m => m.descriptor ts_query)) (rest.flatMap (fun m => m.nodes))
    rw [ih m.pattern_index] at h
    simp only [List.flatMap_cons, TSQueryMatch.descriptor, TSQueryMatch.names,
      TSQueryMatch.nodes, TSQueryMatch.triples, List.cons_append] at h ⊢
    conv_lhs => unfold decodeMatches
    exact h

theorem decodeCaptures_all_names (ts_query : TSQuery) (p ci : Nat)
    (captures : List TSQueryCapture) :
    ∀ (j : Nat) (restJs : List JsValue) (restNodes : List TSNode),
      decodeCaptures false p ci j
          (captures.map (fun c =>
            JsValue.str (ts_query_capture_name_for_id ts_query c.index)) ++ restJs)
          (captures.map (fun c => c.node) ++ restNodes) =
        captures.map (fun c => (p, ts_query_capture_name_for_id ts_query c.index, c.node)) ++
          decodeCaptures false p ci (j + captures.length) restJs restNodes := by
  induction captures with
  | nil => intro j restJs restNodes; rfl
  | cons c rest ih =>
    intro j restJs restNodes
    have h := ih (j + 1) restJs restNodes
    rw [show j + 1 + rest.length = j + (rest.length + 1) by omega] at h
    simp only [List.map_cons, List.cons_append, List.length_cons]
    conv_lhs => unfold decodeCaptures
    rw [h]
    simp

theorem decodeCaptures_yielded_names (ts_query : TSQuery) (p ci : Nat)
    (captures : List TSQueryCapture) :
    ∀ (j : Nat) (restJs : List JsValue) (restNodes : List TSNode),
      decodeCaptures true p ci j
          (captures.map (fun c =>
            JsValue.str (ts_query_capture_name_for_id ts_query c.index)) ++ restJs)
          (captures.map (fun c => c.node) ++ restNodes) =
        yieldedTriples ts_query p ci j captures ++
          decodeCaptures true p ci (j + captures.length) restJs restNodes := by
  induction captures with
  | nil => intro j restJs restNodes; rfl
  | cons c rest ih =>
    intro j restJs restNodes
    have h := ih (j + 1) restJs restNodes
    rw [show j + 1 + rest.length = j + (rest.length + 1) by omega] at h
    simp only [List.map_cons, List.cons_append, List.length_cons, yieldedTriples]
    conv_lhs => unfold decodeCaptures
    rw [h]
    by_cases hj : j = ci
    · simp [hj]
    · simp [hj]

theorem decodeCaptures_all_stream (ts_query : TSQuery) (stream : List (TSQueryMatch × Nat)) :
    ∀ p ci j : Nat,
      decodeCaptures false p ci j
          (stream.flatMap (fun mc => mc.1.captureDescriptor ts_query mc.2))
          (stream.flatMap (fun mc => mc.1.nodes)) =
        stream.flatMap (fun mc => mc.1.triples ts_query) := by
  induction stream with
  | nil => intro p ci j; rfl
  | cons mc rest ih =>
    intro p ci j
    obtain ⟨m, i⟩ := mc
    have h := decodeCaptures_all_names ts_query m.pattern_index i m.captures 0
      (rest.flatMap (fun mc => mc.1.captureDescriptor ts_query mc.2))
      (rest.flatMap (fun mc => mc.1.nodes))
    rw [ih] at h
    simp only [List.flatMap_cons, TSQueryMatch.captureDescriptor, TSQueryMatch.names,
      TSQueryMatch.nodes, TSQueryMatch.triples, List.cons_append] at h ⊢
    conv_lhs => unfold decodeCaptures
    exact h

theorem decodeCaptures_yielded_stream (ts_query : TSQuery)
    (stream : List (TSQueryMatch × Nat)) :
    ∀ p ci j : Nat,
      decodeCaptures true p ci j
          (stream.flatMap (fun mc => mc.1.captureDescriptor ts_query mc.2))
          (stream.flatMap (fun mc => mc.1.nodes)) =
        stream.flatMap (fun mc =>
          yieldedTriples ts_query mc.1.pattern_index mc.2 0 mc.1.captures) := by
  induction stream with
  | nil => intro p ci j; rfl
  | cons mc rest ih =>
    intro p ci j
    obtain ⟨m, i⟩ := mc
    have h := decodeCaptures_yielded_names ts_query m.pattern_index i m.captures 0
      (rest.flatMap (fun mc => mc.1.captureDescriptor ts_query mc.2))
      (rest.flatMap (fun mc => mc.1.nodes))
    rw [ih] at h
    simp only [List.flatMap_cons, TSQueryMatch.captureDescriptor, TSQueryMatch.names,
      TSQueryMatch.nodes, List.cons_append] at h ⊢
    conv_lhs => unfold decodeCaptures
    exact h

theorem mem_yieldedTriples (ts_query : TSQuery) (p ci : Nat) (t : Nat × String × TSNode)
    (captures : List TSQueryCapture) :
    ∀ j : Nat, t ∈ yieldedTriples ts_query p ci j captures ↔
      ∃ k c, captures.get? k = some c ∧ j + k = ci ∧
        t = (p, ts_query_capture_name_for_id ts_query c.index, c.node) := by
  induction captures with
  | nil => intro j; simp [yieldedTriples]
  | cons c rest ih =>
    intro j
    simp only [yieldedTriples, List.mem_append, ih]
    constructor
    · rintro (h | ⟨k, c', hk, hj, ht⟩)
      · by_cases hj : j = ci
        · rw [if_pos hj] at h
          exact ⟨0, c, rfl, by omega, by simpa using h⟩
        · rw [if_neg hj] at h; simp at h
      · exact ⟨k + 1, c', by simpa using hk, by omega, ht⟩
    · rintro ⟨k, c', hk, hj, ht⟩
      cases k with
      | zero =>
        left
        simp only [List.get?_cons_zero, Option.some.injEq] at hk
        subst hk
        rw [if_pos (by omega)]
        simp [ht]
      | succ k =>
        right
        exact ⟨k, c', by simpa using hk, by omega, ht⟩

/-- The two loops under the engine contract: a triple is decoded from the descriptor and
the node vector of the `matches` loop exactly when it is decoded from those of the
`captures` loop. -/
theorem Query.loops_same_triples (ts_query : TSQuery)
    (match_list : List TSQueryMatch) (capture_list : List (TSQueryMatch × Nat))
    (hcontract : captureStreamCovers match_list capture_list)
    (t : Nat × String × TSNode) :
    (t ∈ decodeMatches 0 (Query.Matches.loop ts_query match_list [] []).1
          (Query.Matches.loop ts_query match_list [] []).2 ↔
      t ∈ decodeCaptures false 0 0 0 (Query.Captures.loop ts_query capture_list [] []).1
          (Query.Captures.loop ts_query capture_list [] []).2) ∧
    (t ∈ decodeMatches 0 (Query.Matches.loop ts_query match_list [] []).1
          (Query.Matches.loop ts_query match_list [] []).2 ↔
      t ∈ decodeCaptures true 0 0 0 (Query.Captures.loop ts_query capture_list [] []).1
          (Query.Captures.loop ts_query capture_list [] []).2) := by
  have hmem : ∀ m c, (m, c) ∈ capture_list ↔ m ∈ match_list ∧ c < m.captures.length := by
    intro m c
    rw [List.Perm.mem_iff hcontract]
    simp only [List.mem_flatMap, List.mem_map, List.mem_range, Prod.mk.injEq]
    constructor
    · rintro ⟨m', hm', c', hc', rfl, rfl⟩
      exact ⟨hm', hc'⟩
    · rintro ⟨hm, hc⟩
      exact ⟨m, hm, c, hc, rfl, rfl⟩
  simp only [Query.Matches.loop_stream, Query.Captures.loop_yielded, List.nil_append,
    decodeMatches_stream, decodeCaptures_all_stream, decodeCaptures_yielded_stream,
    List.mem_flatMap, TSQueryMatch.triples, List.mem_map, mem_yieldedTriples, Prod.exists]
  constructor
  · constructor
    · rintro ⟨m, hm, c, hc, rfl⟩
      have hlen : 0 < m.captures.length := List.length_pos_of_mem hc
      exact ⟨m, 0, (hmem m 0).2 ⟨hm, hlen⟩, c, hc, rfl⟩
    · rintro ⟨m, ci, hmc, c, hc, rfl⟩
      exact ⟨m, ((hmem m ci).1 hmc).1, c, hc, rfl⟩
  · constructor
    · rintro ⟨m, hm, c, hc, rfl⟩
      obtain ⟨k, hk, hget⟩ := List.getElem_of_mem hc
      refine ⟨m, k, (hmem m k).2 ⟨hm, hk⟩, k, c, ?_, by omega, rfl⟩
      rw [List.get?_eq_getElem?, List.getElem?_eq_getElem hk, hget]
    · rintro ⟨m, ci, hmc, k, c, hk, _, rfl⟩
      refine ⟨m, ((hmem m ci).1 hmc).1, c, ?_, rfl⟩
      exact List.get?_mem hk

/-- C11. For every query, tree, root node (read from the transfer buffer) and point range,
under the engine contract (the capture stream yields exactly one pair of match and capture
index for each capture of each match of the match stream): `matches` and `captures` both
return a result; the node arrays of the two results are the encodings, by `MarshalNodes`,
of the capture nodes of the match stream and of the capture stream, entry by entry when
there are fewer than `2 ^ 32` of them; and the set of (pattern index, capture name, node)
triples obtained by zipping the descriptor that `matches` returns with its nodes equals
the set obtained by zipping the descriptor that `captures` returns with its nodes, whether
the decoder of `captures` zips every name of a group with its node or keeps only the
capture at the yielded index of each group. -/
theorem matches_captures_same_triples (E : Engine)
    (match_stream : TSNode → TSPoint → TSPoint → List TSQueryMatch)
    (capture_stream : TSNode → TSPoint → TSPoint → List (TSQueryMatch × Nat))
    (ts_query : TSQuery) (tree : Tree) (start_row start_column end_row end_column : Nat)
    (transfer_buffer : List Nat)
    (hcontract : captureStreamCovers
      (match_stream (UnmarshalNode (some tree) transfer_buffer).1
        (queryPoint start_row start_column) (queryPoint end_row end_column))
      (capture_stream (UnmarshalNode (some tree) transfer_buffer).1
        (queryPoint start_row start_column) (queryPoint end_row end_column))) :
    ∃ fromMatches fromCaptures : QueryResult,
      Query.Matches E match_stream ts_query (some tree) start_row start_column end_row
          end_column transfer_buffer = .ok fromMatches ∧
      Query.Captures E capture_stream ts_query (some tree) start_row start_column end_row
          end_column transfer_buffer = .ok fromCaptures ∧
      (fromMatches.js_nodes, fromMatches.transfer_buffer) =
        MarshalNodes E tree
          ((match_stream (UnmarshalNode (some tree) transfer_buffer).1
            (queryPoint start_row start_column) (queryPoint end_row end_column)).flatMap
            (fun m => m.nodes)) transfer_buffer ∧
      (fromCaptures.js_nodes, fromCaptures.transfer_buffer) =
        MarshalNodes E tree
          ((capture_stream (UnmarshalNode (some tree) transfer_buffer).1
            (queryPoint start_row start_column) (queryPoint end_row end_column)).flatMap
            (fun mc => mc.1.nodes)) transfer_buffer ∧
      (∀ t : Nat × String × TSNode,
        (t ∈ decodeMatches 0 fromMatches.js_matches
              ((match_stream (UnmarshalNode (some tree) transfer_buffer).1
                (queryPoint start_row start_column) (queryPoint end_row end_column)).flatMap
                (fun m => m.nodes)) ↔
          t ∈ decodeCaptures false 0 0 0 fromCaptures.js_matches
              ((capture_stream (UnmarshalNode (some tree) transfer_buffer).1
                (queryPoint start_row start_column) (queryPoint end_row end_column)).flatMap
                (fun mc => mc.1.nodes))) ∧
        (t ∈ decodeMatches 0 fromMatches.js_matches
              ((match_stream (UnmarshalNode (some tree) transfer_buffer).1
                (queryPoint start_row start_column) (queryPoint end_row end_column)).flatMap
                (fun m => m.nodes)) ↔
          t ∈ decodeCaptures true 0 0 0 fromCaptures.js_matches
              ((capture_stream (UnmarshalNode (some tree) transfer_buffer).1
                (queryPoint start_row start_column) (queryPoint end_row end_column)).flatMap
                (fun mc => mc.1.nodes)))) ∧
      (((match_stream (UnmarshalNode (some tree) transfer_buffer).1
          (queryPoint start_row start_column) (queryPoint end_row end_column)).flatMap
          (fun m => m.nodes)).length < 2 ^ 32 →
        fromMatches.js_nodes =
          ((match_stream (UnmarshalNode (some tree) transfer_buffer).1
            (queryPoint start_row start_column) (queryPoint end_row end_column)).flatMap
            (fun m => m.nodes)).map (marshalledEntry E tree)) ∧
      (((capture_stream (UnmarshalNode (some tree) transfer_buffer).1
          (queryPoint start_row start_column) (queryPoint end_row end_column)).flatMap
          (fun mc => mc.1.nodes)).length < 2 ^ 32 →
        fromCaptures.js_nodes =
          ((capture_stream (UnmarshalNode (some tree) transfer_buffer).1
            (queryPoint start_row start_column) (queryPoint end_row end_column)).flatMap
            (fun mc => mc.1.nodes)).map (marshalledEntry E tree)) := by
  have hentries : ∀ nodes : List TSNode, nodes.length < 2 ^ 32 →
      (MarshalNodes E tree nodes transfer_buffer).1 = nodes.map (marshalledEntry E tree) :=
    fun nodes hlen => MarshalNodes_entries E tree nodes transfer_buffer hlen
  generalize hm : match_stream (UnmarshalNode (some tree) transfer_buffer).1
    (queryPoint start_row start_column) (queryPoint end_row end_column) = match_list
    at hcontract
  generalize hc : capture_stream (UnmarshalNode (some tree) transfer_buffer).1
    (queryPoint start_row start_column) (queryPoint end_row end_column) = capture_list
    at hcontract
  have hloops := Query.loops_same_triples ts_query match_list capture_list hcontract
  refine ⟨_, _, rfl, rfl, ?_, ?_, ?_, ?_, ?_⟩
  · simp only [hm, Query.Matches.loop_stream, List.nil_append]
  · simp only [hc, Query.Captures.loop_yielded, List.nil_append]
  · intro t
    have h := hloops t
    simp only [Query.Matches.loop_stream, Query.Captures.loop_yielded,
      List.nil_append] at h
    simp only [hm, hc, Query.Matches.loop_stream, Query.Captures.loop_yielded,
      List.nil_append]
    exact h
  · intro hlen
    simp only [hm, Query.Matches.loop_stream, List.nil_append]
    exact hentries _ hlen
  · intro hlen
    simp only [hc, Query.Captures.loop_yielded, List.nil_append]
    exact hentries _ hlen

/-- C11, on a match with the two captures `a` and `b`, which the capture stream yields once
per capture, last capture first: both calls return, the triples decoded from the result of
`matches` are `(0, a, node 2)` and `(0, b, node 3)`, and the triple `(0, b, node 3)` is
decoded from the result of `captures` as well. -/
theorem matches_captures_same_triples_witness :
    captureStreamCovers [sampleMatch] [(sampleMatch, 1), (sampleMatch, 0)] ∧
    Query.Matches chainEngine (fun _ _ _ => [sampleMatch]) twoCaptureQuery
        (some uncachedTree) 0 0 0 10 initialBuffer =
      .ok { js_matches := [.num 0, .str "a", .str "b"],
            js_nodes := [.num 1, .num 2],
            transfer_buffer := [2, 0, 0, 0, 0, 0, 3, 0, 0, 0, 0, 0] } ∧
    Query.Captures chainEngine (fun _ _ _ => [(sampleMatch, 1), (sampleMatch, 0)])
        twoCaptureQuery (some uncachedTree) 0 0 0 10 initialBuffer =
      .ok { js_matches := [.num 0, .num 1, .str "a", .str "b", .num 0, .num 0, .str "a",
              .str "b"],
            js_nodes := [.num 1, .num 2, .num 1, .num 2],
            transfer_buffer :=
              [2, 0, 0, 0, 0, 0, 3, 0, 0, 0, 0, 0, 2, 0, 0, 0, 0, 0, 3, 0, 0, 0, 0, 0] } ∧
    ∃ fromMatches fromCaptures : QueryResult,
      Query.Matches chainEngine (fun _ _ _ => [sampleMatch]) twoCaptureQuery
          (some uncachedTree) 0 0 0 10 initialBuffer = .ok fromMatches ∧
      Query.Captures chainEngine (fun _ _ _ => [(sampleMatch, 1), (sampleMatch, 0)])
          twoCaptureQuery (some uncachedTree) 0 0 0 10 initialBuffer = .ok fromCaptures ∧
      (fromMatches.js_nodes, fromMatches.transfer_buffer) =
        MarshalNodes chainEngine uncachedTree
          ([sampleMatch].flatMap (fun m => m.nodes)) initialBuffer ∧
      (fromCaptures.js_nodes, fromCaptures.transfer_buffer) =
        MarshalNodes chainEngine uncachedTree
          ([(sampleMatch, 1), (sampleMatch, 0)].flatMap (fun mc => mc.1.nodes))
          initialBuffer ∧
      (∀ t : Nat × String × TSNode,
        (t ∈ decodeMatches 0 fromMatches.js_matches
              ([sampleMatch].flatMap (fun m => m.nodes)) ↔
          t ∈ decodeCaptures false 0 0 0 fromCaptures.js_matches
              ([(sampleMatch, 1), (sampleMatch, 0)].flatMap (fun mc => mc.1.nodes))) ∧
        (t ∈ decodeMatches 0 fromMatches.js_matches
              ([sampleMatch].flatMap (fun m => m.nodes)) ↔
          t ∈ decodeCaptures true 0 0 0 fromCaptures.js_matches
              ([(sampleMatch, 1), (sampleMatch, 0)].flatMap (fun mc => mc.1.nodes)))) ∧
      (([sampleMatch].flatMap (fun m => m.nodes)).length < 2 ^ 32 →
        fromMatches.js_nodes =
          ([sampleMatch].flatMap (fun m => m.nodes)).map
            (marshalledEntry chainEngine uncachedTree)) ∧
      (([(sampleMatch, 1), (sampleMatch, 0)].flatMap (fun mc => mc.1.nodes)).length <
          2 ^ 32 →
        fromCaptures.js_nodes =
          ([(sampleMatch, 1), (sampleMatch, 0)].flatMap (fun mc => mc.1.nodes)).map
            (marshalledEntry chainEngine uncachedTree)) :=
  ⟨by decide, rfl, rfl,
    matches_captures_same_triples chainEngine (fun _ _ _ => [sampleMatch])
      (fun _ _ _ => [(sampleMatch, 1), (sampleMatch, 0)]) twoCaptureQuery uncachedTree
      0 0 0 10 initialBuffer (by decide)⟩

/-! ### Random-access slice reader -/

theorem totalLength_cons (s : TextSlice) (rest : List TextSlice) :
    totalLength (s :: rest) = s.second + totalLength rest := by
  simp [totalLength]

theorem totalLength_take_le (slices : List TextSlice) :
    ∀ k : Nat, totalLength (slices.take k) ≤ totalLength slices := by
  induction slices with
  | nil => intro k; simp [totalLength]
  | cons s rest ih =>
    intro k
    cases k with
    | zero => simp [totalLength]
    | succ k =>
      have := ih k
      simp only [List.take_succ_cons, totalLength_cons]
      omega

theorem totalLength_take_succ (slices : List TextSlice) :
    ∀ (k : Nat) (slice : TextSlice), slices.get? k = some slice →
      totalLength (slices.take (k + 1)) = totalLength (slices.take k) + slice.second := by
  induction slices with
  | nil => intro k slice h; simp at h
  | cons s rest ih =>
    intro k slice h
    cases k with
    | zero =>
      simp only [List.get?_cons_zero, Option.some.injEq] at h
      subst h
      simp [totalLength]
    | succ k =>
      have := ih k slice (by simpa using h)
      simp only [List.take_succ_cons, totalLength_cons] at this ⊢
      omega

theorem totalLength_take_length (slices : List TextSlice) :
    totalLength (slices.take slices.length) = totalLength slices := by
  rw [List.take_length]

theorem length_of_get?_eq_some (slices : List TextSlice) (k : Nat) (slice : TextSlice)
    (h : slices.get? k = some slice) : k < slices.length := by
  by_contra hk
  have hnone : slices.get? k = none := by
    rw [List.get?_eq_getElem?]
    exact List.getElem?_eq_none (by omega)
  rw [hnone] at h
  cases h

/-- The loop of `seek` stops at the slice that contains the goal position, when the goal
lies inside the text and the text is addressable by 32-bit byte offsets. -/
theorem TextBufferInput.seek.loop_found (goal : Nat) (slices : List TextSlice) :
    ∀ (i0 total0 : Nat), total0 ≤ goal → goal < total0 + totalLength slices →
      total0 + totalLength slices < 2 ^ 32 →
      ∃ k offset slice, slices.get? k = some slice ∧
        total0 + totalLength (slices.take k) + offset = goal ∧ offset < slice.second ∧
        TextBufferInput.seek.loop goal slices i0 total0 = (i0 + k, offset) := by
  induction slices with
  | nil =>
    intro i0 total0 h1 h2 _
    simp [totalLength] at h2
    omega
  | cons s rest ih =>
    intro i0 total0 h1 h2 h3
    rw [totalLength_cons] at h2 h3
    unfold TextBufferInput.seek.loop
    have hmod : (total0 + s.second) % 2 ^ 32 = total0 + s.second :=
      Nat.mod_eq_of_lt (by omega)
    simp only [hmod]
    by_cases hgt : total0 + s.second > goal
    · rw [if_pos hgt]
      refine ⟨0, goal - total0, s, rfl, ?_, by omega, ?_⟩
      · simp only [List.take_zero, totalLength, List.map_nil, List.sum_nil]
        omega
      · have hsub : sub32 goal total0 = goal - total0 := by
          unfold sub32
          rw [show goal + 2 ^ 32 - total0 = (goal - total0) + 2 ^ 32 by omega,
            Nat.add_mod_right]
          exact Nat.mod_eq_of_lt (by omega)
        rw [hsub]
        rfl
    · rw [if_neg hgt]
      obtain ⟨k, offset, slice, hk, hpos, hoff, hloop⟩ :=
        ih (i0 + 1) (total0 + s.second) (by omega) (by omega) (by omega)
      refine ⟨k + 1, offset, slice, by simpa using hk, ?_, hoff, ?_⟩
      · simp only [List.take_succ_cons, totalLength_cons]
        omega
      · rw [hloop, show i0 + 1 + k = i0 + (k + 1) by omega]

/-- The loop of `seek` runs past the last slice when the goal lies at or beyond the end of
the text. -/
theorem TextBufferInput.seek.loop_end (goal : Nat) (slices : List TextSlice) :
    ∀ (i0 total0 : Nat), total0 + totalLength slices ≤ goal → goal < 2 ^ 32 →
      TextBufferInput.seek.loop goal slices i0 total0 = (i0 + slices.length, 0) := by
  induction slices with
  | nil => intro i0 total0 _ _; rfl
  | cons s rest ih =>
    intro i0 total0 h1 h2
    rw [totalLength_cons] at h1
    unfold TextBufferInput.seek.loop
    have hmod : (total0 + s.second) % 2 ^ 32 = total0 + s.second :=
      Nat.mod_eq_of_lt (by omega)
    simp only [hmod]
    rw [if_neg (by omega), ih (i0 + 1) (total0 + s.second) (by omega) h2, List.length_cons,
      show i0 + 1 + rest.length = i0 + (rest.length + 1) by omega]

theorem unitsAt_length (memory : Nat → Nat) (count : Nat) :
    ∀ pointer : Nat, (unitsAt memory pointer count).length = count := by
  induction count with
  | zero => intro pointer; rfl
  | succ n ih => intro pointer; simp [unitsAt, ih]

theorem unitsAt_drop (memory : Nat → Nat) (offset : Nat) :
    ∀ (pointer count : Nat), offset ≤ count →
      (unitsAt memory pointer count).drop offset =
        unitsAt memory (pointer + offset) (count - offset) := by
  induction offset with
  | zero => intro pointer count _; rfl
  | succ off ih =>
    intro pointer count h
    cases count with
    | zero => omega
    | succ n =>
      simp only [unitsAt, List.drop_succ_cons]
      rw [ih (pointer + 1) n (by omega),
        show pointer + 1 + off = pointer + (off + 1) by omega,
        show n + 1 - (off + 1) = n - off by omega]

/-- The text from the position `offset` of the `k`-th slice up to the end of that slice,
read in the concatenated text and read in memory. -/
theorem concatenatedText_slice (memory : Nat → Nat) (slices : List TextSlice) :
    ∀ (k : Nat) (slice : TextSlice) (offset : Nat), slices.get? k = some slice →
      offset ≤ slice.second →
      ((concatenatedText memory slices).drop (totalLength (slices.take k) + offset)).take
          (slice.second - offset) =
        unitsAt memory (slice.first + offset) (slice.second - offset) := by
  induction slices with
  | nil => intro k slice offset h; simp at h
  | cons s rest ih =>
    intro k slice offset h hoff
    cases k with
    | zero =>
      simp only [List.get?_cons_zero, Option.some.injEq] at h
      subst h
      have hlen : (s.text memory).length = s.second := unitsAt_length memory _ _
      simp only [List.take_zero, totalLength, List.map_nil, List.sum_nil, Nat.zero_add,
        concatenatedText, List.flatMap_cons]
      rw [List.drop_append_of_le_length (by omega)]
      have hdrop : (s.text memory).drop offset =
          unitsAt memory (s.first + offset) (s.second - offset) :=
        unitsAt_drop memory offset s.first s.second hoff
      rw [hdrop]
      exact List.take_left' (unitsAt_length memory _ _)
    | succ k =>
      have hrest := ih k slice offset (by simpa using h) hoff
      have hlen : (s.text memory).length = s.second := unitsAt_length memory _ _
      simp only [List.take_succ_cons, totalLength_cons]
      have hcat : concatenatedText memory (s :: rest) =
          s.text memory ++ concatenatedText memory rest := by
        simp [concatenatedText]
      rw [hcat, show s.second + totalLength (List.take k rest) + offset =
        (s.text memory).length + (totalLength (List.take k rest) + offset) by omega,
        List.drop_append]
      exact hrest

theorem sub32_of_le (a b : Nat) (hle : b ≤ a) (ha : a < 2 ^ 32) : sub32 a b = a - b := by
  unfold sub32
  rw [show a + 2 ^ 32 - b = (a - b) + 2 ^ 32 by omega, Nat.add_mod_right]
  exact Nat.mod_eq_of_lt (by omega)

/-- A read of a reader whose cursor stands at offset `offset` inside the slice at
`slice_index_`, when no count overflows. -/
theorem TextBufferInput.Read_at_cursor (r : TextBufferInput) (byte : Nat) (position : TSPoint)
    (slice : TextSlice) (hbyte : byte = r.byte_offset)
    (hslice : r.slices_.get? r.slice_index_ = some slice)
    (hoff : r.slice_offset_ ≤ slice.second) (hlen : 2 * slice.second < 2 ^ 32)
    (hsum : r.byte_offset + 2 * (slice.second - r.slice_offset_) < 2 ^ 32) :
    r.Read byte position =
      .ok { data := some (slice.first + r.slice_offset_),
            length := 2 * (slice.second - r.slice_offset_),
            reader :=
              { r with
                byte_offset := r.byte_offset + 2 * (slice.second - r.slice_offset_),
                slice_index_ := r.slice_index_ + 1,
                slice_offset_ := 0 } } := by
  have hidx : r.slice_index_ ≠ r.slices_.length := by
    have := length_of_get?_eq_some _ _ _ hslice
    omega
  have hsub : sub32 slice.second r.slice_offset_ = slice.second - r.slice_offset_ :=
    sub32_of_le _ _ hoff (by omega)
  have hmul : (2 * (slice.second - r.slice_offset_)) % 2 ^ 32 =
      2 * (slice.second - r.slice_offset_) := Nat.mod_eq_of_lt (by omega)
  have hadd : (r.byte_offset + 2 * (slice.second - r.slice_offset_)) % 2 ^ 32 =
      r.byte_offset + 2 * (slice.second - r.slice_offset_) := Nat.mod_eq_of_lt hsum
  unfold TextBufferInput.Read
  simp only [hbyte, ne_eq, not_true_eq_false, if_false, hidx, hslice, hsub, hmul, hadd]

/-- A read at a 32-bit byte offset other than the expected one, inside a text that is
addressable by 32-bit byte offsets: the reader re-seeks and returns the rest of the slice
that contains the position. -/
theorem TextBufferInput.Read_reseek (memory : Nat → Nat) (r : TextBufferInput) (b : Nat)
    (position : TSPoint)
    (hb : b < 2 ^ 32) (hne : b ≠ r.byte_offset) (hin : b / 2 < totalLength r.slices_)
    (hfit : 2 * totalLength r.slices_ < 2 ^ 32) :
    ∃ i offset slice,
      r.slices_.get? i = some slice ∧
      totalLength (r.slices_.take i) + offset = b / 2 ∧ offset < slice.second ∧
      r.Read b position =
        .ok { data := some (slice.first + offset),
              length := 2 * (slice.second - offset),
              reader := { slices_ := r.slices_,
                          byte_offset := b + 2 * (slice.second - offset),
                          slice_index_ := i + 1,
                          slice_offset_ := 0 } } ∧
      unitsAt memory (slice.first + offset) (slice.second - offset) =
        ((concatenatedText memory r.slices_).drop (b / 2)).take (slice.second - offset) := by
  obtain ⟨k, offset, slice, hk, hpos, hoff, hloop⟩ :=
    TextBufferInput.seek.loop_found (b / 2) r.slices_ 0 0 (Nat.zero_le _) (by omega)
      (by omega)
  rw [Nat.zero_add] at hpos hloop
  refine ⟨k, offset, slice, hk, hpos, hoff, ?_, ?_⟩
  · have hsucc := totalLength_take_succ r.slices_ k slice hk
    have hle := totalLength_take_le r.slices_ (k + 1)
    have hread := TextBufferInput.Read_at_cursor (r.seek b) b position slice rfl
      (by simpa [TextBufferInput.seek, hloop] using hk)
      (by simp only [TextBufferInput.seek, hloop]; omega)
      (by omega)
      (by simp only [TextBufferInput.seek, hloop]; omega)
    have hseek : r.Read b position = (r.seek b).Read b position := by
      unfold TextBufferInput.Read
      simp only [ne_eq, hne, not_false_eq_true, if_true, TextBufferInput.seek,
        not_true_eq_false, if_false]
    rw [hseek, hread]
    simp only [TextBufferInput.seek, hloop]
  · have h := concatenatedText_slice memory r.slices_ k slice offset hk (by omega)
    rw [hpos] at h
    exact h.symm

/-- C15 (counterexample). On a single slice of `2 ^ 31 + 5` code units a read at byte 2,
which differs from the expected offset 0 and lies inside the text, reports 8 bytes: the
count `2 * (2 ^ 31 + 4)` of the bytes up to the end of the slice does not fit 32 bits. -/
theorem slice_reader_reseek_overflow_counterexample :
    (2 : Nat) ≠ (TextBufferInput.new hugeSlices).byte_offset ∧
    2 / 2 < totalLength hugeSlices ∧
    (TextBufferInput.new hugeSlices).Read 2 { row := 0, column := 0 } =
      .ok { data := some 1001, length := 8,
            reader := { slices_ := hugeSlices, byte_offset := 10, slice_index_ := 1,
                        slice_offset_ := 0 } } ∧
    (8 : Nat) ≠ 2 * (2147483653 - 1) := by
  refine ⟨by decide, by decide, rfl, by decide⟩

/-- C15 (amended). For every sequence of slices whose total length in bytes is below
`2 ^ 32` and every 32-bit byte offset `b` that differs from the reader's expected offset
and satisfies `b / 2 <` total length, a read at `b` re-seeks to the slice that contains
position `b / 2` and returns the text from that position up to the end of that slice (so
never text of two slices): the address handed back is that position inside the slice, the
length reported is twice the number of code units up to the end of the slice, the code
units there are those of the concatenated text from position `b / 2` on, and afterwards
the cursor is at the start of the next slice with expected offset `b` plus the bytes
returned. -/
theorem slice_reader_reseek (memory : Nat → Nat) (r : TextBufferInput) (b : Nat)
    (position : TSPoint)
    (hb : b < 2 ^ 32) (hne : b ≠ r.byte_offset) (hin : b / 2 < totalLength r.slices_)
    (hfit : 2 * totalLength r.slices_ < 2 ^ 32) :
    ∃ i offset slice,
      r.slices_.get? i = some slice ∧
      totalLength (r.slices_.take i) + offset = b / 2 ∧ offset < slice.second ∧
      r.Read b position =
        .ok { data := some (slice.first + offset),
              length := 2 * (slice.second - offset),
              reader := { slices_ := r.slices_,
                          byte_offset := b + 2 * (slice.second - offset),
                          slice_index_ := i + 1,
                          slice_offset_ := 0 } } ∧
      unitsAt memory (slice.first + offset) (slice.second - offset) =
        ((concatenatedText memory r.slices_).drop (b / 2)).take (slice.second - offset) :=
  TextBufferInput.Read_reseek memory r b position hb hne hin hfit

/-- C15 (amended), on the slices "hello", "" and " world": a read at byte 14 of a fresh
reader re-seeks into the third slice at offset 2 and returns its remaining 4 code units. -/
theorem slice_reader_reseek_witness :
    (14 : Nat) < 2 ^ 32 ∧ 14 ≠ (TextBufferInput.new helloSlices).byte_offset ∧
    14 / 2 < totalLength (TextBufferInput.new helloSlices).slices_ ∧
    2 * totalLength (TextBufferInput.new helloSlices).slices_ < 2 ^ 32 ∧
    (∃ i offset slice,
      (TextBufferInput.new helloSlices).slices_.get? i = some slice ∧
      totalLength ((TextBufferInput.new helloSlices).slices_.take i) + offset = 14 / 2 ∧
      offset < slice.second ∧
      (TextBufferInput.new helloSlices).Read 14 { row := 0, column := 0 } =
        .ok { data := some (slice.first + offset),
              length := 2 * (slice.second - offset),
              reader := { slices_ := (TextBufferInput.new helloSlices).slices_,
                          byte_offset := 14 + 2 * (slice.second - offset),
                          slice_index_ := i + 1,
                          slice_offset_ := 0 } } ∧
      unitsAt (fun address => address) (slice.first + offset) (slice.second - offset) =
        ((concatenatedText (fun address => address)
          (TextBufferInput.new helloSlices).slices_).drop (14 / 2)).take
            (slice.second - offset)) ∧
    (TextBufferInput.new helloSlices).Read 14 { row := 0, column := 0 } =
      .ok { data := some 202, length := 8,
            reader := { slices_ := helloSlices, byte_offset := 22, slice_index_ := 3,
                        slice_offset_ := 0 } } :=
  ⟨by decide, by decide, by decide, by decide,
    slice_reader_reseek (fun address => address) (TextBufferInput.new helloSlices) 14
      { row := 0, column := 0 } (by decide) (by decide) (by decide) (by decide),
    rfl⟩

/-- A read of a consistent reader leaves a consistent reader, when the text is addressable
by 32-bit byte offsets. -/
theorem TextBufferInput.Read_consistent (slices : List TextSlice) (r : TextBufferInput)
    (byte : Nat) (position : TSPoint) (res : TextRead)
    (hfit : 2 * totalLength slices < 2 ^ 32) (hbyte : byte < 2 ^ 32)
    (hr : r.consistent slices) (hread : r.Read byte position = .ok res) :
    res.reader.consistent slices := by
  obtain ⟨hs, hoff, hidx, hbo, hpre, heq⟩ := hr
  by_cases hne : byte ≠ r.byte_offset
  · by_cases hin : byte / 2 < totalLength r.slices_
    · obtain ⟨i, offset, slice, hi, hpos, hlt, hres, _⟩ :=
        TextBufferInput.Read_reseek (fun _ => 0) r byte position hbyte hne hin
          (by rw [hs]; exact hfit)
      rw [hres, Except.ok.injEq] at hread
      subst hread
      rw [hs] at hi hpos
      have hsucc := totalLength_take_succ slices i slice hi
      have hle := totalLength_take_le slices (i + 1)
      have hilt := length_of_get?_eq_some slices i slice hi
      refine ⟨hs, rfl, by simp only; omega, by simp only; omega, by simp only; omega, ?_⟩
      intro _
      simp only
      omega
    · have hloop := TextBufferInput.seek.loop_end (byte / 2) r.slices_ 0 0 (by omega)
        (by omega)
      rw [Nat.zero_add] at hloop
      have hres : r.Read byte position =
          .ok { data := none, length := 0,
                reader := { r with byte_offset := byte, slice_index_ := r.slices_.length,
                                   slice_offset_ := 0 } } := by
        unfold TextBufferInput.Read
        simp only [ne_eq, hne, not_false_eq_true, if_true, TextBufferInput.seek, hloop]
      rw [hres, Except.ok.injEq] at hread
      subst hread
      rw [hs] at hin
      refine ⟨hs, rfl, by simp only [hs]; omega, hbyte, ?_, ?_⟩
      · simp only [hs, List.take_length]; omega
      · intro h; simp only [hs] at h; omega
  · have hbyte' : byte = r.byte_offset := not_not.1 hne
    by_cases hend : r.slice_index_ = r.slices_.length
    · have hres : r.Read byte position = .ok { data := none, length := 0, reader := r } := by
        unfold TextBufferInput.Read
        simp only [hbyte', ne_eq, not_true_eq_false, if_false, hend, if_true]
      rw [hres, Except.ok.injEq] at hread
      subst hread
      exact ⟨hs, hoff, hidx, hbo, hpre, heq⟩
    · have hlt : r.slice_index_ < slices.length := by rw [hs] at hend; omega
      obtain ⟨slice, hslice⟩ : ∃ slice, slices.get? r.slice_index_ = some slice := by
        rw [List.get?_eq_getElem?, List.getElem?_eq_getElem hlt]
        exact ⟨_, rfl⟩
      have hsucc := totalLength_take_succ slices r.slice_index_ slice hslice
      have hle := totalLength_take_le slices (r.slice_index_ + 1)
      have hpos := heq hlt
      have hres := TextBufferInput.Read_at_cursor r byte position slice hbyte'
        (by rw [hs]; exact hslice) (by omega) (by omega) (by rw [hoff]; omega)
      rw [hres, Except.ok.injEq] at hread
      subst hread
      refine ⟨hs, rfl, by simp only; omega, by simp only [hoff]; omega,
        by simp only [hoff]; omega, ?_⟩
      intro _
      simp only [hoff]
      omega

/-- Every reachable reader is consistent, when the text is addressable by 32-bit byte
offsets. -/
theorem TextBufferInput.Reachable.consistent (slices : List TextSlice) (r : TextBufferInput)
    (hfit : 2 * totalLength slices < 2 ^ 32) (h : TextBufferInput.Reachable slices r) :
    r.consistent slices := by
  induction h with
  | constructed =>
    refine ⟨rfl, rfl, Nat.zero_le _, Nat.two_pow_pos 32, ?_, ?_⟩
    · simp [TextBufferInput.new, totalLength]
    · intro _; simp [TextBufferInput.new, totalLength]
  | read r byte position res _ hbyte hread ih =>
    exact TextBufferInput.Read_consistent slices r byte position res hfit hbyte ih hread

/-- C16. Both source readers report the end of input as zero bytes read, not as an error.
The slice reader, in every state the engine can bring about, answers a read at a 32-bit
byte offset `b` with `b / 2` at or beyond the total length of the slices with length 0.
The chunked reader reports 0 bytes read, and hands back no text, whenever it invokes the
host callback (no partial string is retained for this read) and the callback does not
yield a text value. -/
theorem readers_report_end_as_zero_bytes (slices : List TextSlice) (r : TextBufferInput)
    (b : Nat) (position : TSPoint) (reader : CallbackInput) (byte : Nat)
    (hreach : TextBufferInput.Reachable slices r) (hb : b < 2 ^ 32)
    (hend : totalLength slices ≤ b / 2)
    (hcall : reader.partial_string = none ∨ byte ≠ reader.byte_offset)
    (hnotext : ∀ s, reader.callback (ByteCountToJS byte) (PointToJS position) ≠
      some (.str s)) :
    (∃ res, r.Read b position = .ok res ∧ res.length = 0) ∧
    (reader.Read byte position).bytes_read = 0 ∧ (reader.Read byte position).data = none := by
  constructor
  · obtain ⟨hs, hoff, hidx, hbo, hpre, heq⟩ :=
      TextBufferInput.Reachable.consistent slices r (by omega) hreach
    by_cases hne : b ≠ r.byte_offset
    · have hloop := TextBufferInput.seek.loop_end (b / 2) r.slices_ 0 0
        (by rw [hs]; omega) (by omega)
      rw [Nat.zero_add] at hloop
      refine ⟨{ data := none, length := 0,
                reader := { r with byte_offset := b, slice_index_ := r.slices_.length,
                                   slice_offset_ := 0 } }, ?_, rfl⟩
      unfold TextBufferInput.Read
      simp only [ne_eq, hne, not_false_eq_true, if_true, TextBufferInput.seek, hloop]
    · have hb' : b = r.byte_offset := not_not.1 hne
      by_cases hlast : r.slice_index_ = r.slices_.length
      · refine ⟨{ data := none, length := 0, reader := r }, ?_, rfl⟩
        unfold TextBufferInput.Read
        simp only [hb', ne_eq, not_true_eq_false, if_false, hlast, if_true]
      · have hlt : r.slice_index_ < slices.length := by rw [hs] at hlast; omega
        obtain ⟨slice, hslice⟩ : ∃ slice, slices.get? r.slice_index_ = some slice := by
          rw [List.get?_eq_getElem?, List.getElem?_eq_getElem hlt]
          exact ⟨_, rfl⟩
        have hsucc := totalLength_take_succ slices r.slice_index_ slice hslice
        have hle := totalLength_take_le slices (r.slice_index_ + 1)
        have hpos := heq hlt
        have hzero : slice.second = 0 := by omega
        have hres := TextBufferInput.Read_at_cursor r b position slice hb'
          (by rw [hs]; exact hslice) (by omega) (by omega) (by rw [hoff]; omega)
        exact ⟨_, hres, by simp only [hzero, hoff]⟩
  · have hretained : (if byte ≠ reader.byte_offset then
          { reader with byte_offset := byte, partial_string := none }
        else reader).partial_string = none := by
      by_cases hne : byte ≠ reader.byte_offset
      · rw [if_pos hne]
      · rw [if_neg hne]
        rcases hcall with h | h
        · exact h
        · exact absurd h hne
    have hcb : (if byte ≠ reader.byte_offset then
          { reader with byte_offset := byte, partial_string := none }
        else reader).callback = reader.callback := by
      by_cases hne : byte ≠ reader.byte_offset
      · rw [if_pos hne]
      · rw [if_neg hne]
    unfold CallbackInput.Read
    simp only [hretained, hcb]
    cases hres : reader.callback (ByteCountToJS byte) (PointToJS position) with
    | none => simp
    | some v =>
      cases v with
      | str s => exact absurd hres (hnotext s)
      | undefined => simp
      | null => simp
      | bool _ => simp
      | num _ => simp
      | obj _ => simp
      | regexp _ => simp

theorem readers_report_end_as_zero_bytes_witness :
    (22 < 2 ^ 32 ∧ totalLength helloSlices ≤ 22 / 2) ∧
    ((∃ res, (TextBufferInput.new helloSlices).Read 22 { row := 0, column := 22 } = .ok res ∧
        res.length = 0) ∧
      (helloReader.Read 22 { row := 0, column := 22 }).bytes_read = 0 ∧
      (helloReader.Read 22 { row := 0, column := 22 }).data = none) :=
  ⟨by decide,
    readers_report_end_as_zero_bytes helloSlices (TextBufferInput.new helloSlices) 22
      { row := 0, column := 22 } helloReader 22 (TextBufferInput.Reachable.constructed)
      (by decide) (by decide) (Or.inl rfl)
      (fun s h => by
        have hnull : helloReader.callback (ByteCountToJS 22)
            (PointToJS { row := 0, column := 22 }) = some .null := by decide
        rw [hnull] at h
        cases h)⟩

/-! ### Node entry points on a null identity -/

theorem MarshalNullNode_drop (transfer_buffer : List Nat) (h : 6 ≤ transfer_buffer.length) :
    (MarshalNullNode transfer_buffer).2.drop 6 = transfer_buffer.drop 6 := by
  obtain ⟨w0, w1, w2, w3, w4, w5, rest, rfl⟩ := exists_six_words _ h
  rfl

theorem DescendantsOfType_null (E : Engine) (language : TSLanguage) (t : Subtree)
    (types : JsArg) (start_point end_point : TSPoint) (h : t.node.id = 0) :
    DescendantsOfType E language t types start_point end_point = .undefined := by
  unfold DescendantsOfType
  rw [if_pos h]

theorem Closest_null (E : Engine) (language : TSLanguage) (tree : Tree) (node : TSNode)
    (ancestors : List TSNode) (types : JsArg) (transfer_buffer : List Nat)
    (h : node.id = 0) :
    Closest E language tree node ancestors types transfer_buffer =
      (.undefined, transfer_buffer) := by
  unfold Closest
  rw [if_pos h]

/-- C17, counterexample. The buffer `[0, 0, 1, 0, 0, 0]` decodes to a handle with a null
identity; `children` on it raises no error but returns `undefined` and leaves the buffer as
it was, so its first six words are not all zero afterwards. -/
theorem children_null_identity_counterexample :
    (decodedNode uncachedTree staleNullBuffer).id = 0 ∧
    NodeMethods.Children aliasEngine leafNodeEngine uncachedTree staleNullBuffer =
      { value := .value .undefined, transfer_buffer := [0, 0, 1, 0, 0, 0],
        exception := none } ∧
    (NodeMethods.Children aliasEngine leafNodeEngine uncachedTree
      staleNullBuffer).transfer_buffer.take 6 ≠ [0, 0, 0, 0, 0, 0] := by
  refine ⟨rfl, rfl, ?_⟩
  decide

/-- C17, amended. For a first argument that unwraps to a tree and a transfer buffer of at
least six words whose decoded handle has a null identity: each entry point that answers
with one node (parent, child, namedChild, first and last (named) child, next and previous
(named) sibling, first (named) child for index, (named) descendant for index and for
position, childNodeForFieldId) raises no error, returns `null` and leaves the first six
words of the buffer zero and the rest as it was; each of children, namedChildren,
childNodesForFieldId, descendantsOfType and closest raises no error, returns `undefined`
and leaves the whole buffer as it was. -/
theorem null_identity_entry_points (E : Engine) (N : NodeEngine) (language : TSLanguage)
    (tree : Tree) (transfer_buffer : List Nat) (index field_id : JsValue)
    (info_length : Nat) (byte min_byte max_byte : Except String Nat)
    (min_point max_point : Except String TSPoint) (types : JsArg)
    (start_point end_point : TSPoint)
    (hlen : FIELD_COUNT_PER_NODE ≤ transfer_buffer.length)
    (hnull : (decodedNode tree transfer_buffer).id = 0) :
    (∀ r ∈ [NodeMethods.Parent E N tree transfer_buffer,
        NodeMethods.Child E N tree index transfer_buffer,
        NodeMethods.NamedChild E N tree index transfer_buffer,
        NodeMethods.FirstChild E N tree transfer_buffer,
        NodeMethods.FirstNamedChild E N tree transfer_buffer,
        NodeMethods.LastChild E N tree transfer_buffer,
        NodeMethods.LastNamedChild E N tree transfer_buffer,
        NodeMethods.NextSibling E N tree transfer_buffer,
        NodeMethods.NextNamedSibling E N tree transfer_buffer,
        NodeMethods.PreviousSibling E N tree transfer_buffer,
        NodeMethods.PreviousNamedSibling E N tree transfer_buffer,
        NodeMethods.FirstChildForIndex E N tree info_length byte transfer_buffer,
        NodeMethods.FirstNamedChildForIndex E N tree byte transfer_buffer,
        NodeMethods.DescendantForIndex E N tree min_byte max_byte transfer_buffer,
        NodeMethods.NamedDescendantForIndex E N tree min_byte max_byte transfer_buffer,
        NodeMethods.DescendantForPosition E N tree min_point max_point transfer_buffer,
        NodeMethods.NamedDescendantForPosition E N tree min_point max_point transfer_buffer,
        NodeMethods.ChildNodeForFieldId E N tree field_id transfer_buffer],
      r.value = .value .null ∧ r.exception = none ∧
      r.transfer_buffer.take 6 = [0, 0, 0, 0, 0, 0] ∧
      r.transfer_buffer.drop 6 = transfer_buffer.drop 6) ∧
    (∀ r ∈ [NodeMethods.Children E N tree transfer_buffer,
        NodeMethods.NamedChildren E N tree transfer_buffer,
        NodeMethods.ChildNodesForFieldId E N tree field_id transfer_buffer,
        NodeMethods.DescendantsOfType E N language tree types start_point end_point
          transfer_buffer,
        NodeMethods.Closest E N language tree types transfer_buffer],
      r.value = .value .undefined ∧ r.exception = none ∧
      r.transfer_buffer = transfer_buffer) := by
  have hlen6 : 6 ≤ transfer_buffer.length := hlen
  have hz := MarshalNullNode_zero transfer_buffer hlen6
  have hd := MarshalNullNode_drop transfer_buffer hlen6
  have hv : (MarshalNullNode transfer_buffer).1 = .null := rfl
  have hres : ∀ r : CallResult, r = .ofNode (MarshalNullNode transfer_buffer) none →
      r.value = .value .null ∧ r.exception = none ∧
      r.transfer_buffer.take 6 = [0, 0, 0, 0, 0, 0] ∧
      r.transfer_buffer.drop 6 = transfer_buffer.drop 6 := by
    intro r hr
    subst hr
    exact ⟨by rw [CallResult.ofNode, hv], rfl, hz, hd⟩
  have hund : ∀ r : CallResult, r = .undefined transfer_buffer none →
      r.value = .value .undefined ∧ r.exception = none ∧
      r.transfer_buffer = transfer_buffer := by
    intro r hr
    subst hr
    exact ⟨rfl, rfl, rfl⟩
  constructor
  · intro r hr
    apply hres
    simp only [List.mem_cons, List.mem_singleton, List.not_mem_nil, or_false] at hr
    rcases hr with h | h | h | h | h | h | h | h | h | h | h | h | h | h | h | h | h | h <;>
      subst h
    · simp [NodeMethods.Parent, hnull]
    · simp [NodeMethods.Child, hnull]
    · simp [NodeMethods.NamedChild, hnull]
    · simp [NodeMethods.FirstChild, hnull]
    · simp [NodeMethods.FirstNamedChild, hnull]
    · simp [NodeMethods.LastChild, hnull]
    · simp [NodeMethods.LastNamedChild, hnull]
    · simp [NodeMethods.NextSibling, hnull]
    · simp [NodeMethods.NextNamedSibling, hnull]
    · simp [NodeMethods.PreviousSibling, hnull]
    · simp [NodeMethods.PreviousNamedSibling, hnull]
    · simp [NodeMethods.FirstChildForIndex, hnull]
    · simp [NodeMethods.FirstNamedChildForIndex, hnull]
    · simp [NodeMethods.DescendantForIndex, hnull]
    · simp [NodeMethods.NamedDescendantForIndex, hnull]
    · simp [NodeMethods.DescendantForPosition, hnull]
    · simp [NodeMethods.NamedDescendantForPosition, hnull]
    · simp [NodeMethods.ChildNodeForFieldId, hnull]
  · intro r hr
    apply hund
    simp only [List.mem_cons, List.mem_singleton, List.not_mem_nil, or_false] at hr
    rcases hr with h | h | h | h | h <;> subst h
    · simp [NodeMethods.Children, hnull]
    · simp [NodeMethods.NamedChildren, hnull]
    · simp [NodeMethods.ChildNodesForFieldId, hnull]
    · unfold NodeMethods.DescendantsOfType
      simp only []
      rw [DescendantsOfType_null E language _ types start_point end_point hnull]
      simp [hnull]
    · unfold NodeMethods.Closest
      simp only []
      rw [Closest_null E language tree _ _ types transfer_buffer hnull]
      simp [hnull, CallResult.undefined]

theorem null_identity_entry_points_witness :
    (FIELD_COUNT_PER_NODE ≤ staleNullBuffer.length ∧
      (decodedNode uncachedTree staleNullBuffer).id = 0) ∧
    (NodeMethods.Parent aliasEngine leafNodeEngine uncachedTree staleNullBuffer =
        { value := .value .null, transfer_buffer := [0, 0, 0, 0, 0, 0],
          exception := none }) ∧
    ((∀ r ∈ [NodeMethods.Parent aliasEngine leafNodeEngine uncachedTree staleNullBuffer,
        NodeMethods.Child aliasEngine leafNodeEngine uncachedTree (.num 0) staleNullBuffer,
        NodeMethods.NamedChild aliasEngine leafNodeEngine uncachedTree (.num 0)
          staleNullBuffer,
        NodeMethods.FirstChild aliasEngine leafNodeEngine uncachedTree staleNullBuffer,
        NodeMethods.FirstNamedChild aliasEngine leafNodeEngine uncachedTree staleNullBuffer,
        NodeMethods.LastChild aliasEngine leafNodeEngine uncachedTree staleNullBuffer,
        NodeMethods.LastNamedChild aliasEngine leafNodeEngine uncachedTree staleNullBuffer,
        NodeMethods.NextSibling aliasEngine leafNodeEngine uncachedTree staleNullBuffer,
        NodeMethods.NextNamedSibling aliasEngine leafNodeEngine uncachedTree staleNullBuffer,
        NodeMethods.PreviousSibling aliasEngine leafNodeEngine uncachedTree staleNullBuffer,
        NodeMethods.PreviousNamedSibling aliasEngine leafNodeEngine uncachedTree
          staleNullBuffer,
        NodeMethods.FirstChildForIndex aliasEngine leafNodeEngine uncachedTree 2 (.ok 0)
          staleNullBuffer,
        NodeMethods.FirstNamedChildForIndex aliasEngine leafNodeEngine uncachedTree (.ok 0)
          staleNullBuffer,
        NodeMethods.DescendantForIndex aliasEngine leafNodeEngine uncachedTree (.ok 0)
          (.ok 2) staleNullBuffer,
        NodeMethods.NamedDescendantForIndex aliasEngine leafNodeEngine uncachedTree (.ok 0)
          (.ok 2) staleNullBuffer,
        NodeMethods.DescendantForPosition aliasEngine leafNodeEngine uncachedTree
          (.ok { row := 0, column := 0 }) (.ok { row := 0, column := 2 }) staleNullBuffer,
        NodeMethods.NamedDescendantForPosition aliasEngine leafNodeEngine uncachedTree
          (.ok { row := 0, column := 0 }) (.ok { row := 0, column := 2 }) staleNullBuffer,
        NodeMethods.ChildNodeForFieldId aliasEngine leafNodeEngine uncachedTree (.num 1)
          staleNullBuffer],
      r.value = .value .null ∧ r.exception = none ∧
      r.transfer_buffer.take 6 = [0, 0, 0, 0, 0, 0] ∧
      r.transfer_buffer.drop 6 = staleNullBuffer.drop 6) ∧
    (∀ r ∈ [NodeMethods.Children aliasEngine leafNodeEngine uncachedTree staleNullBuffer,
        NodeMethods.NamedChildren aliasEngine leafNodeEngine uncachedTree staleNullBuffer,
        NodeMethods.ChildNodesForFieldId aliasEngine leafNodeEngine uncachedTree (.num 1)
          staleNullBuffer,
        NodeMethods.DescendantsOfType aliasEngine leafNodeEngine chainLanguage uncachedTree
          (.value (.str "A")) { row := 0, column := 0 } { row := 0, column := 2 }
          staleNullBuffer,
        NodeMethods.Closest aliasEngine leafNodeEngine chainLanguage uncachedTree
          (.value (.str "A")) staleNullBuffer],
      r.value = .value .undefined ∧ r.exception = none ∧
      r.transfer_buffer = staleNullBuffer)) :=
  ⟨⟨by decide, rfl⟩, rfl,
    null_identity_entry_points aliasEngine leafNodeEngine chainLanguage uncachedTree
      staleNullBuffer (.num 0) (.num 1) 2 (.ok 0) (.ok 0) (.ok 2)
      (.ok { row := 0, column := 0 }) (.ok { row := 0, column := 2 }) (.value (.str "A"))
      { row := 0, column := 0 } { row := 0, column := 2 } (by decide) rfl⟩

/-! ### The `match?` predicate -/

theorem BuildPredicates.predicate_match (RegExp : JsValue → Option JsValue) (i : Nat)
    (st : BuildState) (steps : List JsValue) (hmatch : isMatchPredicate steps) :
    BuildPredicates.predicate RegExp i st steps =
      BuildPredicates.matchBranch RegExp st (steps.length / 2) (jsGet steps 2).toUint32
        (jsGet steps 4).toUint32 (jsGet steps 3) (jsGet steps 5) := by
  obtain ⟨h0, h1⟩ := hmatch
  have hne : ¬ ((jsGet steps 1).toStr = "not-eq?" ∨ (jsGet steps 1).toStr = "eq?") := by
    rw [h1]; decide
  unfold BuildPredicates.predicate
  rw [if_neg (not_not.2 h0), if_neg hne, if_pos h1]

theorem BuildPredicates.predicate_match_malformed (RegExp : JsValue → Option JsValue)
    (i : Nat) (st : BuildState) (steps : List JsValue) (hmatch : isMatchPredicate steps)
    (hbad : operandCount steps ≠ 2 ∨
      (jsGet steps 2).toUint32 ≠ TSQueryPredicateStepTypeCapture ∨
      (jsGet steps 4).toUint32 ≠ TSQueryPredicateStepTypeString ∨
      RegExp (jsGet steps 5) = none) :
    buildFailed (BuildPredicates.predicate RegExp i st steps) = true := by
  rw [BuildPredicates.predicate_match RegExp i st steps hmatch]
  unfold BuildPredicates.matchBranch
  by_cases h3 : steps.length / 2 ≠ 3
  · rw [if_pos h3]; rfl
  rw [if_neg h3]
  by_cases h1 : (jsGet steps 2).toUint32 ≠ TSQueryPredicateStepTypeCapture
  · rw [if_pos h1]; rfl
  rw [if_neg h1]
  by_cases h2 : (jsGet steps 4).toUint32 ≠ TSQueryPredicateStepTypeString
  · rw [if_pos h2]; rfl
  rw [if_neg h2]
  have hnone : RegExp (jsGet steps 5) = none := by
    rcases hbad with hcount | hcap | hstr | hre
    · exact absurd (by unfold operandCount; omega) hcount
    · exact absurd hcap h1
    · exact absurd hstr h2
    · exact hre
  rw [hnone]
  simp only [buildFailed, ThrowAsJavaScriptException_isSome]

/-- C20. For every list of patterns and every `match?` predicate of one of them:
`BuildPredicates` ends with an exception pending, so that the construction of the Query
fails, when the predicate does not have exactly 2 operands, when its first operand is not a
capture, when its second operand is not a string, and when the host cannot compile the
string into a pattern object; and when the predicate has exactly 2 operands, the first a
capture and the second a string that the host compiles into a pattern object, the loop body
throws nothing and appends exactly one descriptor to the descriptor list of the pattern:
`false` (the match tag), the capture name and the pattern object; nothing else of the state
changes. -/
theorem match_predicate_validated_and_appended (RegExp : JsValue → Option JsValue)
    (descriptions : List (List (List JsValue))) (description : List (List JsValue))
    (steps : List JsValue)
    (hpattern : description ∈ descriptions) (hpredicate : steps ∈ description)
    (hmatch : isMatchPredicate steps) :
    ((operandCount steps ≠ 2 ∨
        (jsGet steps 2).toUint32 ≠ TSQueryPredicateStepTypeCapture ∨
        (jsGet steps 4).toUint32 ≠ TSQueryPredicateStepTypeString ∨
        RegExp (jsGet steps 5) = none) →
      buildFailed (BuildPredicates RegExp descriptions) = true) ∧
    (operandCount steps = 2 →
      (jsGet steps 2).toUint32 = TSQueryPredicateStepTypeCapture →
      (jsGet steps 4).toUint32 = TSQueryPredicateStepTypeString →
      ∀ pattern, RegExp (jsGet steps 5) = some pattern →
      ∀ (i : Nat) (st : BuildState),
        BuildPredicates.predicate RegExp i st steps =
          .ok { st with
                predicate := st.predicate ++ [[.bool false, jsGet steps 3, pattern]] }) := by
  constructor
  · intro hbad
    exact BuildPredicates.descriptions_failed_of_mem RegExp steps
      (fun i st => BuildPredicates.predicate_match_malformed RegExp i st steps hmatch hbad)
      description hpredicate descriptions hpattern 0 _
  · intro harity hcapture hstring pattern hre i st
    have h3 : ¬ steps.length / 2 ≠ 3 := by unfold operandCount at harity; omega
    rw [BuildPredicates.predicate_match RegExp i st steps hmatch]
    unfold BuildPredicates.matchBranch
    rw [if_neg h3, if_neg (not_not.2 hcapture), if_neg (not_not.2 hstring), hre]

/-- C20, on `((identifier) @a (#match? @a "^x"))`: the predicate compiles to the one
descriptor pairing `a` with the pattern object of `^x`, also through `BuildPredicates`;
and `(#match? "lit" "^x")`, whose first operand is a string, fails the construction. -/
theorem match_predicate_validated_and_appended_witness :
    ([[.num 2, .str "match?", .num 1, .str "a", .num 2, .str "^x"]] ∈
        GetPredicates matchQuery ∧
      isMatchPredicate [.num 2, .str "match?", .num 1, .str "a", .num 2, .str "^x"]) ∧
    BuildPredicates.predicate anyRegExp 0
      { pending := none, setProperties := [none], assertedProperties := [none],
        refutedProperties := [none], predicates := [none], predicate := [] }
      [.num 2, .str "match?", .num 1, .str "a", .num 2, .str "^x"] =
      .ok { pending := none, setProperties := [none], assertedProperties := [none],
            refutedProperties := [none], predicates := [none],
            predicate := [[.bool false, .str "a", .regexp "^x"]] } ∧
    BuildPredicates anyRegExp (GetPredicates matchQuery) =
      .ok { pending := none, setProperties := [none], assertedProperties := [none],
            refutedProperties := [none],
            predicates := [some [[.bool false, .str "a", .regexp "^x"]]],
            predicate := [[.bool false, .str "a", .regexp "^x"]] } ∧
    buildFailed (BuildPredicates anyRegExp
      [[[.num 2, .str "match?", .num 2, .str "lit", .num 2, .str "^x"]]]) = true :=
  ⟨⟨by decide, by decide⟩,
    (match_predicate_validated_and_appended anyRegExp (GetPredicates matchQuery)
      [[.num 2, .str "match?", .num 1, .str "a", .num 2, .str "^x"]]
      [.num 2, .str "match?", .num 1, .str "a", .num 2, .str "^x"]
      (by decide) (by decide) (by decide)).2 (by decide) (by decide) (by decide)
      (.regexp "^x") rfl 0
      { pending := none, setProperties := [none], assertedProperties := [none],
        refutedProperties := [none], predicates := [none], predicate := [] },
    rfl,
    (match_predicate_validated_and_appended anyRegExp
      [[[.num 2, .str "match?", .num 2, .str "lit", .num 2, .str "^x"]]]
      [[.num 2, .str "match?", .num 2, .str "lit", .num 2, .str "^x"]]
      [.num 2, .str "match?", .num 2, .str "lit", .num 2, .str "^x"]
      (by decide) (by decide) (by decide)).1 (Or.inr (Or.inl (by decide)))⟩

/-! ### Included ranges -/

theorem Parser.handle_included_ranges.loop_ranges (ranges : List TSRange) :
    ∀ (last_included_range_end : Nat) (included_ranges : List TSRange),
      Parser.handle_included_ranges.loop
          (ranges.map (fun range => RangeValue.object (.ok range)))
          last_included_range_end included_ranges = .error (some "Overlapping ranges") ∨
      Parser.handle_included_ranges.loop
          (ranges.map (fun range => RangeValue.object (.ok range)))
          last_included_range_end included_ranges = .ok (included_ranges ++ ranges) := by
  induction ranges with
  | nil =>
    intro last acc
    right
    simp [Parser.handle_included_ranges.loop]
  | cons range rest ih =>
    intro last acc
    simp only [List.map_cons, Parser.handle_included_ranges.loop]
    by_cases h : range.start_byte < last
    · left
      rw [if_pos h]
    · rw [if_neg h]
      rcases ih range.end_byte (acc ++ [range]) with h1 | h1
      · left; exact h1
      · right
        rw [h1, List.append_assoc]
        rfl

theorem Parser.handle_included_ranges.loop_ok_sorted (ranges : List TSRange)
    (hvalid : ∀ r ∈ ranges, r.start_byte ≤ r.end_byte) :
    ∀ (last_included_range_end : Nat) (included_ranges result : List TSRange),
      Parser.handle_included_ranges.loop
          (ranges.map (fun range => RangeValue.object (.ok range)))
          last_included_range_end included_ranges = .ok result →
      (∀ r ∈ ranges, last_included_range_end ≤ r.start_byte) ∧
      ranges.Pairwise (fun a b => a.end_byte ≤ b.start_byte) := by
  induction ranges with
  | nil =>
    intro last acc result _
    exact ⟨fun r hr => absurd hr (List.not_mem_nil r), List.Pairwise.nil⟩
  | cons range rest ih =>
    intro last acc result hok
    simp only [List.map_cons, Parser.handle_included_ranges.loop] at hok
    by_cases h : range.start_byte < last
    · rw [if_pos h] at hok
      cases hok
    · rw [if_neg h] at hok
      have hrange : range.start_byte ≤ range.end_byte := hvalid range (List.mem_cons_self _ _)
      obtain ⟨hlow, hpair⟩ :=
        ih (fun r hr => hvalid r (List.mem_cons_of_mem _ hr)) range.end_byte
          (acc ++ [range]) result hok
      constructor
      · intro r hr
        rcases List.mem_cons.1 hr with rfl | hr
        · omega
        · have := hlow r hr
          omega
      · exact List.Pairwise.cons (fun b hb => hlow b hb) hpair

theorem Parser.handle_included_ranges.loop_overlap (ranges : List TSRange)
    (hvalid : ∀ r ∈ ranges, r.start_byte ≤ r.end_byte)
    (hoverlap : ∃ i j a b, i < j ∧ ranges.get? i = some a ∧ ranges.get? j = some b ∧
      a.overlaps b) :
    Parser.handle_included_ranges.loop
        (ranges.map (fun range => RangeValue.object (.ok range))) 0 [] =
      .error (some "Overlapping ranges") := by
  rcases Parser.handle_included_ranges.loop_ranges ranges 0 [] with h | h
  · exact h
  · exfalso
    obtain ⟨_, hpair⟩ :=
      Parser.handle_included_ranges.loop_ok_sorted ranges hvalid 0 [] _ h
    obtain ⟨i, j, a, b, hij, hi, hj, _, hba⟩ := hoverlap
    have hsub : [a, b].Sublist ranges := by
      rw [List.get?_eq_getElem?] at hi hj
      obtain ⟨hil, hia⟩ := List.getElem?_eq_some.1 hi
      obtain ⟨hjl, hjb⟩ := List.getElem?_eq_some.1 hj
      have hs := @List.map_getElem_sublist _ ranges [⟨i, hil⟩, ⟨j, hjl⟩] (by simp [hij])
      subst hia
      subst hjb
      simpa using hs
    have hab := List.Pairwise.sublist hsub hpair
    simp only [List.pairwise_cons, List.mem_singleton, forall_eq] at hab
    have := hab.1
    omega

/-- C18. For every list of included ranges, each with start byte at most its end byte,
passed to `parse` of an idle parser with a callable input (and, if a second argument is
given, one that is no object or unwraps to a tree): if two ranges of the list overlap, then
`handle_included_ranges` throws `Overlapping ranges` and returns `false` without calling
`ts_parser_set_included_ranges`, and `parse` returns `undefined` with that exception
pending and the parser, its included ranges among the rest, as it was. -/
theorem overlapping_ranges_rejected
    (ts_parser_parse : TSParser → Option Nat → CallbackInput → Nat) (self : Parser)
    (callback : Nat → TSPoint → Option JsValue) (info_length : Nat) (old_tree : TreeArg)
    (buffer_size : JsValue) (ranges : List TSRange)
    (hidle : self.is_parsing_async_ = false)
    (htree : old_tree ≠ .object none)
    (hvalid : ∀ r ∈ ranges, r.start_byte ≤ r.end_byte)
    (hoverlap : ∃ i j a b, i < j ∧ ranges.get? i = some a ∧ ranges.get? j = some b ∧
      a.overlaps b) :
    Parser.handle_included_ranges self (rangesToJS ranges) =
      (false, some "Overlapping ranges", self) ∧
    (Parser.Parse ts_parser_parse self (.function callback) info_length old_tree buffer_size
      (rangesToJS ranges)).returned = .undefined ∧
    (Parser.Parse ts_parser_parse self (.function callback) info_length old_tree buffer_size
      (rangesToJS ranges)).exception = some "Overlapping ranges" ∧
    (Parser.Parse ts_parser_parse self (.function callback) info_length old_tree buffer_size
      (rangesToJS ranges)).parser = self := by
  have hloop := Parser.handle_included_ranges.loop_overlap ranges hvalid hoverlap
  have hhandle : Parser.handle_included_ranges self (rangesToJS ranges) =
      (false, some "Overlapping ranges", self) := by
    unfold Parser.handle_included_ranges rangesToJS
    simp only [hloop]
  have hparse : Parser.Parse ts_parser_parse self (.function callback) info_length old_tree
      buffer_size (rangesToJS ranges) =
      { returned := .undefined, exception := some "Overlapping ranges", parser := self } := by
    unfold Parser.Parse
    rw [hidle, hhandle]
    cases old_tree with
    | notObject v => by_cases h : info_length > 1 <;> simp [h]
    | object tree =>
      cases tree with
      | none => exact absurd rfl htree
      | some tree => by_cases h : info_length > 1 <;> simp [h]
  rw [hparse]
  exact ⟨hhandle, rfl, rfl, rfl⟩

theorem overlapping_ranges_rejected_witness :
    (freshParser.is_parsing_async_ = false ∧
      (∀ r ∈ overlappingRanges, r.start_byte ≤ r.end_byte) ∧
      (∃ i j a b, i < j ∧ overlappingRanges.get? i = some a ∧
        overlappingRanges.get? j = some b ∧ a.overlaps b)) ∧
    (Parser.handle_included_ranges freshParser (rangesToJS overlappingRanges) =
        (false, some "Overlapping ranges", freshParser) ∧
      (Parser.Parse parseToTreeOne freshParser (.function (textCallback "hello world")) 4
        (.notObject .undefined) .null (rangesToJS overlappingRanges)).returned = .undefined ∧
      (Parser.Parse parseToTreeOne freshParser (.function (textCallback "hello world")) 4
        (.notObject .undefined) .null (rangesToJS overlappingRanges)).exception =
        some "Overlapping ranges" ∧
      (Parser.Parse parseToTreeOne freshParser (.function (textCallback "hello world")) 4
        (.notObject .undefined) .null (rangesToJS overlappingRanges)).parser =
        freshParser) :=
  ⟨⟨rfl, by decide, ⟨0, 1, _, _, by decide, rfl, rfl, by decide⟩⟩,
    overlapping_ranges_rejected parseToTreeOne freshParser (textCallback "hello world") 4
      (.notObject .undefined) .null overlappingRanges rfl (by simp) (by decide)
      ⟨0, 1, _, _, by decide, rfl, rfl, by decide⟩⟩

/-! ### The busy flag -/

/-- C19. For every parser whose flag `is_parsing_async_` is set, and for every argument
list, each of `setLanguage`, `setLogger`, `printDotGraphs` and `parse` throws
`Parser is in use` and returns `undefined`, and the parser (its language, logger, dot-graph
setting and included ranges) is afterwards what it was. -/
theorem busy_parser_rejects_calls (ts_language_version : TSLanguage → Nat)
    (min_compatible current : Nat)
    (ts_parser_parse : TSParser → Option Nat → CallbackInput → Nat) (self : Parser)
    (language : LanguageValue) (logger : LoggerArg) (dot_graphs : JsValue)
    (input : InputArg) (info_length : Nat) (old_tree : TreeArg) (buffer_size : JsValue)
    (ranges : RangesArg) (hbusy : self.is_parsing_async_ = true) :
    ∀ r ∈ [Parser.SetLanguage ts_language_version min_compatible current self language,
        Parser.SetLogger self logger,
        Parser.PrintDotGraphs self dot_graphs,
        Parser.Parse ts_parser_parse self input info_length old_tree buffer_size ranges],
      r.returned = .undefined ∧ r.exception = some "Parser is in use" ∧
      r.parser = self ∧
      r.parser.parser_.language = self.parser_.language ∧
      r.parser.parser_.logger = self.parser_.logger ∧
      r.parser.parser_.dot_graph_file = self.parser_.dot_graph_file ∧
      r.parser.parser_.included_ranges = self.parser_.included_ranges := by
  intro r hr
  have hres : r = { returned := .undefined, exception := some "Parser is in use",
                    parser := self } := by
    simp only [List.mem_cons, List.mem_singleton, List.not_mem_nil, or_false] at hr
    rcases hr with h | h | h | h <;> subst h
    · unfold Parser.SetLanguage; rw [if_pos hbusy]
    · unfold Parser.SetLogger; rw [if_pos hbusy]
    · unfold Parser.PrintDotGraphs; rw [if_pos hbusy]
    · unfold Parser.Parse; rw [if_pos hbusy]
  subst hres
  exact ⟨rfl, rfl, rfl, rfl, rfl, rfl, rfl⟩

theorem busy_parser_rejects_calls_witness :
    busyParser.is_parsing_async_ = true ∧
    (Parser.SetLogger busyParser .empty).parser.parser_.logger = Logger.Make 9 ∧
    (∀ r ∈ [Parser.SetLanguage (fun _ => 14) 13 14 busyParser
          (.object (some (some chainLanguage))),
        Parser.SetLogger busyParser .empty,
        Parser.PrintDotGraphs busyParser (.bool false),
        Parser.Parse parseToTreeOne busyParser (.function (textCallback "hello world")) 4
          (.notObject .undefined) .null (.array [])],
      r.returned = .undefined ∧ r.exception = some "Parser is in use" ∧
      r.parser = busyParser ∧
      r.parser.parser_.language = busyParser.parser_.language ∧
      r.parser.parser_.logger = busyParser.parser_.logger ∧
      r.parser.parser_.dot_graph_file = busyParser.parser_.dot_graph_file ∧
      r.parser.parser_.included_ranges = busyParser.parser_.included_ranges) :=
  ⟨rfl, rfl,
    busy_parser_rejects_calls (fun _ => 14) 13 14 parseToTreeOne busyParser
      (.object (some (some chainLanguage))) .empty (.bool false)
      (.function (textCallback "hello world")) 4 (.notObject .undefined) .null (.array [])
      rfl⟩

/-! ### Symbol sets -/

theorem symbol_set_add_named_mem (node_type : String) (names : List String) :
    ∀ (j : Nat) (symbols : SymbolSet) (s : Nat),
      s ∈ (symbol_set_add_named names node_type j symbols).symbols ↔
        s ∈ symbols.symbols ∨ (j ≤ s ∧ names.get? (s - j) = some node_type) := by
  induction names with
  | nil =>
    intro j symbols s
    simp [symbol_set_add_named]
  | cons name rest ih =>
    intro j symbols s
    unfold symbol_set_add_named
    rw [ih]
    by_cases hname : node_type = name
    · rw [if_pos hname]
      simp only [SymbolSet.add, List.mem_append, List.mem_singleton]
      constructor
      · rintro ((h | h) | ⟨h1, h2⟩)
        · exact Or.inl h
        · subst h
          exact Or.inr ⟨le_refl _, by simp [hname]⟩
        · refine Or.inr ⟨by omega, ?_⟩
          obtain ⟨d, hd⟩ : ∃ d, s - j = d + 1 := ⟨s - j - 1, by omega⟩
          rw [hd, List.get?_cons_succ]
          rw [show s - (j + 1) = d by omega] at h2
          exact h2
      · rintro (h | ⟨h1, h2⟩)
        · exact Or.inl (Or.inl h)
        · by_cases hs : s = j
          · exact Or.inl (Or.inr hs)
          · refine Or.inr ⟨by omega, ?_⟩
            obtain ⟨d, hd⟩ : ∃ d, s - j = d + 1 := ⟨s - j - 1, by omega⟩
            rw [hd, List.get?_cons_succ] at h2
            rw [show s - (j + 1) = d by omega]
            exact h2
    · rw [if_neg hname]
      constructor
      · rintro (h | ⟨h1, h2⟩)
        · exact Or.inl h
        · refine Or.inr ⟨by omega, ?_⟩
          obtain ⟨d, hd⟩ : ∃ d, s - j = d + 1 := ⟨s - j - 1, by omega⟩
          rw [hd, List.get?_cons_succ]
          rw [show s - (j + 1) = d by omega] at h2
          exact h2
      · rintro (h | ⟨h1, h2⟩)
        · exact Or.inl h
        · by_cases hs : s = j
          · subst hs
            rw [Nat.sub_self, List.get?_cons_zero] at h2
            exact absurd (Option.some.inj h2).symm hname
          · refine Or.inr ⟨by omega, ?_⟩
            obtain ⟨d, hd⟩ : ∃ d, s - j = d + 1 := ⟨s - j - 1, by omega⟩
            rw [hd, List.get?_cons_succ] at h2
            rw [show s - (j + 1) = d by omega]
            exact h2

theorem symbol_set_from_items_mem (language : TSLanguage) (names : List String) :
    ∀ (symbols resolved : SymbolSet) (s : Nat),
      symbol_set_from_items language (names.map JsValue.str) symbols = some resolved →
      (s ∈ resolved.symbols ↔
        s ∈ symbols.symbols ∨ (s = ERROR_SYMBOL ∧ "ERROR" ∈ names) ∨
        ∃ name ∈ names, name ≠ "ERROR" ∧ language.symbol_names.get? s = some name) := by
  induction names with
  | nil =>
    intro symbols resolved s h
    simp only [List.map_nil, symbol_set_from_items, Option.some.injEq] at h
    subst h
    simp
  | cons name rest ih =>
    intro symbols resolved s h
    simp only [List.map_cons, symbol_set_from_items] at h
    by_cases herr : name = "ERROR"
    · rw [if_pos herr] at h
      rw [ih _ _ s h]
      simp only [SymbolSet.add, List.mem_append, List.mem_cons, List.not_mem_nil, or_false]
      constructor
      · rintro ((h1 | h1) | ⟨h1, h2⟩ | ⟨n, hn, hne, hget⟩)
        · exact Or.inl h1
        · exact Or.inr (Or.inl ⟨h1, Or.inl herr.symm⟩)
        · exact Or.inr (Or.inl ⟨h1, Or.inr h2⟩)
        · exact Or.inr (Or.inr ⟨n, Or.inr hn, hne, hget⟩)
      · rintro (h1 | ⟨h1, h2⟩ | ⟨n, hn, hne, hget⟩)
        · exact Or.inl (Or.inl h1)
        · exact Or.inl (Or.inr h1)
        · rcases hn with hn | hn
          · exact absurd (hn.trans herr) hne
          · exact Or.inr (Or.inr ⟨n, hn, hne, hget⟩)
    · rw [if_neg herr] at h
      rw [ih _ _ s h, symbol_set_add_named_mem]
      simp only [List.mem_cons, Nat.zero_le, true_and, Nat.sub_zero]
      constructor
      · rintro ((h1 | h1) | ⟨h1, h2⟩ | ⟨n, hn, hne, hget⟩)
        · exact Or.inl h1
        · exact Or.inr (Or.inr ⟨name, Or.inl rfl, herr, h1⟩)
        · exact Or.inr (Or.inl ⟨h1, Or.inr h2⟩)
        · exact Or.inr (Or.inr ⟨n, Or.inr hn, hne, hget⟩)
      · rintro (h1 | ⟨h1, h2⟩ | ⟨n, hn, hne, hget⟩)
        · exact Or.inl (Or.inl h1)
        · rcases h2 with h2 | h2
          · exact absurd h2.symm herr
          · exact Or.inr (Or.inl ⟨h1, h2⟩)
        · rcases hn with hn | hn
          · subst hn
            exact Or.inl (Or.inr hget)
          · exact Or.inr (Or.inr ⟨n, hn, hne, hget⟩)

/-- C22. For every language and every list of type-name strings, `symbol_set_from_js`
resolves the list to a symbol set such that: `contains(s)` holds exactly when `s` is the
sentinel `(TSSymbol)-1` and the name `ERROR` is in the list, or `s` is a symbol of the
language (`s < symbol_count`) whose name equals a listed name other than `ERROR`; in
particular the set contains the sentinel exactly when `ERROR` is listed and a language
symbol exactly when its name is listed; and the sentinel differs from every symbol of the
language. -/
theorem symbol_set_resolution (language : TSLanguage) (names : List String) :
    ∃ resolved,
      symbol_set_from_js { symbols := [] } (.array (names.map JsValue.str)) language =
        some resolved ∧
      (resolved.contains ERROR_SYMBOL = true ↔ "ERROR" ∈ names) ∧
      (∀ j, j < ts_language_symbol_count language →
        (resolved.contains j = true ↔
          ∃ name ∈ names, name ≠ "ERROR" ∧ language.symbol_names.get? j = some name)) ∧
      (∀ j, j < ts_language_symbol_count language → j ≠ ERROR_SYMBOL) ∧
      (∀ s, resolved.contains s = true ↔
        (s = ERROR_SYMBOL ∧ "ERROR" ∈ names) ∨
        (s < ts_language_symbol_count language ∧
          ∃ name ∈ names, name ≠ "ERROR" ∧ language.symbol_names.get? s = some name)) := by
  obtain ⟨resolved, hres⟩ := symbol_set_from_items_strings language names { symbols := [] }
  have hmem : ∀ s, resolved.contains s = true ↔
      (s = ERROR_SYMBOL ∧ "ERROR" ∈ names) ∨
      ∃ name ∈ names, name ≠ "ERROR" ∧ language.symbol_names.get? s = some name := by
    intro s
    have h := symbol_set_from_items_mem language names { symbols := [] } resolved s hres
    simp only [List.not_mem_nil, false_or] at h
    rw [← h]
    simp [SymbolSet.contains]
  have hlt : ∀ s name, language.symbol_names.get? s = some name →
      s < ts_language_symbol_count language := by
    intro s name hget
    exact (List.get?_eq_some.1 hget).1
  have hcount : ts_language_symbol_count language ≤ 65535 := language.symbol_count_le
  have hsentinel : ∀ j, j < ts_language_symbol_count language → j ≠ ERROR_SYMBOL := by
    intro j hj
    unfold ERROR_SYMBOL
    omega
  refine ⟨resolved, hres, ?_, ?_, hsentinel, ?_⟩
  · rw [hmem]
    constructor
    · rintro (⟨_, h⟩ | ⟨name, _, _, hget⟩)
      · exact h
      · exact absurd rfl (hsentinel _ (hlt _ _ hget))
    · intro h
      exact Or.inl ⟨rfl, h⟩
  · intro j hj
    rw [hmem]
    constructor
    · rintro (⟨h, _⟩ | h)
      · exact absurd h (hsentinel j hj)
      · exact h
    · intro h
      exact Or.inr h
  · intro s
    rw [hmem]
    constructor
    · rintro (h | ⟨name, hn, hne, hget⟩)
      · exact Or.inl h
      · exact Or.inr ⟨hlt _ _ hget, name, hn, hne, hget⟩
    · rintro (h | ⟨_, h⟩)
      · exact Or.inl h
      · exact Or.inr h

/-! ### The transfer buffer and batch encoding -/

theorem setup_transfer_buffer_length_le (transfer_buffer : List Nat) (node_count : Nat) :
    transfer_buffer.length ≤ (setup_transfer_buffer transfer_buffer node_count).length := by
  unfold setup_transfer_buffer
  simp only
  split
  · rw [List.length_replicate]; omega
  · exact le_refl _

theorem setup_transfer_buffer_length (transfer_buffer : List Nat) (node_count : Nat)
    (hfit : 6 * node_count < 2 ^ 32) :
    (setup_transfer_buffer transfer_buffer node_count).length =
      max transfer_buffer.length (6 * node_count) := by
  unfold setup_transfer_buffer FIELD_COUNT_PER_NODE
  have h6 : (node_count * 6) % 2 ^ 32 = 6 * node_count := by
    rw [Nat.mod_eq_of_lt (by omega)]; omega
  simp only [h6]
  split
  · rw [List.length_replicate]; omega
  · omega

theorem setupSequence_length (counts : List Nat) :
    ∀ transfer_buffer : List Nat, (∀ c ∈ counts, 6 * c < 2 ^ 32) →
      (setupSequence transfer_buffer counts).length =
        counts.foldl (fun length c => max length (6 * c)) transfer_buffer.length := by
  induction counts with
  | nil => intro b _; rfl
  | cons c rest ih =>
    intro b h
    unfold setupSequence
    simp only [List.foldl_cons]
    have := ih (setup_transfer_buffer b c) (fun c' hc' => h c' (List.mem_cons_of_mem _ hc'))
    unfold setupSequence at this
    rw [this, setup_transfer_buffer_length b c (h c (List.mem_cons_self _ _))]

theorem write_node_record_length (transfer_buffer : List Nat) (p : Nat) (node : TSNode) :
    (write_node_record transfer_buffer p node).length = transfer_buffer.length := by
  simp [write_node_record, MarshalPointer]

theorem write_node_record_cons (w : Nat) (transfer_buffer : List Nat) (p : Nat)
    (node : TSNode) :
    write_node_record (w :: transfer_buffer) (p + 1) node =
      w :: write_node_record transfer_buffer p node := by
  simp [write_node_record, MarshalPointer, List.set, Nat.add_right_comm]

theorem write_node_record_eq (node : TSNode) :
    ∀ (p : Nat) (transfer_buffer : List Nat), p + 6 ≤ transfer_buffer.length →
      write_node_record transfer_buffer p node =
        transfer_buffer.take p ++ nodeRecord node ++ transfer_buffer.drop (p + 6) := by
  intro p
  induction p with
  | zero =>
    intro b h
    obtain ⟨w0, w1, w2, w3, w4, w5, rest, rfl⟩ := exists_six_words b (by omega)
    rfl
  | succ p ih =>
    intro b h
    cases b with
    | nil => simp at h
    | cons w b =>
      rw [write_node_record_cons, ih b (by simp at h; omega)]
      simp [Nat.add_right_comm]

theorem MarshalNodes.loop_length (E : Engine) (tree : Tree) (nodes : List TSNode) :
    ∀ (transfer_buffer : List Nat) (p : Nat),
      (MarshalNodes.loop E tree nodes transfer_buffer p).2.length =
        transfer_buffer.length := by
  induction nodes with
  | nil => intro b p; rfl
  | cons node rest ih =>
    intro b p
    unfold MarshalNodes.loop
    cases hfind : tree.find node.id with
    | none => simp [ih, write_node_record_length]
    | some cache_entry => simp [ih]

theorem uncachedHandles_length_le (tree : Tree) (nodes : List TSNode) :
    (uncachedHandles tree nodes).length ≤ nodes.length :=
  List.length_filter_le _ _

theorem MarshalNodes.loop_records (E : Engine) (tree : Tree) (nodes : List TSNode) :
    ∀ (transfer_buffer : List Nat) (p : Nat),
      p + 6 * (uncachedHandles tree nodes).length ≤ transfer_buffer.length →
      (MarshalNodes.loop E tree nodes transfer_buffer p).2 =
        transfer_buffer.take p ++ (uncachedHandles tree nodes).flatMap nodeRecord ++
          transfer_buffer.drop (p + 6 * (uncachedHandles tree nodes).length) := by
  induction nodes with
  | nil =>
    intro b p _
    simp [MarshalNodes.loop, uncachedHandles]
  | cons node rest ih =>
    intro b p h
    unfold MarshalNodes.loop
    cases hfind : tree.find node.id with
    | none =>
      have hun : uncachedHandles tree (node :: rest) = node :: uncachedHandles tree rest := by
        simp [uncachedHandles, hfind]
      rw [hun] at h ⊢
      simp only [List.length_cons] at h ⊢
      have hlen := write_node_record_length b p node
      simp only [FIELD_COUNT_PER_NODE]
      rw [ih (write_node_record b p node) (p + 6) (by rw [hlen]; omega),
        write_node_record_eq node p b (by omega)]
      have htake : (b.take p ++ nodeRecord node ++ b.drop (p + 6)).take (p + 6) =
          b.take p ++ nodeRecord node := by
        rw [List.take_append_eq_append_take]
        have hl : (b.take p ++ nodeRecord node).length = p + 6 := by
          simp [nodeRecord, List.length_take]; omega
        rw [hl, Nat.sub_self, List.take_zero, List.append_nil, List.take_of_length_le (by omega)]
      have hdrop : ∀ m, (b.take p ++ nodeRecord node ++ b.drop (p + 6)).drop (p + 6 + m) =
          b.drop (p + 6 + m) := by
        intro m
        have hl : (b.take p ++ nodeRecord node).length = p + 6 := by
          simp [nodeRecord, List.length_take]; omega
        rw [List.drop_append_eq_append_drop, hl, List.drop_of_length_le (by omega),
          List.nil_append, List.drop_drop]
        congr 1
        omega
      rw [htake, hdrop,
        show p + 6 * ((uncachedHandles tree rest).length + 1) =
          p + 6 + 6 * (uncachedHandles tree rest).length by omega]
      simp only [List.flatMap_cons, List.append_assoc]
    | some cache_entry =>
      have hun : uncachedHandles tree (node :: rest) = uncachedHandles tree rest := by
        simp [uncachedHandles, hfind]
      rw [hun] at h ⊢
      exact ih b p h

theorem flatMap_nodeRecord_length (nodes : List TSNode) :
    (nodes.flatMap nodeRecord).length = 6 * nodes.length := by
  induction nodes with
  | nil => rfl
  | cons node rest ih =>
    simp only [List.flatMap_cons, List.length_append, ih, List.length_cons]
    simp [nodeRecord]
    omega

theorem flatMap_nodeRecord_at (nodes : List TSNode) :
    ∀ (k : Nat) (node : TSNode) (rest : List Nat), nodes.get? k = some node →
      ((nodes.flatMap nodeRecord ++ rest).drop (6 * k)).take 6 = nodeRecord node := by
  induction nodes with
  | nil => intro k node rest h; simp at h
  | cons first others ih =>
    intro k node rest h
    cases k with
    | zero =>
      simp only [List.get?_cons_zero, Option.some.injEq] at h
      subst h
      simp [nodeRecord]
    | succ k =>
      simp only [List.get?_cons_succ] at h
      have := ih k node rest h
      rw [List.flatMap_cons, List.append_assoc, show 6 * (k + 1) = 6 + 6 * k by omega,
        ← List.drop_drop]
      simpa [nodeRecord] using this

theorem MarshalNodes_eq_loop (E : Engine) (tree : Tree) (nodes : List TSNode)
    (transfer_buffer : List Nat) (hfit : 6 * nodes.length < 2 ^ 32) :
    MarshalNodes E tree nodes transfer_buffer =
      MarshalNodes.loop E tree nodes (setup_transfer_buffer transfer_buffer nodes.length) 0 := by
  unfold MarshalNodes
  simp only
  rw [Nat.mod_eq_of_lt (by omega), List.take_length]

theorem setup_transfer_buffer_wrapped :
    setup_transfer_buffer [] 715827883 = [0, 0] := by
  unfold setup_transfer_buffer FIELD_COUNT_PER_NODE
  norm_num
  rfl

/-- C23, counterexample. A request for 715827883 records on the empty buffer: the product
`node_count * 6` is `2^32 + 2`, which wraps to 2 in `uint32_t`, so the buffer is set up with
2 words and not with `6 * count`. -/
theorem setup_transfer_buffer_wraps_counterexample :
    715827883 < 2 ^ 32 ∧
    (setup_transfer_buffer [] 715827883).length = 2 ∧
    (setup_transfer_buffer [] 715827883).length ≠
      max ([] : List Nat).length (6 * 715827883) := by
  rw [setup_transfer_buffer_wrapped]
  norm_num

/-- C23, amended. The transfer buffer never shrinks, for any request.  For every request
whose size `6 * count` fits a `uint32_t`, the length of the buffer after
`setup_transfer_buffer` is `max(previous length, 6 * count)`, also along every sequence of
such requests; and for every list of handles with `6 * length < 2^32`, the buffer after
`MarshalNodes` has the length `max(previous length, 6 * length)` and the record of the
`k`-th handle that is not in the cache, at the words `[6k, 6k + 6)`, lies inside it. -/
theorem transfer_buffer_grows_to_fit (E : Engine) (tree : Tree) (nodes : List TSNode)
    (transfer_buffer : List Nat) (counts : List Nat)
    (hcounts : ∀ c ∈ counts, 6 * c < 2 ^ 32) (hfit : 6 * nodes.length < 2 ^ 32) :
    (∀ count, transfer_buffer.length ≤ (setup_transfer_buffer transfer_buffer count).length) ∧
    (∀ count, 6 * count < 2 ^ 32 →
      (setup_transfer_buffer transfer_buffer count).length =
        max transfer_buffer.length (6 * count)) ∧
    (setupSequence transfer_buffer counts).length =
      counts.foldl (fun length c => max length (6 * c)) transfer_buffer.length ∧
    (MarshalNodes E tree nodes transfer_buffer).2.length =
      max transfer_buffer.length (6 * nodes.length) ∧
    (∀ k, k < (uncachedHandles tree nodes).length →
      6 * k + 6 ≤ (MarshalNodes E tree nodes transfer_buffer).2.length) := by
  have hlen : (MarshalNodes E tree nodes transfer_buffer).2.length =
      max transfer_buffer.length (6 * nodes.length) := by
    rw [MarshalNodes_eq_loop E tree nodes transfer_buffer hfit, MarshalNodes.loop_length,
      setup_transfer_buffer_length transfer_buffer nodes.length hfit]
  refine ⟨setup_transfer_buffer_length_le transfer_buffer,
    setup_transfer_buffer_length transfer_buffer,
    setupSequence_length counts transfer_buffer hcounts, hlen, ?_⟩
  intro k hk
  rw [hlen]
  have := uncachedHandles_length_le tree nodes
  omega

theorem transfer_buffer_grows_to_fit_witness :
    ((∀ c ∈ [1, 3, 2], 6 * c < 2 ^ 32) ∧ 6 * [handle7, chainNode 2].length < 2 ^ 32) ∧
    (setupSequence initialBuffer [1, 3, 2]).length = 18 ∧
    ((∀ count, initialBuffer.length ≤ (setup_transfer_buffer initialBuffer count).length) ∧
      (∀ count, 6 * count < 2 ^ 32 →
        (setup_transfer_buffer initialBuffer count).length =
          max initialBuffer.length (6 * count)) ∧
      (setupSequence initialBuffer [1, 3, 2]).length =
        [1, 3, 2].foldl (fun length c => max length (6 * c)) initialBuffer.length ∧
      (MarshalNodes aliasEngine cachedTree [handle7, chainNode 2] initialBuffer).2.length =
        max initialBuffer.length (6 * [handle7, chainNode 2].length) ∧
      (∀ k, k < (uncachedHandles cachedTree [handle7, chainNode 2]).length →
        6 * k + 6 ≤
          (MarshalNodes aliasEngine cachedTree [handle7, chainNode 2] initialBuffer).2.length)) :=
  ⟨⟨by decide, by decide⟩, by decide,
    transfer_buffer_grows_to_fit aliasEngine cachedTree [handle7, chainNode 2] initialBuffer
      [1, 3, 2] (by decide) (by decide)⟩

/-- C29, counterexample. A vector of 715827883 handles, none in the cache, encoded on the
empty buffer: the count fits a `uint32_t` but `node_count * 6` wraps to 2, so the buffer has
2 words after the call; the six stores of the first record go beyond them and the words
`[0, 6)` of the buffer do not hold the record of the first handle. -/
theorem marshalNodes_record_overflow_counterexample :
    manyHandles.length = 715827883 ∧ 715827883 < 2 ^ 32 ∧
    manyHandles.head? = some handle7 ∧ uncachedTree.find handle7.id = none ∧
    (MarshalNodes aliasEngine uncachedTree manyHandles []).2.length = 2 ∧
    ((MarshalNodes aliasEngine uncachedTree manyHandles []).2.drop (6 * 0)).take 6 ≠
      nodeRecord handle7 := by
  have hlen : manyHandles.length = 715827883 := List.length_replicate _ _
  have hhead : manyHandles.head? = some handle7 := by
    have h := @List.head?_replicate _ handle7 715827883
    rw [if_neg (by norm_num)] at h
    exact h
  have hany : ∀ nodes : List TSNode, nodes.length = 715827883 →
      (MarshalNodes aliasEngine uncachedTree nodes []).2.length = 2 := by
    intro nodes hn
    have hmod : (715827883 : Nat) % 2 ^ 32 = 715827883 := by norm_num
    unfold MarshalNodes
    simp only
    rw [MarshalNodes.loop_length, hn, hmod]
    rw [setup_transfer_buffer_wrapped]
    rfl
  have hshort : ∀ words : List Nat, words.length = 2 →
      (words.drop (6 * 0)).take 6 ≠ nodeRecord handle7 := by
    intro words hw h
    have h6 := congrArg List.length h
    rw [List.length_take, List.length_drop, hw] at h6
    simp [nodeRecord] at h6
  exact ⟨hlen, by norm_num, hhead, rfl, hany manyHandles hlen,
    hshort _ (hany manyHandles hlen)⟩

/-- C29, amended. For every list of handles whose six-word records fit a `uint32_t` word
count (`6 * length < 2^32`), the array returned by `MarshalNodes` has one entry per handle
in list order (the cached wrapper when the identity is in the cache of the tree, otherwise
the symbol of the node, or `null` for a null identity), the buffer afterwards starts with
the records of the handles that are not in the cache, consecutively and in list order, and
the record of the `k`-th such handle occupies the words `[6k, 6k + 6)`, whatever its
position in the list. -/
theorem marshalNodes_entries_and_records (E : Engine) (tree : Tree) (nodes : List TSNode)
    (transfer_buffer : List Nat) (hfit : 6 * nodes.length < 2 ^ 32) :
    (MarshalNodes E tree nodes transfer_buffer).1 = nodes.map (marshalledEntry E tree) ∧
    (MarshalNodes E tree nodes transfer_buffer).2 =
      (uncachedHandles tree nodes).flatMap nodeRecord ++
        (setup_transfer_buffer transfer_buffer nodes.length).drop
          (6 * (uncachedHandles tree nodes).length) ∧
    (∀ k node, (uncachedHandles tree nodes).get? k = some node →
      ((MarshalNodes E tree nodes transfer_buffer).2.drop (6 * k)).take 6 =
        nodeRecord node) := by
  have hbuf : (MarshalNodes E tree nodes transfer_buffer).2 =
      (uncachedHandles tree nodes).flatMap nodeRecord ++
        (setup_transfer_buffer transfer_buffer nodes.length).drop
          (6 * (uncachedHandles tree nodes).length) := by
    rw [MarshalNodes_eq_loop E tree nodes transfer_buffer hfit,
      MarshalNodes.loop_records E tree nodes _ 0 (by
        rw [setup_transfer_buffer_length transfer_buffer nodes.length hfit]
        have := uncachedHandles_length_le tree nodes
        omega)]
    simp
  refine ⟨?_, hbuf, ?_⟩
  · rw [MarshalNodes_eq_loop E tree nodes transfer_buffer hfit, MarshalNodes.loop_entries]
  · intro k node hk
    rw [hbuf]
    exact flatMap_nodeRecord_at _ k node _ hk

theorem marshalNodes_entries_and_records_witness :
    6 * [chainNode 2, handle7, chainNode 0, chainNode 3].length < 2 ^ 32 ∧
    MarshalNodes aliasEngine cachedTree [chainNode 2, handle7, chainNode 0, chainNode 3]
        initialBuffer =
      ([.num 1, .obj 100, .null, .num 2],
        [2, 0, 0, 0, 0, 0, 0, 0, 0, 0, 0, 0, 3, 0, 0, 0, 0, 0, 0, 0, 0, 0, 0, 0]) ∧
    ((MarshalNodes aliasEngine cachedTree [chainNode 2, handle7, chainNode 0, chainNode 3]
          initialBuffer).1 =
        [chainNode 2, handle7, chainNode 0, chainNode 3].map
          (marshalledEntry aliasEngine cachedTree) ∧
      (MarshalNodes aliasEngine cachedTree [chainNode 2, handle7, chainNode 0, chainNode 3]
          initialBuffer).2 =
        (uncachedHandles cachedTree
            [chainNode 2, handle7, chainNode 0, chainNode 3]).flatMap nodeRecord ++
          (setup_transfer_buffer initialBuffer
              [chainNode 2, handle7, chainNode 0, chainNode 3].length).drop
            (6 * (uncachedHandles cachedTree
              [chainNode 2, handle7, chainNode 0, chainNode 3]).length) ∧
      (∀ k node,
        (uncachedHandles cachedTree
          [chainNode 2, handle7, chainNode 0, chainNode 3]).get? k = some node →
        ((MarshalNodes aliasEngine cachedTree
            [chainNode 2, handle7, chainNode 0, chainNode 3] initialBuffer).2.drop
          (6 * k)).take 6 = nodeRecord node)) :=
  ⟨by decide, by decide,
    marshalNodes_entries_and_records aliasEngine cachedTree
      [chainNode 2, handle7, chainNode 0, chainNode 3] initialBuffer (by decide)⟩

/-! ### Language validation -/

/-- C24. For every language object holding a language whose reported version is `v`,
`UnwrapLanguage` returns the language, throwing nothing, exactly when
`TREE_SITTER_MIN_COMPATIBLE_LANGUAGE_VERSION <= v <= TREE_SITTER_LANGUAGE_VERSION`; for
every version outside that inclusive range it returns the null pointer with a `RangeError`
pending, whose message names the range and the version, and `setLanguage` on an idle parser
then leaves the engine parser as it was; a value that is not an object and an object
without `instance` are rejected with the `TypeError` "Invalid language". -/
theorem unwrapLanguage_checks_version (ts_language_version : TSLanguage → Nat)
    (min_compatible current : Nat) (language : TSLanguage) (v : JsValue) (self : Parser) :
    ((UnwrapLanguage ts_language_version min_compatible current
        (.object (some (some language)))).1 = some language ↔
      min_compatible ≤ ts_language_version language ∧
        ts_language_version language ≤ current) ∧
    ((min_compatible ≤ ts_language_version language ∧
        ts_language_version language ≤ current) →
      UnwrapLanguage ts_language_version min_compatible current
        (.object (some (some language))) = (some language, none)) ∧
    (¬ (min_compatible ≤ ts_language_version language ∧
        ts_language_version language ≤ current) →
      UnwrapLanguage ts_language_version min_compatible current
          (.object (some (some language))) =
        (none, some { kind := .RangeError,
                      message := "Incompatible language version. Compatible range: " ++
                        toString min_compatible ++ " - " ++ toString current ++ ". Got: " ++
                        toString (ts_language_version language) }) ∧
      (self.is_parsing_async_ = false →
        (Parser.SetLanguage ts_language_version min_compatible current self
          (.object (some (some language)))).parser = self)) ∧
    UnwrapLanguage ts_language_version min_compatible current (.notObject v) =
      (none, some { kind := .TypeError, message := "Invalid language" }) ∧
    UnwrapLanguage ts_language_version min_compatible current (.object none) =
      (none, some { kind := .TypeError, message := "Invalid language" }) := by
  have hin : (min_compatible ≤ ts_language_version language ∧
        ts_language_version language ≤ current) →
      UnwrapLanguage ts_language_version min_compatible current
        (.object (some (some language))) = (some language, none) := by
    intro h
    unfold UnwrapLanguage
    simp only
    rw [if_neg (by omega)]
  have hout : ¬ (min_compatible ≤ ts_language_version language ∧
        ts_language_version language ≤ current) →
      UnwrapLanguage ts_language_version min_compatible current
          (.object (some (some language))) =
        (none, some { kind := .RangeError,
                      message := "Incompatible language version. Compatible range: " ++
                        toString min_compatible ++ " - " ++ toString current ++ ". Got: " ++
                        toString (ts_language_version language) }) := by
    intro h
    unfold UnwrapLanguage
    simp only
    rw [if_pos (by omega)]
  refine ⟨?_, hin, ?_, rfl, rfl⟩
  · constructor
    · intro h
      by_contra hno
      rw [hout hno] at h
      cases h
    · intro h
      rw [hin h]
  · intro hno
    refine ⟨hout hno, ?_⟩
    intro hidle
    unfold Parser.SetLanguage
    rw [hidle, hout hno]
    rfl

/-! ### Flat child enumeration -/

theorem NodeMethods.siblingLoop_eq (keep : TSTreeCursor → Bool) (stack : List CursorEntry)
    (next : Forest) :
    ∀ (node : TSNode) (children : Forest),
      NodeMethods.siblingLoop keep stack node children next =
        ((siblingCursors stack node children next).filter keep).map
          ts_tree_cursor_current_node := by
  induction next with
  | nil =>
    intro node children
    unfold NodeMethods.siblingLoop siblingCursors
    by_cases h : keep { top := { node := node, children := children, next := .nil },
                        stack := stack } = true
    · simp [h, ts_tree_cursor_current_node]
    · simp [h]
  | cons n c nx _ ihnx =>
    intro node children
    unfold NodeMethods.siblingLoop siblingCursors
    rw [ihnx n c]
    by_cases h : keep { top := { node := node, children := children, next := .cons n c nx },
                        stack := stack } = true
    · simp [h, ts_tree_cursor_current_node]
    · simp [h]

theorem NodeMethods.collectChildren_eq (keep : TSTreeCursor → Bool) (t : Subtree) :
    NodeMethods.collectChildren keep t =
      ((childCursors t).filter keep).map ts_tree_cursor_current_node := by
  unfold NodeMethods.collectChildren childCursors
  cases ts_tree_cursor_goto_first_child (ts_tree_cursor_reset t) with
  | none => rfl
  | some c => exact NodeMethods.siblingLoop_eq keep c.stack c.top.next c.top.node c.top.children

/-- C26. For every node, with `children` the vector that `children` collects (the current
node at each cursor position on a child, in sibling order): the vector of `namedChildren`
is exactly the subsequence of `children` of the nodes that are named, the vector of
`childNodesForFieldId(f)` is exactly the current nodes of the cursor positions on the
children whose cursor field id equals `f`, both are subsequences of `children` in the same
sibling order, and each of the three methods returns the encoding of its vector (or
`undefined` for a null identity): `children` the encoding of the vector `children`,
`namedChildren` the encoding of its named nodes, `childNodesForFieldId(f)` the encoding of
the nodes at the positions with field id `f`.  For a node with a non-null identity and
fewer than `2 ^ 32` children, the arrays returned hold one entry per node of the vector,
in order, so that the arrays returned by `namedChildren` and by `childNodesForFieldId(f)`
are subsequences of the array returned by `children`. -/
theorem named_and_field_children_filter_children (E : Engine) (N : NodeEngine) (t : Subtree)
    (field_id : Nat) (tree : Tree) (transfer_buffer : List Nat) :
    NodeMethods.collectChildren (fun _ => true) t =
      (childCursors t).map ts_tree_cursor_current_node ∧
    NodeMethods.collectChildren
        (fun cursor => E.ts_node_is_named (ts_tree_cursor_current_node cursor)) t =
      (NodeMethods.collectChildren (fun _ => true) t).filter E.ts_node_is_named ∧
    NodeMethods.collectChildren
        (fun cursor => N.ts_tree_cursor_current_field_id cursor == field_id % 2 ^ 32) t =
      ((childCursors t).filter
        (fun cursor => N.ts_tree_cursor_current_field_id cursor == field_id % 2 ^ 32)).map
        ts_tree_cursor_current_node ∧
    (NodeMethods.collectChildren
        (fun cursor => E.ts_node_is_named (ts_tree_cursor_current_node cursor)) t).Sublist
      (NodeMethods.collectChildren (fun _ => true) t) ∧
    (NodeMethods.collectChildren
        (fun cursor => N.ts_tree_cursor_current_field_id cursor == field_id % 2 ^ 32)
        t).Sublist
      (NodeMethods.collectChildren (fun _ => true) t) ∧
    NodeMethods.Children E N tree transfer_buffer =
      (if (decodedNode tree transfer_buffer).id = 0 then .undefined transfer_buffer none
       else
        .ofNodes (MarshalNodes E tree
          (NodeMethods.collectChildren (fun _ => true)
            { node := decodedNode tree transfer_buffer,
              children := N.children (decodedNode tree transfer_buffer) })
          transfer_buffer)) ∧
    NodeMethods.NamedChildren E N tree transfer_buffer =
      (if (decodedNode tree transfer_buffer).id = 0 then .undefined transfer_buffer none
       else
        .ofNodes (MarshalNodes E tree
          ((NodeMethods.collectChildren (fun _ => true)
            { node := decodedNode tree transfer_buffer,
              children := N.children (decodedNode tree transfer_buffer) }).filter
            E.ts_node_is_named) transfer_buffer)) ∧
    NodeMethods.ChildNodesForFieldId E N tree (.num field_id) transfer_buffer =
      (if (decodedNode tree transfer_buffer).id = 0 then .undefined transfer_buffer none
       else
        .ofNodes (MarshalNodes E tree
          (((childCursors
              { node := decodedNode tree transfer_buffer,
                children := N.children (decodedNode tree transfer_buffer) }).filter
            (fun cursor =>
              N.ts_tree_cursor_current_field_id cursor == field_id % 2 ^ 32)).map
            ts_tree_cursor_current_node) transfer_buffer)) ∧
    ((decodedNode tree transfer_buffer).id ≠ 0 →
      (childCursors
        { node := decodedNode tree transfer_buffer,
          children := N.children (decodedNode tree transfer_buffer) }).length < 2 ^ 32 →
      (NodeMethods.Children E N tree transfer_buffer).value =
        .array (((childCursors
          { node := decodedNode tree transfer_buffer,
            children := N.children (decodedNode tree transfer_buffer) }).map
          ts_tree_cursor_current_node).map (marshalledEntry E tree)) ∧
      (NodeMethods.NamedChildren E N tree transfer_buffer).value =
        .array ((((childCursors
          { node := decodedNode tree transfer_buffer,
            children := N.children (decodedNode tree transfer_buffer) }).map
          ts_tree_cursor_current_node).filter E.ts_node_is_named).map
          (marshalledEntry E tree)) ∧
      (NodeMethods.ChildNodesForFieldId E N tree (.num field_id) transfer_buffer).value =
        .array ((((childCursors
          { node := decodedNode tree transfer_buffer,
            children := N.children (decodedNode tree transfer_buffer) }).filter
          (fun cursor => N.ts_tree_cursor_current_field_id cursor == field_id % 2 ^ 32)).map
          ts_tree_cursor_current_node).map (marshalledEntry E tree)) ∧
      ((((childCursors
          { node := decodedNode tree transfer_buffer,
            children := N.children (decodedNode tree transfer_buffer) }).map
          ts_tree_cursor_current_node).filter E.ts_node_is_named).map
          (marshalledEntry E tree)).Sublist
        (((childCursors
          { node := decodedNode tree transfer_buffer,
            children := N.children (decodedNode tree transfer_buffer) }).map
          ts_tree_cursor_current_node).map (marshalledEntry E tree)) ∧
      ((((childCursors
          { node := decodedNode tree transfer_buffer,
            children := N.children (decodedNode tree transfer_buffer) }).filter
          (fun cursor => N.ts_tree_cursor_current_field_id cursor == field_id % 2 ^ 32)).map
          ts_tree_cursor_current_node).map (marshalledEntry E tree)).Sublist
        (((childCursors
          { node := decodedNode tree transfer_buffer,
            children := N.children (decodedNode tree transfer_buffer) }).map
          ts_tree_cursor_current_node).map (marshalledEntry E tree))) := by
  have hall : ∀ s : Subtree, NodeMethods.collectChildren (fun _ => true) s =
      (childCursors s).map ts_tree_cursor_current_node := by
    intro s
    rw [NodeMethods.collectChildren_eq]
    simp
  have hnamed : ∀ s : Subtree, NodeMethods.collectChildren
        (fun cursor => E.ts_node_is_named (ts_tree_cursor_current_node cursor)) s =
      (NodeMethods.collectChildren (fun _ => true) s).filter E.ts_node_is_named := by
    intro s
    rw [hall, NodeMethods.collectChildren_eq, List.filter_map]
    rfl
  refine ⟨hall t, hnamed t, NodeMethods.collectChildren_eq _ t, ?_, ?_, ?_, ?_, ?_, ?_⟩
  · rw [hnamed]
    exact List.filter_sublist _
  · rw [hall, NodeMethods.collectChildren_eq]
    exact List.Sublist.map _ (List.filter_sublist _)
  · unfold NodeMethods.Children
    rfl
  · unfold NodeMethods.NamedChildren
    simp only
    rw [hnamed]
  · unfold NodeMethods.ChildNodesForFieldId
    simp only
    rw [NodeMethods.collectChildren_eq]
  · intro hid hcount
    have hentries : ∀ nodes : List TSNode, nodes.length < 2 ^ 32 →
        (MarshalNodes E tree nodes transfer_buffer).1 =
          nodes.map (marshalledEntry E tree) :=
      fun nodes hlen => MarshalNodes_entries E tree nodes transfer_buffer hlen
    refine ⟨?_, ?_, ?_, ?_, ?_⟩
    · unfold NodeMethods.Children
      simp only
      rw [if_neg hid, hall]
      simp only [CallResult.ofNodes]
      rw [hentries _ (by rw [List.length_map]; exact hcount)]
    · unfold NodeMethods.NamedChildren
      simp only
      rw [if_neg hid, hnamed, hall]
      simp only [CallResult.ofNodes]
      rw [hentries _ (lt_of_le_of_lt (List.length_filter_le _ _)
        (by rw [List.length_map]; exact hcount))]
    · unfold NodeMethods.ChildNodesForFieldId
      simp only
      rw [if_neg hid, NodeMethods.collectChildren_eq]
      simp only [CallResult.ofNodes]
      rw [hentries _ (by
        rw [List.length_map]
        exact lt_of_le_of_lt (List.length_filter_le _ _) hcount)]
    · exact List.Sublist.map _ (List.filter_sublist _)
    · exact List.Sublist.map _ (List.Sublist.map _ (List.filter_sublist _))

/-! ### Termination of the descendant search and its exits -/

theorem DescendantsOfType.loop_exit (E : Engine) (symbols : SymbolSet) (sp ep : TSPoint) :
    ∀ (fuel : Nat) (s : SearchState) (found : List TSNode),
      DescendantsOfType.loop E symbols sp ep fuel s = some found →
      ∃ passes final, passes < fuel ∧
        DescendantsOfType.run E symbols sp ep passes s = some final ∧
        DescendantsOfType.iteration E symbols sp ep final = .inr found := by
  intro fuel
  induction fuel with
  | zero => intro s found h; simp [DescendantsOfType.loop] at h
  | succ fuel ih =>
    intro s found h
    rw [DescendantsOfType.loop_succ] at h
    cases hit : DescendantsOfType.iteration E symbols sp ep s with
    | inr result =>
      rw [hit] at h
      simp only [Option.some.injEq] at h
      subst h
      exact ⟨0, s, Nat.succ_pos _, rfl, hit⟩
    | inl s' =>
      rw [hit] at h
      obtain ⟨passes, final, hlt, hrun, hfinal⟩ := ih s' found h
      refine ⟨passes + 1, final, by omega, ?_, hfinal⟩
      simp only [DescendantsOfType.run, hit]
      exact hrun

theorem DescendantsOfType.iteration_exit (E : Engine) (symbols : SymbolSet)
    (sp ep : TSPoint) (s : SearchState) (found : List TSNode)
    (h : DescendantsOfType.iteration E symbols sp ep s = .inr found) :
    DescendantsOfType.leavesAtRangeEnd E sp ep s ∨
      ts_tree_cursor_goto_parent s.cursor = none := by
  obtain ⟨⟨⟨n, c, nx⟩, stack⟩, visited, acc⟩ := s
  cases visited with
  | true =>
    rw [DescendantsOfType.iteration_visited] at h
    cases nx <;> cases stack <;> simp at h
    right; rfl
  | false =>
    rw [DescendantsOfType.iteration_fresh] at h
    by_cases h1 : (E.ts_node_end_point n).le sp = true
    · rw [if_pos h1, DescendantsOfType.iteration_visited] at h
      cases nx <;> cases stack <;> simp at h
      right; rfl
    · rw [if_neg h1] at h
      by_cases h2 : ep.le (E.ts_node_start_point n) = true
      · left
        exact ⟨rfl, by simpa [ts_tree_cursor_current_node] using h1,
          by simpa [ts_tree_cursor_current_node] using h2⟩
      · rw [if_neg h2] at h
        cases c with
        | cons cn cc cnx => simp at h
        | nil =>
          simp only at h
          rw [DescendantsOfType.iteration_visited] at h
          cases nx <;> cases stack <;> simp at h
          right; rfl

theorem DescendantsOfType.iteration_root (E : Engine) (symbols : SymbolSet)
    (sp ep : TSPoint) (root : CursorEntry) (hroot : root.next = .nil) (s s' : SearchState)
    (hs : s.cursor.root = some root)
    (h : DescendantsOfType.iteration E symbols sp ep s = .inl s') :
    s'.cursor.root = some root := by
  obtain ⟨⟨⟨n, c, nx⟩, stack⟩, visited, acc⟩ := s
  have hsibling : ∀ (m : TSNode) (mc mnx : Forest), nx = .cons m mc mnx →
      (TSTreeCursor.mk { node := m, children := mc, next := mnx } stack).root = some root := by
    intro m mc mnx hnx
    cases stack with
    | nil =>
      simp only [TSTreeCursor.root, List.getLast?_singleton, Option.some.injEq] at hs
      subst hs
      simp only at hroot
      rw [hroot] at hnx
      cases hnx
    | cons e r =>
      simp only [TSTreeCursor.root, List.getLast?_cons_cons] at hs ⊢
      exact hs
  have hparent : ∀ (e : CursorEntry) (r : List CursorEntry), stack = e :: r →
      (TSTreeCursor.mk e r).root = some root := by
    intro e r hst
    subst hst
    simp only [TSTreeCursor.root, List.getLast?_cons_cons] at hs ⊢
    exact hs
  have hvisited : ∀ (acc' : List TSNode) (t' : SearchState),
      DescendantsOfType.iteration E symbols sp ep
        { cursor := { top := { node := n, children := c, next := nx }, stack := stack },
          already_visited_children := true, found := acc' } = .inl t' →
      t'.cursor.root = some root := by
    intro acc' t' ht
    rw [DescendantsOfType.iteration_visited] at ht
    cases hnx : nx with
    | cons m mc mnx =>
      rw [hnx] at ht
      simp only [Sum.inl.injEq] at ht
      subst ht
      exact hsibling m mc mnx hnx
    | nil =>
      rw [hnx] at ht
      cases hst : stack with
      | nil => rw [hst] at ht; simp at ht
      | cons e r =>
        rw [hst] at ht
        simp only [Sum.inl.injEq] at ht
        subst ht
        exact hparent e r hst
  cases visited with
  | true => exact hvisited acc s' h
  | false =>
    rw [DescendantsOfType.iteration_fresh] at h
    by_cases h1 : (E.ts_node_end_point n).le sp = true
    · rw [if_pos h1] at h
      exact hvisited acc s' h
    · rw [if_neg h1] at h
      by_cases h2 : ep.le (E.ts_node_start_point n) = true
      · rw [if_pos h2] at h; cases h
      · rw [if_neg h2] at h
        cases hc : c with
        | cons cn cc cnx =>
          rw [hc] at h
          simp only [Sum.inl.injEq] at h
          subst h
          simp only [TSTreeCursor.root, List.getLast?_cons_cons] at hs ⊢
          rw [← hc]
          exact hs
        | nil =>
          rw [hc] at h
          simp only at h
          rw [← hc] at h
          exact hvisited _ s' h

theorem DescendantsOfType.run_root (E : Engine) (symbols : SymbolSet) (sp ep : TSPoint)
    (root : CursorEntry) (hroot : root.next = .nil) :
    ∀ (passes : Nat) (s final : SearchState), s.cursor.root = some root →
      DescendantsOfType.run E symbols sp ep passes s = some final →
      final.cursor.root = some root := by
  intro passes
  induction passes with
  | zero =>
    intro s final hs h
    simp only [DescendantsOfType.run, Option.some.injEq] at h
    subst h
    exact hs
  | succ passes ih =>
    intro s final hs h
    simp only [DescendantsOfType.run] at h
    cases hit : DescendantsOfType.iteration E symbols sp ep s with
    | inr result => rw [hit] at h; cases h
    | inl s' =>
      rw [hit] at h
      exact ih s' final
        (DescendantsOfType.iteration_root E symbols sp ep root hroot s s' hs hit) h

/-- C28. For every tree, start node, symbol set and point range, the `while (true)` loop of
`descendantsOfType` terminates: within `2 * size + 3` passes (`size` the number of proper
descendants of the start node) some pass leaves the loop, so the search yields its vector
`found`; and the pass that leaves it either tests a node that starts at or after the end of
the range, or stands on the start node when `ts_tree_cursor_goto_parent` fails. -/
theorem descendantsOfType_terminates (E : Engine) (symbols : SymbolSet)
    (start_point end_point : TSPoint) (t : Subtree) :
    ∃ passes final found,
      passes < 2 * t.children.size + 3 ∧
      DescendantsOfType.search E symbols start_point end_point t = some found ∧
      DescendantsOfType.run E symbols start_point end_point passes
        { cursor := ts_tree_cursor_reset t, already_visited_children := false, found := [] } =
        some final ∧
      DescendantsOfType.iteration E symbols start_point end_point final = .inr found ∧
      (DescendantsOfType.leavesAtRangeEnd E start_point end_point final ∨
        (ts_tree_cursor_goto_parent final.cursor = none ∧
          ts_tree_cursor_current_node final.cursor = t.node)) := by
  have hsearch := DescendantsOfType.search_eq_walk E symbols start_point end_point t
  have hloop := hsearch
  unfold DescendantsOfType.search at hloop
  obtain ⟨passes, final, hlt, hrun, hfinal⟩ :=
    DescendantsOfType.loop_exit E symbols start_point end_point _ _ _ hloop
  refine ⟨passes, final, _, hlt, hsearch, hrun, hfinal, ?_⟩
  rcases DescendantsOfType.iteration_exit E symbols start_point end_point final _ hfinal
    with h | h
  · exact Or.inl h
  · refine Or.inr ⟨h, ?_⟩
    have hroot := DescendantsOfType.run_root E symbols start_point end_point
      { node := t.node, children := t.children, next := .nil } rfl passes
      { cursor := ts_tree_cursor_reset t, already_visited_children := false, found := [] }
      final rfl hrun
    obtain ⟨⟨top, stack⟩, visited, acc⟩ := final
    cases stack with
    | nil =>
      simp only [TSTreeCursor.root, List.getLast?_singleton, Option.some.injEq] at hroot
      subst hroot
      rfl
    | cons e r => simp [ts_tree_cursor_goto_parent] at h

/-! ### The nodes tested by the descendant search -/

theorem DescendantsOfType.tracedLoop_visited (E : Engine) (symbols : SymbolSet)
    (sp ep : TSPoint) (fuel : Nat) (c : TSTreeCursor) (acc ex : List TSNode) :
    DescendantsOfType.tracedLoop E symbols sp ep (fuel + 1)
        { cursor := c, already_visited_children := true, found := acc } ex =
      match DescendantsOfType.iteration E symbols sp ep
          { cursor := c, already_visited_children := true, found := acc } with
      | .inr found => some (found, ex)
      | .inl s' => DescendantsOfType.tracedLoop E symbols sp ep fuel s' ex := rfl

theorem DescendantsOfType.tracedLoop_fresh (E : Engine) (symbols : SymbolSet)
    (sp ep : TSPoint) (fuel : Nat) (c : TSTreeCursor) (acc ex : List TSNode) :
    DescendantsOfType.tracedLoop E symbols sp ep (fuel + 1)
        { cursor := c, already_visited_children := false, found := acc } ex =
      match DescendantsOfType.iteration E symbols sp ep
          { cursor := c, already_visited_children := false, found := acc } with
      | .inr found => some (found, ex ++ [c.top.node])
      | .inl s' => DescendantsOfType.tracedLoop E symbols sp ep fuel s' (ex ++ [c.top.node]) :=
  rfl

theorem DescendantsOfType.tracedLoop_found (E : Engine) (symbols : SymbolSet)
    (sp ep : TSPoint) :
    ∀ (fuel : Nat) (s : SearchState) (ex : List TSNode),
      (DescendantsOfType.tracedLoop E symbols sp ep fuel s ex).map Prod.fst =
        DescendantsOfType.loop E symbols sp ep fuel s := by
  intro fuel
  induction fuel with
  | zero => intro s ex; rfl
  | succ fuel ih =>
    intro s ex
    unfold DescendantsOfType.tracedLoop DescendantsOfType.loop
    cases DescendantsOfType.iteration E symbols sp ep s with
    | inr found => rfl
    | inl s' => exact ih s' _

/-- The traced loop over a sibling sequence `f`, from a node whose children were already
visited: within `2 * f.size + 1` passes it either is left by the `break` inside `f`, or is
back at the parent; the nodes recorded and the nodes tested are those of the recursive
descriptions. -/
theorem DescendantsOfType.tracedLoop_siblings (E : Engine) (symbols : SymbolSet)
    (sp ep : TSPoint) (f : Forest) :
    ∀ (x : TSNode) (xc : Forest) (pe : CursorEntry) (rest : List CursorEntry)
      (acc ex : List TSNode),
    ∃ k, 1 ≤ k ∧ k ≤ 2 * f.size + 1 ∧ ∀ fuel,
      DescendantsOfType.tracedLoop E symbols sp ep (fuel + k)
        { cursor := { top := { node := x, children := xc, next := f }, stack := pe :: rest },
          already_visited_children := true, found := acc } ex =
      if (walkForest E symbols sp ep f).2 = true then
        some (acc ++ (walkForest E symbols sp ep f).1, ex ++ examinedForest E symbols sp ep f)
      else
        DescendantsOfType.tracedLoop E symbols sp ep fuel
          { cursor := { top := pe, stack := rest }, already_visited_children := true,
            found := acc ++ (walkForest E symbols sp ep f).1 }
          (ex ++ examinedForest E symbols sp ep f) := by
  induction f with
  | nil =>
    intro x xc pe rest acc ex
    refine ⟨1, le_refl _, by simp [Forest.size], fun fuel => ?_⟩
    rw [DescendantsOfType.tracedLoop_visited, DescendantsOfType.iteration_visited]
    simp [walkForest, examinedForest]
  | cons n c nx ihc ihnx =>
    intro x xc pe rest acc ex
    by_cases h1 : (E.ts_node_end_point n).le sp = true
    · obtain ⟨k, hk1, hk2, hk⟩ := ihnx n c pe rest acc (ex ++ [n])
      obtain ⟨k', rfl⟩ : ∃ k', k = k' + 1 := ⟨k - 1, by omega⟩
      refine ⟨k' + 1 + 1, by omega, by simp only [Forest.size]; omega, fun fuel => ?_⟩
      rw [← Nat.add_assoc, DescendantsOfType.tracedLoop_visited,
        DescendantsOfType.iteration_visited]
      simp only
      rw [← Nat.add_assoc, DescendantsOfType.tracedLoop_fresh,
        DescendantsOfType.iteration_fresh, if_pos h1]
      simp only
      rw [← DescendantsOfType.tracedLoop_visited, Nat.add_assoc, hk]
      simp [walkForest, examinedForest, h1]
    · by_cases h2 : ep.le (E.ts_node_start_point n) = true
      · refine ⟨2, by omega, by simp only [Forest.size]; omega, fun fuel => ?_⟩
        rw [show fuel + 2 = fuel + 1 + 1 from rfl, DescendantsOfType.tracedLoop_visited,
          DescendantsOfType.iteration_visited]
        simp only
        rw [DescendantsOfType.tracedLoop_fresh, DescendantsOfType.iteration_fresh, if_neg h1,
          if_pos h2]
        simp [walkForest, examinedForest, h1, h2]
      · cases hc : c with
        | nil =>
          subst hc
          obtain ⟨k, hk1, hk2, hk⟩ := ihnx n .nil pe rest
            (acc ++ if symbols.contains (E.ts_node_symbol n) then [n] else []) (ex ++ [n])
          obtain ⟨k', rfl⟩ : ∃ k', k = k' + 1 := ⟨k - 1, by omega⟩
          refine ⟨k' + 1 + 1, by omega, by simp only [Forest.size]; omega, fun fuel => ?_⟩
          rw [← Nat.add_assoc, DescendantsOfType.tracedLoop_visited,
            DescendantsOfType.iteration_visited]
          simp only
          rw [← Nat.add_assoc, DescendantsOfType.tracedLoop_fresh,
            DescendantsOfType.iteration_fresh, if_neg h1, if_neg h2]
          simp only
          rw [← DescendantsOfType.tracedLoop_visited, Nat.add_assoc, hk]
          simp [walkForest, examinedForest, h1, h2]
        | cons cn cc cnx =>
          rw [← hc]
          obtain ⟨kc, hkc1, hkc2, hkc⟩ := ihc n c { node := n, children := c, next := nx }
            (pe :: rest) (acc ++ if symbols.contains (E.ts_node_symbol n) then [n] else [])
            (ex ++ [n])
          obtain ⟨kc', rfl⟩ : ∃ kc', kc = kc' + 1 := ⟨kc - 1, by omega⟩
          obtain ⟨k, hk1, hk2, hk⟩ := ihnx n c pe rest
            ((acc ++ if symbols.contains (E.ts_node_symbol n) then [n] else []) ++
              (walkForest E symbols sp ep c).1)
            (ex ++ [n] ++ examinedForest E symbols sp ep c)
          refine ⟨k + kc' + 1 + 1, by omega, by simp only [Forest.size]; omega,
            fun fuel => ?_⟩
          have hstep : ∀ m, DescendantsOfType.tracedLoop E symbols sp ep (m + 1 + 1)
              { cursor := { top := { node := x, children := xc, next := .cons n c nx },
                            stack := pe :: rest },
                already_visited_children := true, found := acc } ex =
              DescendantsOfType.tracedLoop E symbols sp ep (m + 1)
                { cursor := { top := { node := n, children := c, next := c },
                              stack := { node := n, children := c, next := nx } :: pe :: rest },
                  already_visited_children := true,
                  found := acc ++ if symbols.contains (E.ts_node_symbol n) then [n] else [] }
                (ex ++ [n]) := by
            intro m
            have hd := DescendantsOfType.tracedLoop_visited E symbols sp ep m
              { top := { node := n, children := c, next := c },
                stack := { node := n, children := c, next := nx } :: pe :: rest }
              (acc ++ if symbols.contains (E.ts_node_symbol n) then [n] else []) (ex ++ [n])
            rw [DescendantsOfType.iteration_visited] at hd
            rw [hd, DescendantsOfType.tracedLoop_visited, DescendantsOfType.iteration_visited]
            simp only
            rw [DescendantsOfType.tracedLoop_fresh, DescendantsOfType.iteration_fresh,
              if_neg h1, if_neg h2]
            simp only [hc]
          rw [show fuel + (k + kc' + 1 + 1) = (fuel + k + kc') + 1 + 1 by omega, hstep,
            show fuel + k + kc' + 1 = (fuel + k) + (kc' + 1) by omega, hkc]
          by_cases hs : (walkForest E symbols sp ep c).2 = true
          · simp [walkForest, examinedForest, h1, h2, hs, List.append_assoc]
          · rw [if_neg hs, hk]
            simp [walkForest, examinedForest, h1, h2, hs, List.append_assoc]

theorem DescendantsOfType.tracedSearch_eq (E : Engine) (symbols : SymbolSet)
    (sp ep : TSPoint) (t : Subtree) :
    DescendantsOfType.tracedLoop E symbols sp ep (2 * t.children.size + 3)
        { cursor := ts_tree_cursor_reset t, already_visited_children := false, found := [] }
        [] =
      some (walkSubtree E symbols sp ep t, examinedSubtree E symbols sp ep t) := by
  obtain ⟨n, c⟩ := t
  unfold walkSubtree examinedSubtree ts_tree_cursor_reset
  simp only
  by_cases h1 : (E.ts_node_end_point n).le sp = true
  · rw [DescendantsOfType.tracedLoop_fresh, DescendantsOfType.iteration_fresh, if_pos h1,
      DescendantsOfType.iteration_visited]
    simp [h1]
  · by_cases h2 : ep.le (E.ts_node_start_point n) = true
    · rw [DescendantsOfType.tracedLoop_fresh, DescendantsOfType.iteration_fresh, if_neg h1,
        if_pos h2]
      simp [h1, h2]
    · cases hc : c with
      | nil =>
        rw [DescendantsOfType.tracedLoop_fresh, DescendantsOfType.iteration_fresh, if_neg h1,
          if_neg h2]
        simp only
        rw [DescendantsOfType.iteration_visited]
        simp [h1, h2, walkForest, examinedForest]
      | cons cn cc cnx =>
        rw [← hc]
        obtain ⟨k, hk1, hk2, hk⟩ := DescendantsOfType.tracedLoop_siblings E symbols sp ep c n c
          { node := n, children := c, next := .nil } []
          ([] ++ if symbols.contains (E.ts_node_symbol n) then [n] else []) ([] ++ [n])
        obtain ⟨k', rfl⟩ : ∃ k', k = k' + 1 := ⟨k - 1, by omega⟩
        have hd := hk (2 * c.size + 3 - (k' + 1))
        rw [show 2 * c.size + 3 - (k' + 1) + (k' + 1) = 2 * c.size + 2 + 1 by omega,
          DescendantsOfType.tracedLoop_visited, DescendantsOfType.iteration_visited] at hd
        rw [DescendantsOfType.tracedLoop_fresh, DescendantsOfType.iteration_fresh, if_neg h1,
          if_neg h2]
        simp only [hc] at hd ⊢
        rw [hd]
        by_cases hs : (walkForest E symbols sp ep (.cons cn cc cnx)).2 = true
        · simp [h1, h2, hs]
        · rw [if_neg hs]
          obtain ⟨m, hm⟩ : ∃ m, 2 * (Forest.cons cn cc cnx).size + 3 - (k' + 1) = m + 1 :=
            ⟨2 * (Forest.cons cn cc cnx).size + 3 - (k' + 1) - 1, by subst hc; omega⟩
          rw [hm, DescendantsOfType.tracedLoop_visited, DescendantsOfType.iteration_visited]
          simp [h1, h2]

theorem examinedForest_sublist_preorder (E : Engine) (symbols : SymbolSet) (sp ep : TSPoint)
    (f : Forest) : (examinedForest E symbols sp ep f).Sublist f.preorder := by
  induction f with
  | nil => exact List.Sublist.refl _
  | cons n c nx ihc ihnx =>
    unfold examinedForest Forest.preorder
    split_ifs
    · exact List.Sublist.cons₂ _ (ihnx.trans (List.sublist_append_right _ _))
    · exact List.Sublist.cons₂ _ (List.nil_sublist _)
    · exact List.Sublist.cons₂ _ (ihc.trans (List.sublist_append_left _ _))
    · exact List.Sublist.cons₂ _ (List.Sublist.append ihc ihnx)

theorem walkForest_sublist_examined (E : Engine) (symbols : SymbolSet) (sp ep : TSPoint)
    (f : Forest) :
    (walkForest E symbols sp ep f).1.Sublist (examinedForest E symbols sp ep f) := by
  have hhere : ∀ n : TSNode, ∀ l1 l2 : List TSNode, l1.Sublist l2 →
      ((if symbols.contains (E.ts_node_symbol n) then [n] else []) ++ l1).Sublist
        (n :: l2) := by
    intro n l1 l2 h
    split_ifs
    · exact List.Sublist.cons₂ _ h
    · exact List.Sublist.cons _ h
  induction f with
  | nil => exact List.Sublist.refl _
  | cons n c nx ihc ihnx =>
    rw [examinedForest, walkForest]
    by_cases h1 : (E.ts_node_end_point n).le sp = true
    · rw [if_pos h1, if_pos h1]
      exact List.Sublist.cons _ ihnx
    · rw [if_neg h1, if_neg h1]
      by_cases h2 : ep.le (E.ts_node_start_point n) = true
      · rw [if_pos h2, if_pos h2]
        exact List.nil_sublist _
      · rw [if_neg h2, if_neg h2]
        simp only
        by_cases hs : (walkForest E symbols sp ep c).2 = true
        · rw [if_pos hs, if_pos hs]
          exact hhere n _ _ ihc
        · rw [if_neg hs, if_neg hs]
          simp only [List.append_assoc]
          exact hhere n _ _ (List.Sublist.append ihc ihnx)

/-- C27. For every tree whose nodes are pairwise distinct handles, every start node, symbol
set and point range: the `descendantsOfType` loop, run together with the record of the
nodes it tests (the current node of each pass entered with the already-visited-children
flag false), ends with a record that is a subsequence of the pre-order listing of the
subtree, so no node is tested twice, neither after its subtree was skipped nor after it
was descended; the result `found` is a subsequence of the tested nodes and contains no
node twice. -/
theorem descendantsOfType_tests_each_node_once (E : Engine) (symbols : SymbolSet)
    (start_point end_point : TSPoint) (t : Subtree) (hdistinct : t.preorder.Nodup) :
    ∃ found examined,
      DescendantsOfType.search E symbols start_point end_point t = some found ∧
      DescendantsOfType.tracedLoop E symbols start_point end_point (2 * t.children.size + 3)
        { cursor := ts_tree_cursor_reset t, already_visited_children := false, found := [] }
        [] = some (found, examined) ∧
      examined.Sublist t.preorder ∧ found.Sublist examined ∧
      examined.Nodup ∧ found.Nodup := by
  have hex : (examinedSubtree E symbols start_point end_point t).Sublist t.preorder := by
    unfold examinedSubtree Subtree.preorder
    split_ifs
    · exact List.Sublist.cons₂ _ (List.nil_sublist _)
    · exact List.Sublist.cons₂ _ (List.nil_sublist _)
    · exact List.Sublist.cons₂ _ (examinedForest_sublist_preorder E symbols _ _ _)
  have hfound : (walkSubtree E symbols start_point end_point t).Sublist
      (examinedSubtree E symbols start_point end_point t) := by
    unfold examinedSubtree walkSubtree
    split_ifs
    · exact List.nil_sublist _
    · exact List.nil_sublist _
    · exact List.Sublist.cons₂ _ (walkForest_sublist_examined E symbols _ _ _)
    · exact List.Sublist.cons _ (walkForest_sublist_examined E symbols _ _ _)
  exact ⟨_, _, DescendantsOfType.search_eq_walk E symbols start_point end_point t,
    DescendantsOfType.tracedSearch_eq E symbols start_point end_point t, hex, hfound,
    hdistinct.sublist hex, hdistinct.sublist (hfound.trans hex)⟩

theorem descendantsOfType_tests_each_node_once_witness :
    chainTree.preorder.Nodup ∧
    DescendantsOfType.tracedLoop chainEngine { symbols := [1] } { row := 0, column := 3 }
        { row := 0, column := 5 } (2 * chainTree.children.size + 3)
        { cursor := ts_tree_cursor_reset chainTree, already_visited_children := false,
          found := [] } [] =
      some ([chainNode 2], [chainNode 1, chainNode 2, chainNode 3]) ∧
    ∃ found examined,
      DescendantsOfType.search chainEngine { symbols := [1] } { row := 0, column := 3 }
        { row := 0, column := 5 } chainTree = some found ∧
      DescendantsOfType.tracedLoop chainEngine { symbols := [1] } { row := 0, column := 3 }
        { row := 0, column := 5 } (2 * chainTree.children.size + 3)
        { cursor := ts_tree_cursor_reset chainTree, already_visited_children := false,
          found := [] } [] = some (found, examined) ∧
      examined.Sublist chainTree.preorder ∧ found.Sublist examined ∧
      examined.Nodup ∧ found.Nodup :=
  ⟨by decide, by decide,
    descendantsOfType_tests_each_node_once chainEngine { symbols := [1] }
      { row := 0, column := 3 } { row := 0, column := 5 } chainTree (by decide)⟩

/-! ### Sequential reads of the slice reader -/

/-- For slices none of which is empty, inside a text addressable by 32-bit byte offsets, a
read of a reachable reader at its expected offset before the end of the text returns the
whole slice under the cursor: a non-empty piece of the concatenated text that starts at
the expected offset, after which the expected offset has advanced by its length. -/
theorem TextBufferInput.Read_before_end (memory : Nat → Nat) (slices : List TextSlice)
    (r : TextBufferInput) (position : TSPoint)
    (hfit : 2 * totalLength slices < 2 ^ 32)
    (hnonempty : ∀ slice ∈ slices, 0 < slice.second)
    (hreach : TextBufferInput.Reachable slices r)
    (hbefore : r.byte_offset / 2 < totalLength slices) :
    ∃ address length, 0 < length ∧
      r.Read r.byte_offset position =
        .ok { data := some address, length := length,
              reader := { r with byte_offset := r.byte_offset + length,
                                 slice_index_ := r.slice_index_ + 1,
                                 slice_offset_ := 0 } } ∧
      unitsAt memory address (length / 2) =
        ((concatenatedText memory slices).drop (r.byte_offset / 2)).take (length / 2) := by
  obtain ⟨hs, hoff, hidx, hbo, hpre, heq⟩ :=
    TextBufferInput.Reachable.consistent slices r hfit hreach
  have hlt : r.slice_index_ < slices.length := by
    rcases Nat.lt_or_ge r.slice_index_ slices.length with h | h
    · exact h
    · have hend : r.slice_index_ = slices.length := by omega
      rw [hend, totalLength_take_length] at hpre
      omega
  obtain ⟨slice, hslice⟩ : ∃ slice, slices.get? r.slice_index_ = some slice :=
    ⟨slices.get ⟨r.slice_index_, hlt⟩, List.get?_eq_get hlt⟩
  have hpos := hnonempty slice (List.get?_mem hslice)
  have hsucc := totalLength_take_succ slices r.slice_index_ slice hslice
  have hle := totalLength_take_le slices (r.slice_index_ + 1)
  have hat := heq hlt
  have h := TextBufferInput.Read_at_cursor r r.byte_offset position slice rfl
    (by rw [hs]; exact hslice) (by omega) (by omega) (by omega)
  rw [hoff] at h
  refine ⟨slice.first + 0, 2 * (slice.second - 0), by omega, h, ?_⟩
  have htext := concatenatedText_slice memory slices r.slice_index_ slice 0 hslice
    (Nat.zero_le _)
  rw [show 2 * (slice.second - 0) / 2 = slice.second - 0 by omega, hat]
  exact htext.symm

theorem concatenatedText_length (memory : Nat → Nat) (slices : List TextSlice) :
    (concatenatedText memory slices).length = totalLength slices := by
  induction slices with
  | nil => rfl
  | cons s rest ih =>
    have hlen : (s.text memory).length = s.second := unitsAt_length memory _ _
    have hcat : concatenatedText memory (s :: rest) =
        s.text memory ++ concatenatedText memory rest := by
      simp [concatenatedText]
    rw [hcat, List.length_append, ih, hlen, totalLength_cons]

/-- Sequential reads of a consistent reader over non-empty slices deliver the concatenated
text from the expected offset on, when one read more than there are slices left is
allowed. -/
theorem TextBufferInput.sequentialReads_consistent (memory : Nat → Nat)
    (slices : List TextSlice) (hfit : 2 * totalLength slices < 2 ^ 32)
    (hnonempty : ∀ slice ∈ slices, 0 < slice.second) :
    ∀ (n : Nat) (r : TextBufferInput) (fuel : Nat), r.consistent slices →
      slices.length - r.slice_index_ = n → n + 1 ≤ fuel →
      TextBufferInput.sequentialReads memory fuel r =
        (concatenatedText memory slices).drop (r.byte_offset / 2) := by
  intro n
  induction n with
  | zero =>
    intro r fuel hr hn hfuel
    obtain ⟨f, rfl⟩ : ∃ f, fuel = f + 1 := ⟨fuel - 1, by omega⟩
    obtain ⟨hs, hoff, hidx, hbo, hpre, heq⟩ := hr
    have hend : r.slice_index_ = r.slices_.length := by rw [hs]; omega
    have hres : r.Read r.byte_offset { row := 0, column := 0 } =
        .ok { data := none, length := 0, reader := r } := by
      unfold TextBufferInput.Read
      simp only [ne_eq, not_true_eq_false, if_false, hend, if_true]
    rw [TextBufferInput.sequentialReads, hres]
    simp only [if_true]
    rw [hs] at hend
    rw [hend, totalLength_take_length] at hpre
    rw [List.drop_eq_nil_of_le (by rw [concatenatedText_length]; exact hpre)]
  | succ n ih =>
    intro r fuel hr hn hfuel
    obtain ⟨f, rfl⟩ : ∃ f, fuel = f + 1 := ⟨fuel - 1, by omega⟩
    have hr' := hr
    obtain ⟨hs, hoff, hidx, hbo, hpre, heq⟩ := hr
    have hlt : r.slice_index_ < slices.length := by omega
    obtain ⟨slice, hslice⟩ : ∃ slice, slices.get? r.slice_index_ = some slice :=
      ⟨slices.get ⟨r.slice_index_, hlt⟩, List.get?_eq_get hlt⟩
    have hpos := hnonempty slice (List.get?_mem hslice)
    have hsucc := totalLength_take_succ slices r.slice_index_ slice hslice
    have hle := totalLength_take_le slices (r.slice_index_ + 1)
    have hat := heq hlt
    have hres := TextBufferInput.Read_at_cursor r r.byte_offset { row := 0, column := 0 }
      slice rfl (by rw [hs]; exact hslice) (by omega) (by omega) (by omega)
    rw [hoff] at hres
    have hnext := TextBufferInput.Read_consistent slices r r.byte_offset
      { row := 0, column := 0 } _ hfit hbo hr' hres
    have htext := concatenatedText_slice memory slices r.slice_index_ slice 0 hslice
      (Nat.zero_le _)
    rw [TextBufferInput.sequentialReads, hres]
    simp only
    rw [if_neg (by omega), ih _ f hnext (by simp only; omega) (by omega)]
    simp only
    have hsplit := List.take_append_drop slice.second
      ((concatenatedText memory slices).drop (totalLength (slices.take r.slice_index_)))
    rw [List.drop_drop] at hsplit
    simp only [Nat.add_zero, Nat.sub_zero] at htext ⊢
    rw [show 2 * slice.second / 2 = slice.second by omega, ← htext, hat,
      show (r.byte_offset + 2 * slice.second) / 2 =
        totalLength (slices.take r.slice_index_) + slice.second by omega]
    exact hsplit

/-- C30 (counterexample). On the slices "hello", "" and " world" (11 code units in all)
the first read, at offset 0, returns the 10 bytes of "hello"; the next read, at the
expected offset 10, stands on the empty slice and returns zero bytes, although
`10 / 2 = 5` is before the end of the text: the slice " world" is not delivered before the
first zero-length read. -/
theorem slice_reader_empty_slice_reads_zero :
    (TextBufferInput.new helloSlices).Read 0 { row := 0, column := 0 } =
      .ok { data := some 100, length := 10,
            reader := { slices_ := helloSlices, byte_offset := 10, slice_index_ := 1,
                        slice_offset_ := 0 } } ∧
    TextBufferInput.Read
        { slices_ := helloSlices, byte_offset := 10, slice_index_ := 1, slice_offset_ := 0 }
        10 { row := 0, column := 10 } =
      .ok { data := some 150, length := 0,
            reader := { slices_ := helloSlices, byte_offset := 10, slice_index_ := 2,
                        slice_offset_ := 0 } } ∧
    10 / 2 < totalLength helloSlices ∧ 2 * totalLength helloSlices < 2 ^ 32 := by
  refine ⟨rfl, rfl, by decide, by decide⟩

/-- C30 (amended). For every sequence of slices none of which is empty and whose text is
addressable by 32-bit byte offsets, in every state that reads at 32-bit offsets can bring
about, a read of the slice reader at its expected running offset returns a result; the
result has zero bytes only if the offset is at or beyond the total length of the slices;
while the offset is before the total length the read returns a non-empty piece of the
concatenated text that starts at the offset, and advances the expected offset by the
length of the piece; and sequential reads from the expected offset on, one more than there
are slices, deliver the concatenated text from that offset on before the first
zero-length read, which for the constructed reader is the whole text. -/
theorem slice_reader_sequential_reads (memory : Nat → Nat) (slices : List TextSlice)
    (r : TextBufferInput) (position : TSPoint)
    (hfit : 2 * totalLength slices < 2 ^ 32)
    (hnonempty : ∀ slice ∈ slices, 0 < slice.second)
    (hreach : TextBufferInput.Reachable slices r) :
    ∃ res, r.Read r.byte_offset position = .ok res ∧
      (res.length = 0 → totalLength slices ≤ r.byte_offset / 2) ∧
      (r.byte_offset / 2 < totalLength slices →
        0 < res.length ∧
        res.reader.byte_offset = r.byte_offset + res.length ∧
        ∃ address, res.data = some address ∧
          unitsAt memory address (res.length / 2) =
            ((concatenatedText memory slices).drop (r.byte_offset / 2)).take
              (res.length / 2)) ∧
      TextBufferInput.sequentialReads memory (slices.length + 1) r =
        (concatenatedText memory slices).drop (r.byte_offset / 2) ∧
      TextBufferInput.sequentialReads memory (slices.length + 1)
          (TextBufferInput.new slices) =
        concatenatedText memory slices := by
  have hseq : ∀ r' : TextBufferInput, TextBufferInput.Reachable slices r' →
      TextBufferInput.sequentialReads memory (slices.length + 1) r' =
        (concatenatedText memory slices).drop (r'.byte_offset / 2) := by
    intro r' hreach'
    have hc := TextBufferInput.Reachable.consistent slices r' hfit hreach'
    exact TextBufferInput.sequentialReads_consistent memory slices hfit hnonempty
      (slices.length - r'.slice_index_) r' (slices.length + 1) hc rfl (by omega)
  have hnew : TextBufferInput.sequentialReads memory (slices.length + 1)
      (TextBufferInput.new slices) = concatenatedText memory slices := by
    rw [hseq _ .constructed]
    simp [TextBufferInput.new]
  by_cases hbefore : r.byte_offset / 2 < totalLength slices
  · obtain ⟨address, length, hpos, hread, htext⟩ :=
      TextBufferInput.Read_before_end memory slices r position hfit hnonempty hreach hbefore
    refine ⟨_, hread, ?_, ?_, hseq r hreach, hnew⟩
    · intro hzero
      simp only at hzero
      omega
    · intro _
      exact ⟨hpos, rfl, address, rfl, htext⟩
  · obtain ⟨hs, hoff, hidx, hbo, hpre, heq⟩ :=
      TextBufferInput.Reachable.consistent slices r hfit hreach
    have hend : r.slice_index_ = r.slices_.length := by
      rw [hs]
      rcases Nat.lt_or_ge r.slice_index_ slices.length with h | h
      · exfalso
        obtain ⟨slice, hslice⟩ : ∃ slice, slices.get? r.slice_index_ = some slice :=
          ⟨slices.get ⟨r.slice_index_, h⟩, List.get?_eq_get h⟩
        have hpos := hnonempty slice (List.get?_mem hslice)
        have hsucc := totalLength_take_succ slices r.slice_index_ slice hslice
        have hle := totalLength_take_le slices (r.slice_index_ + 1)
        have hat := heq h
        omega
      · omega
    refine ⟨{ data := none, length := 0, reader := r }, ?_, ?_, ?_, hseq r hreach, hnew⟩
    · unfold TextBufferInput.Read
      simp only [ne_eq, not_true_eq_false, if_false, hend, if_true]
    · intro _; omega
    · intro h; exact absurd h hbefore

/-- C30 (amended), on the slices "hello" and " world" read from the constructed reader:
the read at offset 0 returns a piece of the text, and the sequential reads deliver the 11
code units of the two slices. -/
theorem slice_reader_sequential_reads_witness :
    2 * totalLength helloWorldSlices < 2 ^ 32 ∧
    (∀ slice ∈ helloWorldSlices, 0 < slice.second) ∧
    ∃ res, (TextBufferInput.new helloWorldSlices).Read 0 { row := 0, column := 0 } =
        .ok res ∧
      (res.length = 0 → totalLength helloWorldSlices ≤ 0 / 2) ∧
      (0 / 2 < totalLength helloWorldSlices →
        0 < res.length ∧
        res.reader.byte_offset = 0 + res.length ∧
        ∃ address, res.data = some address ∧
          unitsAt (fun address => address) address (res.length / 2) =
            ((concatenatedText (fun address => address) helloWorldSlices).drop
              (0 / 2)).take (res.length / 2)) ∧
      TextBufferInput.sequentialReads (fun address => address)
          (helloWorldSlices.length + 1) (TextBufferInput.new helloWorldSlices) =
        (concatenatedText (fun address => address) helloWorldSlices).drop (0 / 2) ∧
      TextBufferInput.sequentialReads (fun address => address)
          (helloWorldSlices.length + 1) (TextBufferInput.new helloWorldSlices) =
        concatenatedText (fun address => address) helloWorldSlices :=
  ⟨by decide, by decide,
    slice_reader_sequential_reads (fun address => address) helloWorldSlices
      (TextBufferInput.new helloWorldSlices) { row := 0, column := 0 } (by decide)
      (by decide) .constructed⟩

/-! ### Property predicates -/

theorem JsObject.lookup_cons_eq (k v : JsValue) (es : List (JsValue × JsValue)) :
    List.lookup k ((k, v) :: es) = some v := by
  rw [List.lookup_cons, beq_self_eq_true]

theorem JsObject.lookup_cons_ne (k' k v : JsValue) (es : List (JsValue × JsValue)) (h : k' ≠ k) :
    List.lookup k' ((k, v) :: es) = List.lookup k' es := by
  rw [List.lookup_cons, beq_eq_false_iff_ne.2 h]

theorem JsObject.lookup_append_new (key value key' : JsValue)
    (o : List (JsValue × JsValue)) (hnew : ∀ kv ∈ o, kv.1 ≠ key) :
    List.lookup key' (o ++ [(key, value)]) =
      if key' = key then some value else List.lookup key' o := by
  induction o with
  | nil =>
    by_cases h : key' = key
    · subst h
      rw [if_pos rfl, List.nil_append, JsObject.lookup_cons_eq]
    · rw [if_neg h, List.nil_append, JsObject.lookup_cons_ne _ _ _ _ h]
  | cons kv rest ih =>
    obtain ⟨a, b⟩ := kv
    have ha : a ≠ key := hnew (a, b) (List.mem_cons_self _ _)
    have ih' := ih (fun kv hkv => hnew kv (List.mem_cons_of_mem _ hkv))
    rw [List.cons_append]
    by_cases h : key' = a
    · subst h
      rw [JsObject.lookup_cons_eq, JsObject.lookup_cons_eq, if_neg ha]
    · rw [JsObject.lookup_cons_ne _ _ _ _ h, JsObject.lookup_cons_ne _ _ _ _ h, ih']

theorem JsObject.lookup_map_existing (key value key' : JsValue)
    (o : List (JsValue × JsValue)) :
    List.lookup key' (o.map (fun kv => if kv.1 == key then (key, value) else kv)) =
      if key' = key then (if ∃ kv ∈ o, kv.1 = key then some value else none)
      else List.lookup key' o := by
  induction o with
  | nil =>
    by_cases h : key' = key
    · rw [if_pos h]; simp
    · rw [if_neg h]; rfl
  | cons kv rest ih =>
    obtain ⟨a, b⟩ := kv
    rw [List.map_cons]
    by_cases ha : a = key
    · subst ha
      have hf : (if ((a, b) : JsValue × JsValue).1 == a then (a, value) else (a, b)) =
          (a, value) := by
        rw [if_pos (beq_self_eq_true _)]
      rw [hf]
      by_cases h : key' = a
      · subst h
        rw [JsObject.lookup_cons_eq, if_pos rfl, if_pos ⟨(key', b), List.mem_cons_self _ _, rfl⟩]
      · rw [JsObject.lookup_cons_ne _ _ _ _ h, ih, if_neg h, if_neg h, JsObject.lookup_cons_ne _ _ _ _ h]
    · have hf : (if ((a, b) : JsValue × JsValue).1 == key then (key, value) else (a, b)) =
          (a, b) := by
        rw [if_neg (by simpa using ha)]
      rw [hf]
      by_cases h : key' = key
      · subst h
        have hne : key' ≠ a := fun h' => ha h'.symm
        rw [JsObject.lookup_cons_ne _ _ _ _ hne, ih, if_pos rfl, if_pos rfl]
        have hiff : (∃ kv ∈ (a, b) :: rest, kv.1 = key') ↔ ∃ kv ∈ rest, kv.1 = key' := by
          constructor
          · rintro ⟨kv, hkv, hk⟩
            rcases List.mem_cons.1 hkv with rfl | hkv
            · exact absurd hk ha
            · exact ⟨kv, hkv, hk⟩
          · rintro ⟨kv, hkv, hk⟩
            exact ⟨kv, List.mem_cons_of_mem _ hkv, hk⟩
        by_cases hex : ∃ kv ∈ rest, kv.1 = key'
        · rw [if_pos hex, if_pos (hiff.2 hex)]
        · rw [if_neg hex, if_neg (fun h' => hex (hiff.1 h'))]
      · rw [if_neg h]
        by_cases h2 : key' = a
        · subst h2
          rw [JsObject.lookup_cons_eq, JsObject.lookup_cons_eq]
        · rw [JsObject.lookup_cons_ne _ _ _ _ h2, JsObject.lookup_cons_ne _ _ _ _ h2, ih, if_neg h]

/-- A store leaves the own properties with other keys as they are, whatever the key. -/
theorem JsObject.lookup_set_other (o : JsObject) (key value key' : JsValue)
    (hne : key' ≠ key) :
    List.lookup key' (JsObject.set o key value).properties = List.lookup key' o.properties := by
  unfold JsObject.set
  by_cases hany : o.properties.any (fun kv => kv.1 == key) = true
  · rw [if_pos hany]
    simp only
    rw [JsObject.lookup_map_existing, if_neg hne]
  · rw [if_neg hany]
    by_cases hproto : key = .str "__proto__" ∧ o.nullPrototype = false
    · rw [if_pos hproto]
      by_cases hnull : value = .null
      · rw [if_pos hnull]
      · rw [if_neg hnull]
    · rw [if_neg hproto]
      simp only
      rw [JsObject.lookup_append_new key value key' o.properties, if_neg hne]
      intro kv hkv hk
      apply hany
      exact List.any_eq_true.2 ⟨kv, hkv, by simpa using hk⟩

/-- A store under a key other than `__proto__` makes the value the own property of the
key. -/
theorem JsObject.lookup_set_self (o : JsObject) (key value : JsValue)
    (hkey : key ≠ .str "__proto__") :
    List.lookup key (JsObject.set o key value).properties = some value := by
  unfold JsObject.set
  by_cases hany : o.properties.any (fun kv => kv.1 == key) = true
  · rw [if_pos hany]
    simp only
    rw [JsObject.lookup_map_existing, if_pos rfl]
    have hex : ∃ kv ∈ o.properties, kv.1 = key := by
      obtain ⟨kv, hkv, hk⟩ := List.any_eq_true.1 hany
      exact ⟨kv, hkv, by simpa using hk⟩
    rw [if_pos hex]
  · rw [if_neg hany, if_neg (fun h => hkey h.1)]
    simp only
    rw [JsObject.lookup_append_new key value key o.properties, if_pos rfl]
    intro kv hkv hk
    apply hany
    exact List.any_eq_true.2 ⟨kv, hkv, by simpa using hk⟩

theorem setPatternProperty_length (properties : List (Option JsObject)) (i : Nat)
    (key value : JsValue) :
    (setPatternProperty properties i key value).length = properties.length := by
  simp [setPatternProperty]

theorem propertyAt_set_self (properties : List (Option JsObject)) (i : Nat)
    (key value : JsValue) (hi : i < properties.length) (hkey : key ≠ .str "__proto__") :
    propertyAt (setPatternProperty properties i key value) i key = some value := by
  unfold propertyAt setPatternProperty
  rw [List.getD_eq_getElem?_getD, List.getElem?_set_self hi]
  simp only [Option.getD_some]
  exact JsObject.lookup_set_self _ key value hkey

theorem propertyAt_set_other (properties : List (Option JsObject)) (i i' : Nat)
    (key value key' : JsValue) (hne : i' ≠ i ∨ key' ≠ key) :
    propertyAt (setPatternProperty properties i key value) i' key' =
      propertyAt properties i' key' := by
  unfold propertyAt setPatternProperty
  by_cases hi : i' = i
  · subst hi
    have hk : key' ≠ key := by
      rcases hne with h | h
      · exact absurd rfl h
      · exact h
    by_cases hlen : i' < properties.length
    · rw [List.getD_eq_getElem?_getD, List.getElem?_set_self hlen]
      simp only [Option.getD_some]
      rw [JsObject.lookup_set_other _ key value key' hk, List.getD_eq_getElem?_getD]
    · rw [List.set_eq_of_length_le (by omega)]
  · rw [List.getD_eq_getElem?_getD, List.getElem?_set_ne (Ne.symm hi),
      ← List.getD_eq_getElem?_getD]

theorem BuildPredicates.eqBranch_properties (st st' : BuildState) (opCode : String)
    (stepsLength argType1 argType2 : Nat) (argVal1 argVal2 : JsValue)
    (h : BuildPredicates.eqBranch st opCode stepsLength argType1 argType2 argVal1 argVal2 =
      .ok st') (m : PropertyMap) : st'.properties m = st.properties m := by
  unfold BuildPredicates.eqBranch at h
  by_cases h3 : stepsLength ≠ 3
  · rw [if_pos h3] at h; simp only [reduceCtorEq] at h
  · rw [if_neg h3, Except.ok.injEq] at h
    subst h
    cases m <;> rfl

theorem BuildPredicates.matchBranch_properties (RegExp : JsValue → Option JsValue)
    (st st' : BuildState) (stepsLength argType1 argType2 : Nat) (argVal1 argVal2 : JsValue)
    (h : BuildPredicates.matchBranch RegExp st stepsLength argType1 argType2 argVal1 argVal2 =
      .ok st') (m : PropertyMap) : st'.properties m = st.properties m := by
  unfold BuildPredicates.matchBranch at h
  by_cases h3 : stepsLength ≠ 3
  · rw [if_pos h3] at h; simp only [reduceCtorEq] at h
  · rw [if_neg h3] at h
    by_cases h1 : argType1 ≠ TSQueryPredicateStepTypeCapture
    · rw [if_pos h1] at h; simp only [reduceCtorEq] at h
    · rw [if_neg h1] at h
      by_cases h2 : argType2 ≠ TSQueryPredicateStepTypeString
      · rw [if_pos h2] at h; simp only [reduceCtorEq] at h
      · rw [if_neg h2] at h
        cases hr : RegExp argVal2 with
        | some pattern =>
          rw [hr] at h
          simp only [Except.ok.injEq] at h
          subst h
          cases m <;> rfl
        | none =>
          rw [hr] at h
          simp only [Except.ok.injEq] at h
          subst h
          cases m <;> rfl

theorem BuildPredicates.setBranch_ok (i : Nat) (st st' : BuildState)
    (steps : List JsValue) (stepsLength argType2 : Nat) (argVal1 argVal2 : JsValue)
    (h : BuildPredicates.setBranch i st steps stepsLength argType2 argVal1 argVal2 = .ok st') :
    st' = { st with
            setProperties := setPatternProperty st.setProperties i argVal1
              (if argType2 ≠ 0 then argVal2 else .null) } := by
  unfold BuildPredicates.setBranch at h
  by_cases h3 : stepsLength ≠ 2 ∧ stepsLength ≠ 3
  · rw [if_pos h3] at h; simp only [reduceCtorEq] at h
  · rw [if_neg h3] at h
    by_cases hc : operandCheckPasses steps stepsLength = false
    · rw [if_pos hc] at h; simp only [reduceCtorEq] at h
    · rw [if_neg hc, Except.ok.injEq] at h
      exact h.symm

theorem BuildPredicates.isBranch_ok (i : Nat) (st st' : BuildState) (opCode : String)
    (steps : List JsValue) (stepsLength argType2 : Nat) (argVal1 argVal2 : JsValue)
    (h : BuildPredicates.isBranch i st opCode steps stepsLength argType2 argVal1 argVal2 =
      .ok st') :
    st' =
      if opCode = "is?" then
        { st with
          assertedProperties := setPatternProperty st.assertedProperties i argVal1
            (if argType2 ≠ 0 then argVal2 else .null) }
      else
        { st with
          refutedProperties := setPatternProperty st.refutedProperties i argVal1
            (if argType2 ≠ 0 then argVal2 else .null) } := by
  unfold BuildPredicates.isBranch at h
  by_cases h3 : stepsLength ≠ 2 ∧ stepsLength ≠ 3
  · rw [if_pos h3] at h; simp only [reduceCtorEq] at h
  · rw [if_neg h3] at h
    by_cases hc : operandCheckPasses steps stepsLength = false
    · rw [if_pos hc] at h; simp only [reduceCtorEq] at h
    · rw [if_neg hc] at h
      by_cases ho : opCode = "is?"
      · rw [if_pos ho, Except.ok.injEq] at h
        rw [if_pos ho]
        exact h.symm
      · rw [if_neg ho, Except.ok.injEq] at h
        rw [if_neg ho]
        exact h.symm

/-- The effect of one compiled predicate on a property table: the table written by the
predicate receives the key with the value operand (or the null marker) at the pattern's
index; every other table is left as it was. -/
theorem BuildPredicates.predicate_properties (RegExp : JsValue → Option JsValue) (i : Nat)
    (st st' : BuildState) (steps : List JsValue)
    (h : BuildPredicates.predicate RegExp i st steps = .ok st') (m : PropertyMap) :
    st'.properties m =
      if propertyMapOf steps = some m then
        setPatternProperty (st.properties m) i (jsGet steps 3)
          (if (jsGet steps 4).toUint32 ≠ 0 then jsGet steps 5 else .null)
      else st.properties m := by
  unfold BuildPredicates.predicate at h
  by_cases h0 : (jsGet steps 0).toUint32 ≠ TSQueryPredicateStepTypeString
  · rw [if_pos h0] at h; simp only [reduceCtorEq] at h
  · rw [if_neg h0] at h
    by_cases h1 : (jsGet steps 1).toStr = "not-eq?" ∨ (jsGet steps 1).toStr = "eq?"
    · rw [if_pos h1] at h
      have hnone : propertyMapOf steps = none := by
        unfold propertyMapOf
        rw [if_neg h0]
        rcases h1 with h1 | h1 <;> rw [h1] <;>
          rw [if_neg (by decide), if_neg (by decide), if_neg (by decide)]
      rw [hnone, if_neg (by simp only [reduceCtorEq, not_false_eq_true])]
      exact BuildPredicates.eqBranch_properties _ _ _ _ _ _ _ _ h m
    · rw [if_neg h1] at h
      by_cases h2 : (jsGet steps 1).toStr = "match?"
      · rw [if_pos h2] at h
        have hnone : propertyMapOf steps = none := by
          unfold propertyMapOf
          rw [if_neg h0, h2, if_neg (by decide), if_neg (by decide), if_neg (by decide)]
        rw [hnone, if_neg (by simp only [reduceCtorEq, not_false_eq_true])]
        exact BuildPredicates.matchBranch_properties _ _ _ _ _ _ _ _ h m
      · rw [if_neg h2] at h
        by_cases h3 : (jsGet steps 1).toStr = "set!"
        · rw [if_pos h3] at h
          have hmap : propertyMapOf steps = some .set := by
            unfold propertyMapOf
            rw [if_neg h0, if_pos h3]
          rw [hmap, BuildPredicates.setBranch_ok _ _ _ _ _ _ _ _ h]
          cases m
          · rw [if_pos rfl]; rfl
          · rw [if_neg (show ¬ (some PropertyMap.set = some PropertyMap.asserted) by decide)]; rfl
          · rw [if_neg (show ¬ (some PropertyMap.set = some PropertyMap.refuted) by decide)]; rfl
        · rw [if_neg h3] at h
          by_cases h4 : (jsGet steps 1).toStr = "is?" ∨ (jsGet steps 1).toStr = "is-not?"
          · rw [if_pos h4] at h
            have hst := BuildPredicates.isBranch_ok _ _ _ _ _ _ _ _ _ h
            by_cases h5 : (jsGet steps 1).toStr = "is?"
            · have hmap : propertyMapOf steps = some .asserted := by
                unfold propertyMapOf
                rw [if_neg h0, if_neg h3, if_pos h5]
              rw [if_pos h5] at hst
              rw [hmap, hst]
              cases m
              · rw [if_neg (show ¬ (some PropertyMap.asserted = some PropertyMap.set) by decide)]; rfl
              · rw [if_pos rfl]; rfl
              · rw [if_neg (show ¬ (some PropertyMap.asserted = some PropertyMap.refuted) by decide)]; rfl
            · have h6 : (jsGet steps 1).toStr = "is-not?" := by
                rcases h4 with h4 | h4
                · exact absurd h4 h5
                · exact h4
              have hmap : propertyMapOf steps = some .refuted := by
                unfold propertyMapOf
                rw [if_neg h0, if_neg h3, if_neg h5, if_pos h6]
              rw [if_neg h5] at hst
              rw [hmap, hst]
              cases m
              · rw [if_neg (show ¬ (some PropertyMap.refuted = some PropertyMap.set) by decide)]; rfl
              · rw [if_neg (show ¬ (some PropertyMap.refuted = some PropertyMap.asserted) by decide)]; rfl
              · rw [if_pos rfl]; rfl
          · rw [if_neg h4] at h; simp only [reduceCtorEq] at h

theorem BuildPredicates.predicate_properties_length (RegExp : JsValue → Option JsValue)
    (i : Nat) (st st' : BuildState) (steps : List JsValue)
    (h : BuildPredicates.predicate RegExp i st steps = .ok st') (m : PropertyMap) :
    (st'.properties m).length = (st.properties m).length := by
  rw [BuildPredicates.predicate_properties RegExp i st st' steps h m]
  split
  · exact setPatternProperty_length _ _ _ _
  · rfl

theorem BuildPredicates.predicate_frame (RegExp : JsValue → Option JsValue)
    (i : Nat) (st st' : BuildState) (steps : List JsValue)
    (h : BuildPredicates.predicate RegExp i st steps = .ok st') (m : PropertyMap)
    (i' : Nat) (key : JsValue) (hframe : i' ≠ i ∨ ¬ writesProperty m key steps) :
    propertyAt (st'.properties m) i' key = propertyAt (st.properties m) i' key := by
  rw [BuildPredicates.predicate_properties RegExp i st st' steps h m]
  by_cases hw : propertyMapOf steps = some m
  · rw [if_pos hw]
    apply propertyAt_set_other
    rcases hframe with h1 | h1
    · exact Or.inl h1
    · exact Or.inr (fun hk => h1 ⟨hw, hk.symm⟩)
  · rw [if_neg hw]

theorem BuildPredicates.predicate_sets (RegExp : JsValue → Option JsValue)
    (i : Nat) (st st' : BuildState) (steps : List JsValue)
    (h : BuildPredicates.predicate RegExp i st steps = .ok st') (m : PropertyMap)
    (hw : propertyMapOf steps = some m) (hi : i < (st.properties m).length)
    (hkey : jsGet steps 3 ≠ .str "__proto__") :
    propertyAt (st'.properties m) i (jsGet steps 3) = some (storedValue steps) := by
  rw [BuildPredicates.predicate_properties RegExp i st st' steps h m, if_pos hw]
  exact propertyAt_set_self _ _ _ _ hi hkey

theorem BuildPredicates.description_properties_length (RegExp : JsValue → Option JsValue)
    (i : Nat) (m : PropertyMap) (description : List (List JsValue)) :
    ∀ st st' : BuildState, BuildPredicates.description RegExp i st description = .ok st' →
      (st'.properties m).length = (st.properties m).length := by
  induction description with
  | nil =>
    intro st st' h
    unfold BuildPredicates.description at h
    rw [Except.ok.injEq] at h
    rw [h]
  | cons steps rest ih =>
    intro st st' h
    unfold BuildPredicates.description at h
    cases hp : BuildPredicates.predicate RegExp i st steps with
    | error e => rw [hp] at h; simp only [reduceCtorEq] at h
    | ok st1 =>
      rw [hp] at h
      rw [ih st1 st' h, BuildPredicates.predicate_properties_length RegExp i st st1 steps hp m]

theorem BuildPredicates.description_frame (RegExp : JsValue → Option JsValue)
    (i : Nat) (m : PropertyMap) (i' : Nat) (key : JsValue)
    (description : List (List JsValue)) :
    ∀ st st' : BuildState, BuildPredicates.description RegExp i st description = .ok st' →
      (i' ≠ i ∨ ∀ steps ∈ description, ¬ writesProperty m key steps) →
      propertyAt (st'.properties m) i' key = propertyAt (st.properties m) i' key := by
  induction description with
  | nil =>
    intro st st' h _
    unfold BuildPredicates.description at h
    rw [Except.ok.injEq] at h
    rw [h]
  | cons steps rest ih =>
    intro st st' h hframe
    unfold BuildPredicates.description at h
    cases hp : BuildPredicates.predicate RegExp i st steps with
    | error e => rw [hp] at h; simp only [reduceCtorEq] at h
    | ok st1 =>
      rw [hp] at h
      rw [ih st1 st' h (by
        rcases hframe with h1 | h1
        · exact Or.inl h1
        · exact Or.inr (fun s hs => h1 s (List.mem_cons_of_mem _ hs)))]
      apply BuildPredicates.predicate_frame RegExp i st st1 steps hp
      rcases hframe with h1 | h1
      · exact Or.inl h1
      · exact Or.inr (h1 steps (List.mem_cons_self _ _))

theorem BuildPredicates.description_sets (RegExp : JsValue → Option JsValue)
    (i : Nat) (m : PropertyMap) (steps : List JsValue)
    (description : List (List JsValue)) :
    ∀ (j : Nat) (st st' : BuildState),
      BuildPredicates.description RegExp i st description = .ok st' →
      description.get? j = some steps → propertyMapOf steps = some m →
      (∀ j' later, j < j' → description.get? j' = some later →
        ¬ writesProperty m (jsGet steps 3) later) →
      i < (st.properties m).length → jsGet steps 3 ≠ .str "__proto__" →
      propertyAt (st'.properties m) i (jsGet steps 3) = some (storedValue steps) := by
  induction description with
  | nil => intro j st st' _ hj; simp at hj
  | cons first rest ih =>
    intro j st st' h hj hw hlast hi hkey
    unfold BuildPredicates.description at h
    cases hp : BuildPredicates.predicate RegExp i st first with
    | error e => rw [hp] at h; simp only [reduceCtorEq] at h
    | ok st1 =>
      rw [hp] at h
      cases j with
      | zero =>
        simp only [List.get?_cons_zero, Option.some.injEq] at hj
        subst hj
        rw [BuildPredicates.description_frame RegExp i m i (jsGet first 3) rest st1 st' h
          (Or.inr (fun s hs => by
            obtain ⟨n, hn⟩ := List.get?_of_mem hs
            exact hlast (n + 1) s (Nat.succ_pos _) (by simpa using hn)))]
        exact BuildPredicates.predicate_sets RegExp i st st1 first hp m hw hi hkey
      | succ j =>
        simp only [List.get?_cons_succ] at hj
        apply ih j st1 st' h hj hw
        · intro j' later hlt hget
          exact hlast (j' + 1) later (by omega) (by simpa using hget)
        · rw [BuildPredicates.predicate_properties_length RegExp i st st1 first hp m]
          exact hi
        · exact hkey

theorem BuildPredicates.descriptions_properties_length (RegExp : JsValue → Option JsValue)
    (m : PropertyMap) (descriptions : List (List (List JsValue))) :
    ∀ (i : Nat) (st st' : BuildState),
      BuildPredicates.descriptions RegExp i st descriptions = .ok st' →
      (st'.properties m).length = (st.properties m).length := by
  induction descriptions with
  | nil =>
    intro i st st' h
    unfold BuildPredicates.descriptions at h
    rw [Except.ok.injEq] at h
    rw [h]
  | cons description rest ih =>
    intro i st st' h
    unfold BuildPredicates.descriptions at h
    cases hd : BuildPredicates.description RegExp i { st with predicate := [] }
        description with
    | error e => rw [hd] at h; simp only [reduceCtorEq] at h
    | ok st1 =>
      rw [hd] at h
      have h1 := BuildPredicates.description_properties_length RegExp i m description _ st1 hd
      have h2 := ih (i + 1) _ st' h
      rw [h2]
      cases m <;> exact h1

theorem BuildPredicates.descriptions_frame (RegExp : JsValue → Option JsValue)
    (m : PropertyMap) (i' : Nat) (key : JsValue)
    (descriptions : List (List (List JsValue))) :
    ∀ (i : Nat) (st st' : BuildState),
      BuildPredicates.descriptions RegExp i st descriptions = .ok st' → i' < i →
      propertyAt (st'.properties m) i' key = propertyAt (st.properties m) i' key := by
  induction descriptions with
  | nil =>
    intro i st st' h _
    unfold BuildPredicates.descriptions at h
    rw [Except.ok.injEq] at h
    rw [h]
  | cons description rest ih =>
    intro i st st' h hlt
    unfold BuildPredicates.descriptions at h
    cases hd : BuildPredicates.description RegExp i { st with predicate := [] }
        description with
    | error e => rw [hd] at h; simp only [reduceCtorEq] at h
    | ok st1 =>
      rw [hd] at h
      have h1 := BuildPredicates.description_frame RegExp i m i' key description _ st1 hd
        (Or.inl (by omega))
      have h2 := ih (i + 1) _ st' h (by omega)
      rw [h2]
      cases m <;> exact h1

theorem BuildPredicates.descriptions_sets (RegExp : JsValue → Option JsValue)
    (m : PropertyMap) (steps : List JsValue) (description : List (List JsValue)) (j : Nat)
    (hj : description.get? j = some steps) (hw : propertyMapOf steps = some m)
    (hlast : ∀ j' later, j < j' → description.get? j' = some later →
      ¬ writesProperty m (jsGet steps 3) later)
    (hkey : jsGet steps 3 ≠ .str "__proto__")
    (descriptions : List (List (List JsValue))) :
    ∀ (n i : Nat) (st st' : BuildState),
      BuildPredicates.descriptions RegExp i st descriptions = .ok st' →
      descriptions.get? n = some description →
      i + n < (st.properties m).length →
      propertyAt (st'.properties m) (i + n) (jsGet steps 3) = some (storedValue steps) := by
  induction descriptions with
  | nil => intro n i st st' _ hn; simp at hn
  | cons first rest ih =>
    intro n i st st' h hn hlen
    unfold BuildPredicates.descriptions at h
    cases hd : BuildPredicates.description RegExp i { st with predicate := [] } first with
    | error e => rw [hd] at h; simp only [reduceCtorEq] at h
    | ok st1 =>
      rw [hd] at h
      have hlen1 := BuildPredicates.description_properties_length RegExp i m first _ st1 hd
      cases n with
      | zero =>
        simp only [List.get?_cons_zero, Option.some.injEq] at hn
        subst hn
        have hset := BuildPredicates.description_sets RegExp i m steps first j _ st1 hd hj hw
          hlast (by cases m <;> exact (by simpa using hlen)) hkey
        have hframe := BuildPredicates.descriptions_frame RegExp m i (jsGet steps 3) rest
          (i + 1) _ st' h (by omega)
        rw [Nat.add_zero, hframe]
        cases m <;> exact hset
      | succ n =>
        simp only [List.get?_cons_succ] at hn
        have := ih n (i + 1) _ st' h hn (by
          have hl : ((({ st1 with
              predicates := st1.predicates.set i (some st1.predicate) } :
              BuildState)).properties m).length = (st.properties m).length := by
            cases m <;> exact hlen1
          rw [hl]
          omega)
        rw [show i + (n + 1) = i + 1 + n by omega]
        exact this

theorem BuildPredicates.predicate_set (RegExp : JsValue → Option JsValue) (i : Nat)
    (st : BuildState) (steps : List JsValue)
    (h0 : (jsGet steps 0).toUint32 = TSQueryPredicateStepTypeString)
    (h1 : (jsGet steps 1).toStr = "set!")
    (hlen : steps.length / 2 = 2 ∨ steps.length / 2 = 3)
    (hcheck : operandCheckPasses steps (steps.length / 2) = true) :
    BuildPredicates.predicate RegExp i st steps =
      .ok { st with
            setProperties :=
              setPatternProperty st.setProperties i (jsGet steps 3) (storedValue steps) } := by
  unfold BuildPredicates.predicate
  rw [if_neg (not_not.2 h0), if_neg (by rw [h1]; decide), if_neg (by rw [h1]; decide),
    if_pos h1]
  unfold BuildPredicates.setBranch
  rw [if_neg (by omega), if_neg (by rw [hcheck]; decide)]
  rfl

theorem BuildPredicates.predicate_is (RegExp : JsValue → Option JsValue) (i : Nat)
    (st : BuildState) (steps : List JsValue)
    (h0 : (jsGet steps 0).toUint32 = TSQueryPredicateStepTypeString)
    (h1 : (jsGet steps 1).toStr = "is?")
    (hlen : steps.length / 2 = 2 ∨ steps.length / 2 = 3)
    (hcheck : operandCheckPasses steps (steps.length / 2) = true) :
    BuildPredicates.predicate RegExp i st steps =
      .ok { st with
            assertedProperties :=
              setPatternProperty st.assertedProperties i (jsGet steps 3)
                (storedValue steps) } := by
  unfold BuildPredicates.predicate
  rw [if_neg (not_not.2 h0), if_neg (by rw [h1]; decide), if_neg (by rw [h1]; decide),
    if_neg (by rw [h1]; decide), if_pos (Or.inl h1)]
  unfold BuildPredicates.isBranch
  rw [if_neg (by omega), if_neg (by rw [hcheck]; decide), if_pos h1]
  rfl

theorem BuildPredicates.predicate_is_not (RegExp : JsValue → Option JsValue) (i : Nat)
    (st : BuildState) (steps : List JsValue)
    (h0 : (jsGet steps 0).toUint32 = TSQueryPredicateStepTypeString)
    (h1 : (jsGet steps 1).toStr = "is-not?")
    (hlen : steps.length / 2 = 2 ∨ steps.length / 2 = 3)
    (hcheck : operandCheckPasses steps (steps.length / 2) = true) :
    BuildPredicates.predicate RegExp i st steps =
      .ok { st with
            refutedProperties :=
              setPatternProperty st.refutedProperties i (jsGet steps 3)
                (storedValue steps) } := by
  unfold BuildPredicates.predicate
  rw [if_neg (not_not.2 h0), if_neg (by rw [h1]; decide), if_neg (by rw [h1]; decide),
    if_neg (by rw [h1]; decide), if_pos (Or.inr h1)]
  unfold BuildPredicates.isBranch
  rw [if_neg (by omega), if_neg (by rw [hcheck]; decide), if_neg (by rw [h1]; decide)]
  rfl

theorem propertyPredicate_facts (m : PropertyMap) (key : String) (value : Option String) :
    (jsGet (propertyPredicate m.opCode key value) 0).toUint32 =
      TSQueryPredicateStepTypeString ∧
    (jsGet (propertyPredicate m.opCode key value) 1).toStr = m.opCode ∧
    ((propertyPredicate m.opCode key value).length / 2 = 2 ∨
      (propertyPredicate m.opCode key value).length / 2 = 3) ∧
    operandCheckPasses (propertyPredicate m.opCode key value)
      ((propertyPredicate m.opCode key value).length / 2) = true ∧
    jsGet (propertyPredicate m.opCode key value) 3 = .str key ∧
    storedValue (propertyPredicate m.opCode key value) = propertyValue value := by
  cases value with
  | none =>
    have hlen : (propertyPredicate m.opCode key none).length / 2 = 2 := by
      simp [propertyPredicate]
    refine ⟨rfl, rfl, Or.inl hlen, ?_, rfl, rfl⟩
    rw [hlen]
    rfl
  | some v =>
    have hlen : (propertyPredicate m.opCode key (some v)).length / 2 = 3 := by
      simp [propertyPredicate]
    refine ⟨rfl, rfl, Or.inr hlen, ?_, rfl, rfl⟩
    rw [hlen]
    rfl

theorem propertyMapOf_propertyPredicate (m : PropertyMap) (key : String)
    (value : Option String) :
    propertyMapOf (propertyPredicate m.opCode key value) = some m := by
  obtain ⟨h0, h1, _⟩ := propertyPredicate_facts m key value
  unfold propertyMapOf
  rw [if_neg (not_not.2 h0), h1]
  cases m <;> decide

theorem BuildPredicates.predicate_propertyPredicate (RegExp : JsValue → Option JsValue)
    (i : Nat) (st : BuildState) (m : PropertyMap) (key : String) (value : Option String) :
    ∃ st', BuildPredicates.predicate RegExp i st (propertyPredicate m.opCode key value) =
        .ok st' ∧
      st'.properties m =
        setPatternProperty (st.properties m) i (.str key) (propertyValue value) ∧
      (∀ m', m' ≠ m → st'.properties m' = st.properties m') ∧
      st'.predicate = st.predicate ∧ st'.predicates = st.predicates ∧
      st'.pending = st.pending := by
  obtain ⟨h0, h1, hlen, hcheck, hkey, hval⟩ := propertyPredicate_facts m key value
  cases m
  · refine ⟨_, BuildPredicates.predicate_set RegExp i st _ h0 h1 hlen hcheck, ?_, ?_,
      rfl, rfl, rfl⟩
    · rw [hkey, hval]; rfl
    · intro m' hm; cases m' <;> first | rfl | exact absurd rfl hm
  · refine ⟨_, BuildPredicates.predicate_is RegExp i st _ h0 h1 hlen hcheck, ?_, ?_,
      rfl, rfl, rfl⟩
    · rw [hkey, hval]; rfl
    · intro m' hm; cases m' <;> first | rfl | exact absurd rfl hm
  · refine ⟨_, BuildPredicates.predicate_is_not RegExp i st _ h0 h1 hlen hcheck, ?_, ?_,
      rfl, rfl, rfl⟩
    · rw [hkey, hval]; rfl
    · intro m' hm; cases m' <;> first | rfl | exact absurd rfl hm

/-- C21 (counterexample). In `((identifier) @a (#set! k "1") (#set! k "2"))` the first
predicate of pattern 0 is a valid `set!` with key `k` and value `"1"`, but after
construction the set-properties table at pattern 0 maps `k` to `"2"`: the second predicate
has overwritten the entry.  In `((identifier) @a (#set! __proto__ "x"))` the predicate is
a valid `set!` with key `__proto__` and value `"x"`, but after construction the object at
pattern 0 has no property: the store went to the setter inherited from
`Object.prototype`. -/
theorem set_predicate_overwritten_counterexample :
    (GetPredicates setTwiceQuery).get? 0 =
      some [propertyPredicate "set!" "k" (some "1"), propertyPredicate "set!" "k" (some "2")] ∧
    (∃ st, BuildPredicates anyRegExp (GetPredicates setTwiceQuery) = .ok st ∧
      st.pending = none ∧
      propertyAt (st.properties .set) 0 (.str "k") = some (.str "2")) ∧
    (some (JsValue.str "2") ≠ some (propertyValue (some "1"))) ∧
    (GetPredicates setProtoQuery).get? 0 =
      some [propertyPredicate "set!" "__proto__" (some "x")] ∧
    (∃ st, BuildPredicates anyRegExp (GetPredicates setProtoQuery) = .ok st ∧
      st.pending = none ∧ st.setProperties = [some { properties := [] }] ∧
      propertyAt (st.properties .set) 0 (.str "__proto__") = none) := by
  refine ⟨by decide, ⟨_, rfl, rfl, by decide⟩, by decide, by decide,
    ⟨_, rfl, rfl, rfl, by decide⟩⟩

/-- C21 (amended). When the construction of a query goes through (`BuildPredicates` on
the arrays that `GetPredicates` makes of the engine query), for every pattern `i` and every
predicate `(#op key)` or `(#op key value)` of it with string operands, `op` being `set!`,
`is?` or `is-not?` and `key` not being `__proto__`, that is not followed in the pattern by
a predicate of the same operator with the same key: the object of the table of the
operator (set, asserted, refuted properties) at index `i` has the property `key` with the
value `value`, or with the null marker when there is no value operand.  In every state the
loop body accepts such a predicate, stores the key in the object of that table at the
pattern's index, and leaves the other two tables, the descriptor list of the pattern, the
array of descriptor lists and the pending exception as they were. -/
theorem property_predicate_recorded (RegExp : JsValue → Option JsValue)
    (ts_query : TSQuery) (st : BuildState) (i j : Nat)
    (description : List (List JsValue)) (m : PropertyMap) (key : String)
    (value : Option String)
    (hbuilt : BuildPredicates RegExp (GetPredicates ts_query) = .ok st)
    (hpattern : (GetPredicates ts_query).get? i = some description)
    (hpredicate : description.get? j = some (propertyPredicate m.opCode key value))
    (hkey : key ≠ "__proto__")
    (hlast : ∀ j' later, j < j' → description.get? j' = some later →
      ¬ writesProperty m (.str key) later) :
    propertyAt (st.properties m) i (.str key) = some (propertyValue value) ∧
    (∀ (i0 : Nat) (st0 : BuildState),
      ∃ st1, BuildPredicates.predicate RegExp i0 st0 (propertyPredicate m.opCode key value) =
          .ok st1 ∧
        st1.properties m =
          setPatternProperty (st0.properties m) i0 (.str key) (propertyValue value) ∧
        (∀ m', m' ≠ m → st1.properties m' = st0.properties m') ∧
        st1.predicate = st0.predicate ∧ st1.predicates = st0.predicates ∧
        st1.pending = st0.pending) := by
  refine ⟨?_, fun i0 st0 =>
    BuildPredicates.predicate_propertyPredicate RegExp i0 st0 m key value⟩
  obtain ⟨_, _, _, _, hstep, hval⟩ := propertyPredicate_facts m key value
  have hw := propertyMapOf_propertyPredicate m key value
  have hi : i < (GetPredicates ts_query).length := (List.get?_eq_some.1 hpattern).1
  have hkey' : jsGet (propertyPredicate m.opCode key value) 3 ≠ .str "__proto__" := by
    rw [hstep]
    intro h
    exact hkey (JsValue.str.inj h)
  unfold BuildPredicates at hbuilt
  have h := BuildPredicates.descriptions_sets RegExp m (propertyPredicate m.opCode key value)
    description j hpredicate hw (by rw [hstep]; exact hlast) hkey' (GetPredicates ts_query)
    i 0 _ st hbuilt hpattern (by cases m <;> simpa [BuildState.properties] using hi)
  rw [Nat.zero_add, hstep, hval] at h
  exact h

/-- C21 (amended), on the second pattern of a query with the patterns
`((identifier) @a (#is? local))` and
`((identifier) @a (#set! kind "var") (#is-not? exported))`. -/
theorem property_predicate_recorded_witness :
    (∃ st, BuildPredicates anyRegExp (GetPredicates propertiesQuery) = .ok st ∧
      (GetPredicates propertiesQuery).get? 1 =
        some [propertyPredicate PropertyMap.set.opCode "kind" (some "var"),
              propertyPredicate PropertyMap.refuted.opCode "exported" none] ∧
      st.setProperties = [none, some { properties := [(.str "kind", .str "var")] }] ∧
      st.assertedProperties = [some { properties := [(.str "local", .null)] }, none] ∧
      st.refutedProperties = [none, some { properties := [(.str "exported", .null)] }] ∧
      st.predicates = [some [], some []] ∧
      propertyAt (st.properties .set) 1 (.str "kind") = some (propertyValue (some "var"))) :=
  ⟨_, rfl, by decide, rfl, rfl, rfl, rfl,
    (property_predicate_recorded anyRegExp propertiesQuery _ 1 0
      [propertyPredicate PropertyMap.set.opCode "kind" (some "var"),
       propertyPredicate PropertyMap.refuted.opCode "exported" none]
      .set "kind" (some "var") rfl (by decide) (by decide) (by decide)
      (fun j' later hlt hget => by
        match j', hlt, hget with
        | 1, _, hget =>
          simp only [List.get?_cons_succ, List.get?_cons_zero, Option.some.injEq] at hget
          subst hget
          decide
        | n + 2, _, hget => simp at hget)).1⟩

/-! ### The logging hook -/

theorem sub64_of_le (a b : Nat) (hle : b ≤ a) (ha : a < 2 ^ 64) : sub64 a b = a - b := by
  unfold sub64
  rw [show a + 2 ^ 64 - b = (a - b) + 2 ^ 64 by omega, Nat.add_mod_right]
  exact Nat.mod_eq_of_lt (by omega)

theorem stringFind.search_char_skip (c : Char) (pre rest : List Char) (hpre : c ∉ pre) :
    ∀ pos, stringFind.search [c] (pre ++ c :: rest) pos = pos + pre.length := by
  induction pre with
  | nil =>
    intro pos
    simp [stringFind.search, List.isPrefixOf]
  | cons x xs ih =>
    intro pos
    have hx : c ≠ x := fun h => hpre (h ▸ List.mem_cons_self _ _)
    have hxs : c ∉ xs := fun h => hpre (List.mem_cons_of_mem _ h)
    have hp : [c].isPrefixOf (x :: (xs ++ c :: rest)) = false := by
      simp [List.isPrefixOf, hx]
    rw [List.cons_append]
    unfold stringFind.search
    rw [hp]
    simp only [Bool.false_eq_true, if_false]
    rw [ih hxs]
    simp only [List.length_cons]
    omega

theorem stringFind.search_char_none (c : Char) (l : List Char) (hl : c ∉ l) :
    ∀ pos, stringFind.search [c] l pos = npos := by
  induction l with
  | nil => intro pos; simp [stringFind.search]
  | cons x xs ih =>
    intro pos
    have hx : c ≠ x := fun h => hl (h ▸ List.mem_cons_self _ _)
    have hxs : c ∉ xs := fun h => hl (List.mem_cons_of_mem _ h)
    have hp : [c].isPrefixOf (x :: xs) = false := by
      simp [List.isPrefixOf, hx]
    unfold stringFind.search
    rw [hp]
    simp only [Bool.false_eq_true, if_false]
    exact ih hxs _

theorem separator_not_prefix (x : Char) (xs rest : List Char)
    (h : ¬ [',', ' '] <:+: x :: xs) :
    [',', ' '].isPrefixOf (x :: xs ++ ',' :: ' ' :: rest) = false := by
  cases xs with
  | nil =>
    simp [List.isPrefixOf]
  | cons y ys =>
    by_contra hp
    rw [Bool.not_eq_false] at hp
    simp only [List.cons_append, List.isPrefixOf, Bool.and_true, Bool.and_eq_true,
      beq_iff_eq] at hp
    apply h
    rw [← hp.1, ← hp.2]
    exact ⟨[], ys, rfl⟩

theorem not_infix_tail (x : Char) (xs : List Char) (h : ¬ [',', ' '] <:+: x :: xs) :
    ¬ [',', ' '] <:+: xs := by
  intro hx
  apply h
  obtain ⟨s, t, hst⟩ := hx
  exact ⟨x :: s, t, by rw [← hst]; rfl⟩

theorem stringFind.search_separator_skip (v rest : List Char)
    (hv : ¬ [',', ' '] <:+: v) :
    ∀ pos, stringFind.search [',', ' '] (v ++ ',' :: ' ' :: rest) pos = pos + v.length := by
  induction v with
  | nil =>
    intro pos
    simp [stringFind.search, List.isPrefixOf]
  | cons x xs ih =>
    intro pos
    have hp := separator_not_prefix x xs rest hv
    rw [List.cons_append] at hp ⊢
    unfold stringFind.search
    rw [hp]
    simp only [Bool.false_eq_true, if_false]
    rw [ih (not_infix_tail x xs hv)]
    simp only [List.length_cons]
    omega

theorem stringFind.search_separator_none (v : List Char) (hv : ¬ [',', ' '] <:+: v) :
    ∀ pos, stringFind.search [',', ' '] v pos = npos := by
  induction v with
  | nil => intro pos; simp [stringFind.search]
  | cons x xs ih =>
    intro pos
    have hp : [',', ' '].isPrefixOf (x :: xs) = false := by
      by_contra hp
      rw [Bool.not_eq_false] at hp
      exact hv (List.isPrefixOf_iff_prefix.1 hp).isInfix
    unfold stringFind.search
    rw [hp]
    simp only [Bool.false_eq_true, if_false]
    exact ih (not_infix_tail x xs hv) _

theorem stringFind_at (pre suffix pattern : List Char) :
    stringFind (pre ++ suffix) pattern pre.length =
      stringFind.search pattern suffix pre.length := by
  unfold stringFind
  rw [if_neg (by simp), List.drop_left]

theorem substr_at (pre suffix : List Char) (count : Nat) :
    substr (pre ++ suffix) pre.length count = suffix.take count := by
  unfold substr
  rw [List.drop_left]

/-- One pass of the loop of `Logger::Log` over a parameter `key:value` that follows the
separator at the end of `pre`. -/
theorem Logger.Log.loop_pass (message pre sep k v tail : List Char) (fuel : Nat)
    (acc : JsObject)
    (hmsg : message = pre ++ sep ++ (k ++ ':' :: (v ++ tail)))
    (hsize : message.length < npos) (hk : ':' ∉ k) :
    Logger.Log.loop message (fuel + 1) sep pre.length acc =
      Logger.Log.loop message fuel [',', ' ']
        (stringFind.search [',', ' '] (v ++ tail) (pre.length + sep.length + k.length + 1))
        (JsObject.set acc (.str (String.mk k))
          (.str (String.mk ((v ++ tail).take
            (sub64 (stringFind.search [',', ' '] (v ++ tail)
                (pre.length + sep.length + k.length + 1))
              (pre.length + sep.length + k.length + 1)))))) := by
  have hlen : message.length =
      pre.length + sep.length + k.length + 1 + (v ++ tail).length := by
    rw [hmsg]
    simp only [List.length_append, List.length_cons]
    omega
  have hnpos : npos = 2 ^ 64 - 1 := rfl
  have hkeypos : (pre.length + sep.length) % 2 ^ 64 = (pre ++ sep).length := by
    rw [List.length_append]
    exact Nat.mod_eq_of_lt (by omega)
  have hvsp : stringFind message [':'] (pre ++ sep).length =
      (pre ++ sep ++ k).length := by
    rw [hmsg, stringFind_at, stringFind.search_char_skip ':' k (v ++ tail) hk,
      List.length_append (pre ++ sep)]
  have hvalpos : ((pre ++ sep ++ k).length + 1) % 2 ^ 64 =
      (pre ++ sep ++ k ++ [':']).length := by
    rw [List.length_append (pre ++ sep ++ k), List.length_singleton]
    apply Nat.mod_eq_of_lt
    simp only [List.length_append]
    omega
  have hsep : stringFind message [',', ' '] (pre ++ sep ++ k).length =
      stringFind.search [',', ' '] (v ++ tail) (pre.length + sep.length + k.length + 1) := by
    have hm : message = (pre ++ sep ++ k) ++ ':' :: (v ++ tail) := by
      rw [hmsg]; simp only [List.append_assoc]
    rw [hm, stringFind_at, stringFind.search]
    have hp : [',', ' '].isPrefixOf (':' :: (v ++ tail)) = false := by
      simp [List.isPrefixOf]
    rw [hp]
    simp only [Bool.false_eq_true, if_false, List.length_append]
  have hkey : substr message (pre ++ sep).length
      (sub64 (pre ++ sep ++ k).length (pre ++ sep).length) = k := by
    rw [sub64_of_le _ _ (by simp) (by simp only [List.length_append]; omega)]
    have hm : message = (pre ++ sep) ++ (k ++ ':' :: (v ++ tail)) := by rw [hmsg]
    rw [hm, substr_at, List.length_append (pre ++ sep), Nat.add_sub_cancel_left,
      List.take_left]
  have hvalue : ∀ count, substr message (pre ++ sep ++ k ++ [':']).length count =
      (v ++ tail).take count := by
    intro count
    have hm : message = (pre ++ sep ++ k ++ [':']) ++ (v ++ tail) := by
      rw [hmsg]; simp only [List.append_assoc, List.singleton_append]
    rw [hm, substr_at]
  have hlen2 : (pre ++ sep ++ k ++ [':']).length =
      pre.length + sep.length + k.length + 1 := by
    simp only [List.length_append, List.length_singleton]
  rw [Logger.Log.loop, if_neg (by omega)]
  simp only
  rw [hkeypos, hvsp, if_neg (by simp only [List.length_append]; omega), hvalpos, hsep, hkey,
    hvalue, hlen2]

theorem renderParams_cons_nil (k v : List Char) :
    renderParams [(k, v)] = k ++ ':' :: (v ++ []) := by
  simp [renderParams]

theorem renderParams_cons_cons (k v : List Char) (q : List Char × List Char)
    (rest : List (List Char × List Char)) :
    renderParams ((k, v) :: q :: rest) =
      k ++ ':' :: (v ++ ',' :: ' ' :: renderParams (q :: rest)) := by
  simp [renderParams]

theorem renderParams_length (ps : List (List Char × List Char)) :
    ps.length ≤ (renderParams ps).length := by
  induction ps with
  | nil => simp [renderParams]
  | cons p rest ih =>
    obtain ⟨k, v⟩ := p
    cases rest with
    | nil =>
      simp only [renderParams, List.length_append, List.length_cons, List.length_nil]
      omega
    | cons q rest =>
      rw [renderParams_cons_cons]
      simp only [List.length_append, List.length_cons] at ih ⊢
      omega

/-- The loop of `Logger::Log` over the parameters that follow the separator at the end of
`pre`: every parameter is stored, in order. -/
theorem Logger.Log.loop_params (message : List Char) (hsize : message.length < npos)
    (rest : List (List Char × List Char)) :
    ∀ (k v pre sep : List Char) (acc : JsObject) (fuel : Nat),
      message = pre ++ sep ++ renderParams ((k, v) :: rest) →
      (∀ q ∈ (k, v) :: rest, ':' ∉ q.1) →
      (∀ q ∈ (k, v) :: rest, ¬ [',', ' '] <:+: q.2) →
      rest.length + 2 ≤ fuel →
      Logger.Log.loop message fuel sep pre.length acc =
        some (((k, v) :: rest).foldl
          (fun o q => JsObject.set o (.str (String.mk q.1)) (.str (String.mk q.2))) acc) := by
  have hnpos : npos = 2 ^ 64 - 1 := rfl
  induction rest with
  | nil =>
    intro k v pre sep acc fuel hmsg hkeys hvalues hfuel
    obtain ⟨f, rfl⟩ : ∃ f, fuel = f + 1 + 1 := ⟨fuel - 2, by simp at hfuel; omega⟩
    rw [renderParams_cons_nil] at hmsg
    have hk := hkeys (k, v) (List.mem_cons_self _ _)
    have hv := hvalues (k, v) (List.mem_cons_self _ _)
    have hlen : message.length = pre.length + sep.length + k.length + 1 + v.length := by
      rw [hmsg]
      simp only [List.length_append, List.length_cons, List.length_nil]
      omega
    rw [Logger.Log.loop_pass message pre sep k v [] (f + 1) acc hmsg hsize hk,
      List.append_nil, stringFind.search_separator_none v hv, Logger.Log.loop, if_pos rfl,
      sub64_of_le _ _ (by omega) (by omega), List.take_of_length_le (by omega)]
    rfl
  | cons q rest ih =>
    intro k v pre sep acc fuel hmsg hkeys hvalues hfuel
    obtain ⟨k2, v2⟩ := q
    obtain ⟨f, rfl⟩ : ∃ f, fuel = f + 1 := ⟨fuel - 1, by simp at hfuel; omega⟩
    rw [renderParams_cons_cons] at hmsg
    have hk := hkeys (k, v) (List.mem_cons_self _ _)
    have hv := hvalues (k, v) (List.mem_cons_self _ _)
    have hlen : message.length = pre.length + sep.length + k.length + 1 + v.length +
        (',' :: ' ' :: renderParams ((k2, v2) :: rest)).length := by
      rw [hmsg]
      simp only [List.length_append, List.length_cons]
      omega
    rw [Logger.Log.loop_pass message pre sep k v (',' :: ' ' :: renderParams ((k2, v2) :: rest))
        f acc hmsg hsize hk,
      stringFind.search_separator_skip v _ hv,
      sub64_of_le _ _ (by omega) (by simp only [List.length_cons] at hlen; omega),
      Nat.add_sub_cancel_left, List.take_left]
    have hpre : (pre ++ sep ++ k ++ ':' :: v).length =
        pre.length + sep.length + k.length + 1 + v.length := by
      simp only [List.length_append, List.length_cons]
      omega
    rw [← hpre]
    rw [ih k2 v2 (pre ++ sep ++ k ++ ':' :: v) [',', ' '] _ f
      (by rw [hmsg]; simp only [List.append_assoc, List.cons_append, List.nil_append])
      (fun p hp => hkeys p (List.mem_cons_of_mem _ hp))
      (fun p hp => hvalues p (List.mem_cons_of_mem _ hp))
      (by simp only [List.length_cons] at hfuel ⊢; omega)]
    rfl

/-- Stores of parameters with pairwise distinct keys, none of them `__proto__` and none of
them a key of the object yet, add one own property per parameter, in order, and leave the
prototype as it is. -/
theorem foldl_set_fresh (ps : List (List Char × List Char)) :
    ∀ acc : JsObject,
      (∀ q ∈ ps, ∀ kv ∈ acc.properties, kv.1 ≠ JsValue.str (String.mk q.1)) →
      (∀ q ∈ ps, q.1 ≠ "__proto__".toList) →
      (ps.map (fun q => q.1)).Nodup →
      ps.foldl (fun o q => JsObject.set o (.str (String.mk q.1)) (.str (String.mk q.2))) acc =
        { acc with properties := acc.properties ++ (paramsObject ps).properties } := by
  induction ps with
  | nil => intro acc _ _ _; simp [paramsObject]
  | cons p rest ih =>
    intro acc hfresh hproto hnodup
    obtain ⟨k, v⟩ := p
    have hkey : ¬ (JsValue.str (String.mk k) = .str "__proto__" ∧
        acc.nullPrototype = false) := by
      rintro ⟨heq, _⟩
      exact hproto (k, v) (List.mem_cons_self _ _) (congrArg String.data (JsValue.str.inj heq))
    have hset : JsObject.set acc (.str (String.mk k)) (.str (String.mk v)) =
        { acc with
          properties := acc.properties ++ [(.str (String.mk k), .str (String.mk v))] } := by
      unfold JsObject.set
      rw [if_neg, if_neg hkey]
      intro hany
      obtain ⟨kv, hkv, hk⟩ := List.any_eq_true.1 hany
      exact hfresh (k, v) (List.mem_cons_self _ _) kv hkv (by simpa using hk)
    rw [List.map_cons, List.nodup_cons] at hnodup
    rw [List.foldl_cons, hset, ih _ _ (fun q hq => hproto q (List.mem_cons_of_mem _ hq))
      hnodup.2]
    · simp [paramsObject]
    · intro q hq kv hkv
      rcases List.mem_append.1 hkv with hkv | hkv
      · exact hfresh q (List.mem_cons_of_mem _ hq) kv hkv
      · simp only [List.mem_singleton] at hkv
        subst hkv
        intro heq
        simp only [JsValue.str.injEq] at heq
        have hdata : k = q.1 := congrArg String.data heq
        apply hnodup.1
        show k ∈ List.map (fun q => q.1) rest
        rw [hdata]
        exact List.mem_map_of_mem _ hq

theorem stringFind.search_bounds (pattern : List Char) (hpattern : pattern ≠ [])
    (l : List Char) :
    ∀ pos, stringFind.search pattern l pos = npos ∨
      (pos ≤ stringFind.search pattern l pos ∧
        stringFind.search pattern l pos + pattern.length ≤ pos + l.length) := by
  induction l with
  | nil =>
    intro pos
    left
    rw [stringFind.search, if_neg hpattern]
  | cons c cs ih =>
    intro pos
    rw [stringFind.search]
    by_cases hp : pattern.isPrefixOf (c :: cs) = true
    · rw [if_pos hp]
      right
      have := (List.isPrefixOf_iff_prefix.1 hp).length_le
      omega
    · rw [if_neg hp]
      rcases ih (pos + 1) with h | ⟨h1, h2⟩
      · exact Or.inl h
      · right
        simp only [List.length_cons]
        omega

theorem stringFind_bounds (message pattern : List Char) (hpattern : pattern ≠ [])
    (pos : Nat) :
    stringFind message pattern pos = npos ∨
      (pos ≤ stringFind message pattern pos ∧
        stringFind message pattern pos + pattern.length ≤ message.length) := by
  unfold stringFind
  by_cases h : pos > message.length
  · rw [if_pos h]; exact Or.inl rfl
  · rw [if_neg h]
    rcases stringFind.search_bounds pattern hpattern (message.drop pos) pos with h1 | ⟨h1, h2⟩
    · exact Or.inl h1
    · right
      rw [List.length_drop] at h2
      omega

/-- The loop of `Logger::Log` is left before its passes are used up, on every message. -/
theorem Logger.Log.loop_total (message : List Char) (hsize : message.length < npos) :
    ∀ (fuel : Nat) (sep : List Char) (pos : Nat) (acc : JsObject),
      1 ≤ fuel → 1 ≤ sep.length →
      (pos = npos ∨ (pos + sep.length ≤ message.length ∧ message.length < fuel + pos)) →
      ∃ params, Logger.Log.loop message fuel sep pos acc = some params := by
  have hnpos : npos = 2 ^ 64 - 1 := rfl
  intro fuel
  induction fuel with
  | zero => intro sep pos acc h; omega
  | succ fuel ih =>
    intro sep pos acc _ hsep hpos
    rw [Logger.Log.loop]
    by_cases h0 : pos = npos
    · rw [if_pos h0]; exact ⟨_, rfl⟩
    · rw [if_neg h0]
      simp only
      have hp : pos + sep.length ≤ message.length ∧ message.length < fuel + 1 + pos := by
        rcases hpos with h | h
        · exact absurd h h0
        · exact h
      have hkey : (pos + sep.length) % 2 ^ 64 = pos + sep.length :=
        Nat.mod_eq_of_lt (by omega)
      rw [hkey]
      by_cases h1 : stringFind message [':'] (pos + sep.length) = npos
      · rw [if_pos h1]; exact ⟨_, rfl⟩
      · rw [if_neg h1]
        have hv : pos + sep.length ≤ stringFind message [':'] (pos + sep.length) ∧
            stringFind message [':'] (pos + sep.length) + 1 ≤ message.length := by
          rcases stringFind_bounds message [':'] (by simp) (pos + sep.length) with h | h
          · exact absurd h h1
          · simpa using h
        apply ih
        · omega
        · simp
        · rcases stringFind_bounds message [',', ' '] (by simp)
            (stringFind message [':'] (pos + sep.length)) with h | ⟨h2, h3⟩
          · exact Or.inl h
          · right
            simp only [List.length_cons, List.length_nil] at h3 ⊢
            omega

/-- The function `Logger::Log` makes its call for every message that a `std::string` can
hold. -/
theorem Logger.Log_total (type : TSLogType) (message : List Char)
    (hsize : message.length < npos) : ∃ call, Logger.Log type message = some call := by
  have hpos : stringFind message [' '] 0 = npos ∨
      (stringFind message [' '] 0 + [' '].length ≤ message.length ∧
        message.length < message.length + 1 + stringFind message [' '] 0) := by
    rcases stringFind_bounds message [' '] (by simp) 0 with h | ⟨_, h⟩
    · exact Or.inl h
    · exact Or.inr ⟨h, by omega⟩
  obtain ⟨params, hparams⟩ := Logger.Log.loop_total message hsize (message.length + 1) [' ']
    (stringFind message [' '] 0) JsObject.new (by omega) (by simp) hpos
  unfold Logger.Log
  simp only
  rw [hparams]
  exact ⟨_, rfl⟩


/-- C25 (counterexample). The line `reduce sym: expr, count: 1` has the form
`name param1: value1, param2: value2` with a blank after each colon; the hook is called
with the values ` expr` and ` 1`, each with the blank in front, not with `expr` and `1`.
On the line `reduce __proto__:x, count:1` the hook is called with an object that has no
property `__proto__`: the store went to the setter inherited from `Object.prototype`. -/
theorem logger_blank_after_colon_counterexample :
    Logger.Log .TSLogTypeParse "reduce sym: expr, count: 1".toList =
      some { name := .str "reduce",
             params := { properties := [(.str "sym", .str " expr"), (.str "count", .str " 1")] },
             type_name := .str "parse" } ∧
    (({ properties := [(.str "sym", .str " expr"), (.str "count", .str " 1")] } : JsObject) ≠
      paramsObject [("sym".toList, "expr".toList), ("count".toList, "1".toList)]) ∧
    Logger.Log .TSLogTypeParse "reduce __proto__:x, count:1".toList =
      some { name := .str "reduce",
             params := { properties := [(.str "count", .str "1")] },
             type_name := .str "parse" } := by
  decide

/-- C25 (amended). For every log line `name key1:value1, key2:value2, ...` with no blank
between a colon and its value, in which the name contains no blank, no key contains a
colon or is `__proto__`, no value contains the separator `, `, and the keys are pairwise
distinct, `Logger::Log` calls the host function with the name, the object whose
properties are the keys, each with its value, and the type `parse` for `TSLogTypeParse`
and `lex` otherwise. -/
theorem logger_parses_line (type : TSLogType) (name : List Char)
    (params : List (List Char × List Char))
    (hname : ' ' ∉ name) (hkeys : ∀ p ∈ params, ':' ∉ p.1)
    (hproto : ∀ p ∈ params, p.1 ≠ "__proto__".toList)
    (hvalues : ∀ p ∈ params, ¬ [',', ' '] <:+: p.2)
    (hdistinct : (params.map (fun p => p.1)).Nodup)
    (hsize : (logLine name params).length < npos) :
    Logger.Log type (logLine name params) =
      some { name := .str (String.mk name),
             params := paramsObject params,
             type_name := .str (if type = .TSLogTypeParse then "parse" else "lex") } := by
  have hnpos : npos = 2 ^ 64 - 1 := rfl
  cases params with
  | nil =>
    simp only [logLine] at hsize ⊢
    have hfind : stringFind name [' '] 0 = npos := by
      unfold stringFind
      rw [if_neg (by omega), List.drop_zero, stringFind.search_char_none ' ' name hname]
    unfold Logger.Log
    simp only
    rw [hfind, Logger.Log.loop, if_pos rfl]
    simp only [substr, List.drop_zero, paramsObject, List.map_nil, JsObject.new]
    rw [List.take_of_length_le (by omega)]
  | cons p rest =>
    obtain ⟨k, v⟩ := p
    have hline : logLine name ((k, v) :: rest) =
        name ++ [' '] ++ renderParams ((k, v) :: rest) := by
      simp [logLine]
    have hfind : stringFind (logLine name ((k, v) :: rest)) [' '] 0 = name.length := by
      have h := stringFind_at [] (logLine name ((k, v) :: rest)) [' ']
      simp only [List.nil_append, List.length_nil] at h
      rw [h, hline, List.append_assoc, List.singleton_append,
        stringFind.search_char_skip ' ' name _ hname, Nat.zero_add]
    have hrender := renderParams_length ((k, v) :: rest)
    have hlen : (logLine name ((k, v) :: rest)).length =
        name.length + 1 + (renderParams ((k, v) :: rest)).length := by
      rw [hline]
      simp only [List.length_append, List.length_singleton]
    unfold Logger.Log
    simp only
    rw [hfind, Logger.Log.loop_params _ hsize rest k v name [' '] JsObject.new _ hline hkeys
      hvalues (by simp only [List.length_cons] at hrender; omega)]
    simp only
    rw [foldl_set_fresh _ JsObject.new (by intro q _ kv hkv; simp [JsObject.new] at hkv)
      hproto hdistinct]
    have hsub : substr (logLine name ((k, v) :: rest)) 0 name.length = name := by
      unfold substr
      rw [List.drop_zero, hline, List.append_assoc, List.take_left]
    rw [hsub]
    rfl

/-- C25 (amended), on the line `reduce sym:expr, count:1` logged by the lexer. -/
theorem logger_parses_line_witness :
    (' ' ∉ "reduce".toList ∧
      (∀ p ∈ [("sym".toList, "expr".toList), ("count".toList, "1".toList)], ':' ∉ p.1) ∧
      (∀ p ∈ [("sym".toList, "expr".toList), ("count".toList, "1".toList)],
        p.1 ≠ "__proto__".toList) ∧
      (∀ p ∈ [("sym".toList, "expr".toList), ("count".toList, "1".toList)],
        ¬ [',', ' '] <:+: p.2) ∧
      logLine "reduce".toList [("sym".toList, "expr".toList), ("count".toList, "1".toList)] =
        "reduce sym:expr, count:1".toList) ∧
    Logger.Log .TSLogTypeLex
        (logLine "reduce".toList
          [("sym".toList, "expr".toList), ("count".toList, "1".toList)]) =
      some { name := .str (String.mk "reduce".toList),
             params :=
               paramsObject [("sym".toList, "expr".toList), ("count".toList, "1".toList)],
             type_name :=
               .str (if TSLogType.TSLogTypeLex = .TSLogTypeParse then "parse" else "lex") } :=
  ⟨by decide,
    logger_parses_line .TSLogTypeLex "reduce".toList
      [("sym".toList, "expr".toList), ("count".toList, "1".toList)]
      (by decide) (by decide) (by decide) (by decide) (by decide) (by decide)⟩

end NodeTreeSitter
